import Mathlib

/-!
Expem: portfolio analytics, recommendation rules and market data

A shallow embedding of the investment model
(`expemback/models/investment.model.js`) and of the investment controller
(`expemback/controllers/investment.controller.js`), of the market data routes
(`expemback/routes/investment.js`) and of the stock waterfall of the market
data service (`expemback/services/marketDataService.js`).

Numbers.

A JavaScript `Number` is embedded as `JSNum`: the three IEEE special values
`NaN`, `+Infinity`, `-Infinity`, or a finite value carried as an exact rational.
The operators `add`, `sub`, `mul`, `div` are exact on finite values (no
rounding, no overflow to infinity; `Math.pow` alone overflows) and the two
zeros are identified, so `x / 0` is `+Infinity` for every positive `x`.
What they keep is what the code's guards are about: division by zero, `NaN`
propagation, comparisons that are false on `NaN`, and truthiness (`0` and
`NaN` are falsy).  A statement proved with them is about the program when both
of its sides perform the same operations in the same order.  Where a claim
equates two different computations, rounding decides: `round64` rounds an exact
result to binary64 and `add64`, `sub64` are the operators of the program.

A field that may be absent from an object is a `JSVal` (`none` is
`undefined`); arithmetic reads it through `toNumber`, as JavaScript does.

Dates are integers, the milliseconds since the epoch; the current time
(`new Date()`) is an explicit argument `now`.
-/

namespace Expem

/-- A JavaScript number: a special value or a finite (exact) value. -/
inductive JSNum where
  | nan
  | posInf
  | negInf
  | fin (q : ℚ)
  deriving DecidableEq

namespace JSNum

/-- Unary minus. -/
def neg : JSNum → JSNum
  | nan => nan
  | posInf => negInf
  | negInf => posInf
  | fin q => fin (-q)

/-- The `+` operator on numbers. -/
def add : JSNum → JSNum → JSNum
  | nan, _ => nan
  | _, nan => nan
  | posInf, negInf => nan
  | negInf, posInf => nan
  | posInf, _ => posInf
  | _, posInf => posInf
  | negInf, _ => negInf
  | _, negInf => negInf
  | fin a, fin b => fin (a + b)

/-- The binary `-` operator. -/
def sub (a b : JSNum) : JSNum := add a (neg b)

/-- Product of an infinity (`pos` tells which one) with a finite value. -/
def infTimes (pos : Bool) (q : ℚ) : JSNum :=
  if q = 0 then nan
  else if (0 < q) = pos then posInf else negInf

/-- The `*` operator. -/
def mul : JSNum → JSNum → JSNum
  | nan, _ => nan
  | _, nan => nan
  | posInf, posInf => posInf
  | posInf, negInf => negInf
  | negInf, posInf => negInf
  | negInf, negInf => posInf
  | posInf, fin q => infTimes true q
  | negInf, fin q => infTimes false q
  | fin q, posInf => infTimes true q
  | fin q, negInf => infTimes false q
  | fin a, fin b => fin (a * b)

/-- The `/` operator.  A finite non-zero value over zero is an infinity with
the sign of the numerator, `0 / 0` is `NaN`. -/
def div : JSNum → JSNum → JSNum
  | nan, _ => nan
  | _, nan => nan
  | posInf, posInf => nan
  | posInf, negInf => nan
  | negInf, posInf => nan
  | negInf, negInf => nan
  | posInf, fin q => if q < 0 then negInf else posInf
  | negInf, fin q => if q < 0 then posInf else negInf
  | fin _, posInf => fin 0
  | fin _, negInf => fin 0
  | fin a, fin b =>
    if b = 0 then
      (if a = 0 then nan else if 0 < a then posInf else negInf)
    else fin (a / b)

/-- The `<` operator: false as soon as an operand is `NaN`. -/
def lt : JSNum → JSNum → Bool
  | nan, _ => false
  | _, nan => false
  | posInf, _ => false
  | _, negInf => false
  | negInf, _ => true
  | fin _, posInf => true
  | fin a, fin b => decide (a < b)

/-- The `>` operator. -/
def gt (a b : JSNum) : Bool := lt b a

/-- The `>=` operator: false as soon as an operand is `NaN`. -/
def ge : JSNum → JSNum → Bool
  | nan, _ => false
  | _, nan => false
  | posInf, _ => true
  | _, negInf => true
  | negInf, _ => false
  | fin _, posInf => false
  | fin a, fin b => decide (b ≤ a)

/-- Truthiness of a number: `0` and `NaN` are falsy. -/
def truthy : JSNum → Bool
  | nan => false
  | fin q => decide (q ≠ 0)
  | _ => true

/-- The function `Math.abs`. -/
def abs : JSNum → JSNum
  | nan => nan
  | posInf => posInf
  | negInf => posInf
  | fin q => fin |q|

/-- The function `Math.floor`. -/
def floor : JSNum → JSNum
  | fin q => fin (⌊q⌋ : ℤ)
  | x => x

/-- The function `Math.max` on two arguments. -/
def max : JSNum → JSNum → JSNum
  | nan, _ => nan
  | _, nan => nan
  | a, b => if lt a b then b else a

/-! ### Rounding to binary64

The operators above are exact.  The operators of the program round their
exact result to the nearest binary64 value; `add64` and `sub64` do so. -/

/-- The number of halvings that bring `n` below 2, at most `fuel` of them. -/
def log2Fuel : Nat → Nat → Nat
  | 0, _ => 0
  | fuel + 1, n => if n < 2 then 0 else log2Fuel fuel (n / 2) + 1

/-- The integer `⌊log₂ n⌋` for a positive `n`. -/
def natLog2 (n : Nat) : Nat := log2Fuel n n

/-- The integer `⌊log₂ (a / d)⌋`, for positive `a` and `d`. -/
def floorLog2 (a d : Nat) : Int :=
  let k : Int := (natLog2 a : Int) - (natLog2 d : Int)
  if d * 2 ^ k.toNat ≤ a * 2 ^ (-k).toNat then k else k - 1

/-- The multiple of the binary64 spacing at `q` that is nearest to `q`, the
even one of the two on a tie.  The spacing is `2 ^ e` with
`e = ⌊log₂ |q|⌋ - 52` (a significand of 53 bits), not below `2 ^ (-1074)`. -/
def nearest64 (q : ℚ) : ℚ :=
  let a := q.num.natAbs
  let d := q.den
  if a = 0 then 0
  else
    let e : Int := Max.max (floorLog2 a d - 52) (-1074)
    let n := a * 2 ^ (-e).toNat
    let dd := d * 2 ^ e.toNat
    let f := n / dd
    let r := n % dd
    let m := if 2 * r < dd then f else if dd < 2 * r then f + 1
      else if f % 2 = 0 then f else f + 1
    ((q.num.sign * ((m * 2 ^ e.toNat : Nat) : Int) : Int) : ℚ) / ((2 ^ (-e).toNat : Nat) : ℚ)

/-- The binary64 value of the exact result `q`: the nearest representable
value, infinite when that reaches `2 ^ 1024`. -/
def round64 (q : ℚ) : JSNum :=
  if 2 ^ 1024 ≤ |nearest64 q| then (if 0 < q then posInf else negInf)
  else fin (nearest64 q)

/-- The `+` operator of the program: the exact sum, rounded. -/
def add64 (a b : JSNum) : JSNum :=
  match add a b with
  | fin q => round64 q
  | x => x

/-- The binary `-` operator of the program: the exact difference, rounded. -/
def sub64 (a b : JSNum) : JSNum :=
  match sub a b with
  | fin q => round64 q
  | x => x

/-- A finite result beyond the range of binary64 is infinite. -/
def overflow64 (q : ℚ) : JSNum :=
  if 2 ^ 1024 ≤ q then posInf else if q ≤ -2 ^ 1024 then negInf else fin q

end JSNum

open JSNum

/-- A value read from an object field: `none` is `undefined`. -/
abbrev JSVal := Option JSNum

/-- Conversion applied by the arithmetic and relational operators:
`undefined` becomes `NaN`. -/
def toNumber : JSVal → JSNum
  | none => nan
  | some x => x

/-- Truthiness of a field value: `undefined`, `0` and `NaN` are falsy. -/
def JSVal.truthy : JSVal → Bool
  | none => false
  | some x => x.truthy

/-- The `||` operator: the left operand when it is truthy, else the right one. -/
def jsOr (a b : JSVal) : JSVal := if a.truthy then a else b

/-- The `===` comparison of a field value with a number (`NaN` equals nothing). -/
def strictEq (a : JSVal) (n : JSNum) : Bool :=
  match a with
  | some x => decide (x ≠ nan) && decide (x = n)
  | none => false

/-- The number of milliseconds in a day, `1000 * 60 * 60 * 24`. -/
def msPerDay : ℚ := 1000 * 60 * 60 * 24

/-- One entry of `performanceHistory`; the field `return` is named
`returnAmount` here, after the local it is computed into. -/
structure Snapshot where
  date : Int
  value : JSVal
  returnAmount : JSNum
  returnPercentage : JSNum
  deriving DecidableEq

/-- An investment record, the fields of `investmentSchema` that the analytics
read or write.  A field is a `JSVal` or an `Option` when the code guards
against its absence. -/
structure Investment where
  investmentType : Option String
  instrumentName : String
  principalAmount : JSVal
  currentValue : JSVal
  currentPrice : JSVal
  purchaseDate : Option Int
  riskLevel : Option String
  expectedReturn : JSVal
  actualReturn : JSVal
  isActive : Bool
  performanceHistory : List Snapshot
  targetAmount : JSVal
  targetDate : Option Int
  goalAchieved : Bool
  deriving DecidableEq

/-- Difference `new Date() - date` in milliseconds; `NaN` when the date is absent. -/
def msSince (now : Int) (date : Option Int) : JSNum :=
  match date with
  | some d => fin ((now - d : ℤ) : ℚ)
  | none => nan

/-! ## The model: virtuals of `investmentSchema` -/

/-- The virtual `currentROI`. -/
def currentROI (inv : Investment) : JSNum :=
  if strictEq inv.principalAmount (fin 0) then fin 0
  else mul (div (sub (toNumber inv.currentValue) (toNumber inv.principalAmount))
    (toNumber inv.principalAmount)) (fin 100)

/-- The virtual `daysInvested`. -/
def daysInvested (inv : Investment) (now : Int) : JSNum :=
  floor (div (msSince now inv.purchaseDate) (fin msPerDay))

/-- The virtual `profitLoss`. -/
def profitLoss (inv : Investment) : JSNum :=
  sub (toNumber inv.currentValue) (toNumber inv.principalAmount)

/-- The function `Math.pow`, after the cases of `Number::exponentiate`.  A
finite base raised to an integer exponent is exact; for a positive base and a
non-integer exponent the result is the approximation `approx` of the
implementation.  A result beyond the range of binary64 is infinite. -/
def mathPow (approx : ℚ → ℚ → ℚ) (base exponent : JSNum) : JSNum :=
  match exponent with
  | nan => nan
  | posInf =>
    match base with
    | nan => nan
    | posInf => posInf
    | negInf => posInf
    | fin b => if 1 < |b| then posInf else if |b| = 1 then nan else fin 0
  | negInf =>
    match base with
    | nan => nan
    | posInf => fin 0
    | negInf => fin 0
    | fin b => if 1 < |b| then fin 0 else if |b| = 1 then nan else posInf
  | fin e =>
    if e = 0 then fin 1
    else
      match base with
      | nan => nan
      | posInf => if 0 < e then posInf else fin 0
      | negInf =>
        if 0 < e then (if e.den = 1 ∧ e.num % 2 = 1 then negInf else posInf)
        else fin 0
      | fin b =>
        if b = 0 then (if 0 < e then fin 0 else posInf)
        else if e.den = 1 then overflow64 (b ^ e.num)
        else if b < 0 then nan
        else overflow64 (approx b e)

/-- The virtual `annualizedReturn`. -/
def annualizedReturn (approx : ℚ → ℚ → ℚ) (inv : Investment) (now : Int) : JSNum :=
  let daysDiff := div (abs (msSince now inv.purchaseDate)) (fin msPerDay)
  let years := div daysDiff (fin 365)
  if strictEq (some years) (fin 0) then fin 0
  else
    let totalReturn := div (toNumber inv.currentValue) (toNumber inv.principalAmount)
    mul (sub (mathPow approx totalReturn (div (fin 1) years)) (fin 1)) (fin 100)

namespace Model

/-- The instance method `updatePerformance(newValue, newPrice)` of the model up
to its last statement: the document `this` after the assignments and the push.
The method then returns `this.save()`, see `updatePerformanceAndSave`. -/
def updatePerformance (inv : Investment) (newValue newPrice : JSVal) (now : Int) :
    Investment :=
  let returnAmount := sub (toNumber newValue) (toNumber inv.principalAmount)
  let returnPercentage := mul (div returnAmount (toNumber inv.principalAmount)) (fin 100)
  { inv with
    currentValue := newValue
    currentPrice := if newPrice.truthy then newPrice else inv.currentPrice
    performanceHistory := inv.performanceHistory ++
      [{ date := now, value := newValue, returnAmount := returnAmount,
         returnPercentage := returnPercentage }]
    actualReturn := some returnPercentage }

/-- The call `doc.save()` after a performance update; `modified` lists the
values assigned to `Number` paths since the document was loaded.  Mongoose
refuses to cast `NaN` to a `Number` path and `save()` then rejects with a
validation error, nothing being written; every other number, infinite ones
too, and an absent value are accepted.  The write to the database itself is
taken to succeed. -/
def save (doc : Investment) (modified : List JSVal) : Except String Investment :=
  if modified.any (fun v => decide (v = some nan)) then
    .error "Investment validation failed"
  else .ok doc

/-- The instance method `updatePerformance(newValue, newPrice)` of the model:
the promise of `this.save()`, fulfilled with the saved document or rejected.
The `Number` paths it assigns are `currentValue`, `currentPrice` (only a
truthy value, never `NaN`), the three numbers of the snapshot and
`actualReturn`. -/
def updatePerformanceAndSave (inv : Investment) (newValue newPrice : JSVal) (now : Int) :
    Except String Investment :=
  let returnAmount := sub (toNumber newValue) (toNumber inv.principalAmount)
  let returnPercentage := mul (div returnAmount (toNumber inv.principalAmount)) (fin 100)
  save (updatePerformance inv newValue newPrice now)
    [newValue, newValue, some returnAmount, some returnPercentage, some returnPercentage]

end Model

/-! ## The controller -/

/-- The local `principal` of the analytics and recommendation loops:
`investment.principalAmount || 0`. -/
def principalOf (inv : Investment) : JSNum :=
  toNumber (jsOr inv.principalAmount (some (fin 0)))

/-- The local `currentValue` of the analytics and recommendation loops:
`investment.currentValue || investment.principalAmount || 0`. -/
def currentValueOf (inv : Investment) : JSNum :=
  toNumber (jsOr (jsOr inv.currentValue inv.principalAmount) (some (fin 0)))

/-- The local `roi` of the analytics and recommendation loops. -/
def roiOf (inv : Investment) : JSNum :=
  if gt (principalOf inv) (fin 0) then
    mul (div (sub (currentValueOf inv) (principalOf inv)) (principalOf inv)) (fin 100)
  else fin 0

/-- The local `daysInvested` of the recommendation loop. -/
def daysInvestedOf (inv : Investment) (now : Int) : JSNum :=
  match inv.purchaseDate with
  | some d => floor (div (msSince now (some d)) (fin msPerDay))
  | none => fin 0

/-- A recommendation `{type, investment, message, priority}`. -/
structure Recommendation where
  type : String
  investment : String
  message : String
  priority : String
  deriving DecidableEq

/-- The recommendation pushed by the loss rule. -/
def alertFor (inv : Investment) : Recommendation :=
  { type := "alert", investment := inv.instrumentName,
    message := "Consider reviewing this investment - significant loss detected",
    priority := "high" }

/-- The recommendation pushed by the profit rule. -/
def profitTakingFor (inv : Investment) : Recommendation :=
  { type := "profit_taking", investment := inv.instrumentName,
    message := "Consider taking profits - excellent performance achieved",
    priority := "medium" }

/-- The recommendation pushed by the goal rule. -/
def goalAchievedFor (inv : Investment) : Recommendation :=
  { type := "goal_achieved", investment := inv.instrumentName,
    message := "Investment goal achieved! Consider your next step",
    priority := "low" }

/-- The body of the `forEach` of `getRecommendations`: what one investment
pushes onto `recommendations`, in the order of the three `if` statements. -/
def recommendationsFor (inv : Investment) (now : Int) : List Recommendation :=
  (if lt (roiOf inv) (fin (-20)) then [alertFor inv] else []) ++
  (if gt (roiOf inv) (fin 50) && gt (daysInvestedOf inv now) (fin 365)
    then [profitTakingFor inv] else []) ++
  (if inv.targetAmount.truthy && ge (currentValueOf inv) (toNumber inv.targetAmount)
    then [goalAchievedFor inv] else [])

/-- The list `recommendations` built by `getRecommendations` from the
investments found for the user. -/
def getRecommendations (investments : List Investment) (now : Int) :
    List Recommendation :=
  investments.foldl (fun recs inv => recs ++ recommendationsFor inv now) []

/-- One element of `goalsWithProgress`. -/
structure GoalProgress where
  goal : Investment
  progress : JSNum
  remaining : JSNum
  daysToTarget : Option JSNum
  deriving DecidableEq

/-- The query of `getGoalProgress`: active investments whose `targetAmount`
exists and is greater than 0. -/
def isGoal (inv : Investment) : Bool :=
  inv.isActive && inv.targetAmount.isSome && gt (toNumber inv.targetAmount) (fin 0)

/-- The function `Math.ceil`. -/
def JSNum.ceil : JSNum → JSNum
  | fin q => fin (⌈q⌉ : ℤ)
  | x => x

/-- The mapping of `getGoalProgress` from a goal to its progress entry. -/
def goalWithProgress (goal : Investment) (now : Int) : GoalProgress :=
  { goal := goal
    progress :=
      if gt (toNumber goal.targetAmount) (fin 0) then
        mul (div (toNumber goal.currentValue) (toNumber goal.targetAmount)) (fin 100)
      else fin 0
    remaining := JSNum.max (sub (toNumber goal.targetAmount) (toNumber goal.currentValue)) (fin 0)
    daysToTarget :=
      match goal.targetDate with
      | some d => some (JSNum.ceil (div (fin ((d - now : ℤ) : ℚ)) (fin msPerDay)))
      | none => none }

/-- The list `goalsWithProgress` of `getGoalProgress`, from the stored
investments of the user. -/
def getGoalProgress (stored : List Investment) (now : Int) : List GoalProgress :=
  (stored.filter isGoal).map (fun g => goalWithProgress g now)

/-- The progress shown by the `InvestmentGoals` component:
`Math.min((goal.currentValue / goal.targetAmount) * 100, 100)`. -/
def progressPercentage (goal : Investment) : JSNum :=
  let p := mul (div (toNumber goal.currentValue) (toNumber goal.targetAmount)) (fin 100)
  match p with
  | nan => nan
  | p => if lt (fin 100) p then fin 100 else p

/-! ### `getPerformanceAnalytics`

The objects `typeGroups` and `riskGroups` are lists of groups in the order
in which their keys were first inserted, the order in which `Object.values`
enumerates them (the keys are type and risk names, not array indices and not
members of `Object.prototype`). -/

/-- A value of `typeGroups`. -/
structure TypeGroup where
  _id : String
  count : Nat
  totalPrincipal : JSNum
  totalCurrentValue : JSNum
  totalProfitLoss : JSNum
  roiSum : JSNum
  deriving DecidableEq

/-- A value of `riskGroups`. -/
structure RiskGroup where
  _id : String
  count : Nat
  totalAmount : JSNum
  expectedReturnSum : JSNum
  deriving DecidableEq

/-- An element of `performanceByType`: the group and its derived fields. -/
structure TypePerformance extends TypeGroup where
  avgROI : JSNum
  bestPerformer : JSNum
  worstPerformer : JSNum
  deriving DecidableEq

/-- An element of `riskDistribution`: the group and its average. -/
structure RiskDistribution extends RiskGroup where
  avgExpectedReturn : JSNum
  deriving DecidableEq

/-- The statement pair `if (!groups[k]) groups[k] = init; update groups[k]`:
the group with key `k` is updated in place, or created from `init` at the end. -/
def upsert {γ : Type} (key : γ → String) (k : String) (init : γ) (f : γ → γ) :
    List γ → List γ
  | [] => [f init]
  | g :: gs => if key g = k then f g :: gs else g :: upsert key k init f gs

/-- The local `type`: `investment.investmentType || 'other'`. -/
def typeOf (inv : Investment) : String :=
  match inv.investmentType with
  | some t => if t = "" then "other" else t
  | none => "other"

/-- The local `risk`: `investment.riskLevel || 'medium'`. -/
def riskOf (inv : Investment) : String :=
  match inv.riskLevel with
  | some r => if r = "" then "medium" else r
  | none => "medium"

/-- The group created for a type on its first occurrence. -/
def newTypeGroup (type : String) : TypeGroup :=
  { _id := type, count := 0, totalPrincipal := fin 0, totalCurrentValue := fin 0,
    totalProfitLoss := fin 0, roiSum := fin 0 }

/-- The five `+=` statements on `typeGroups[type]`. -/
def addToTypeGroup (inv : Investment) (g : TypeGroup) : TypeGroup :=
  { g with
    count := g.count + 1
    totalPrincipal := add g.totalPrincipal (principalOf inv)
    totalCurrentValue := add g.totalCurrentValue (currentValueOf inv)
    totalProfitLoss := add g.totalProfitLoss (sub (currentValueOf inv) (principalOf inv))
    roiSum := add g.roiSum (roiOf inv) }

/-- The group created for a risk level on its first occurrence. -/
def newRiskGroup (risk : String) : RiskGroup :=
  { _id := risk, count := 0, totalAmount := fin 0, expectedReturnSum := fin 0 }

/-- The three `+=` statements on `riskGroups[risk]`. -/
def addToRiskGroup (inv : Investment) (g : RiskGroup) : RiskGroup :=
  { g with
    count := g.count + 1
    totalAmount := add g.totalAmount (principalOf inv)
    expectedReturnSum :=
      add g.expectedReturnSum (toNumber (jsOr inv.expectedReturn (some (fin 0)))) }

/-- The object `typeGroups` after the `forEach` over `investments`. -/
def typeGroups (investments : List Investment) : List TypeGroup :=
  investments.foldl
    (fun gs inv => upsert TypeGroup._id (typeOf inv) (newTypeGroup (typeOf inv))
      (addToTypeGroup inv) gs) []

/-- The object `riskGroups` after the `forEach` over `investments`. -/
def riskGroups (investments : List Investment) : List RiskGroup :=
  investments.foldl
    (fun gs inv => upsert RiskGroup._id (riskOf inv) (newRiskGroup (riskOf inv))
      (addToRiskGroup inv) gs) []

/-- The three money totals of a value of `typeGroups`. -/
structure Totals64 where
  totalPrincipal : JSNum
  totalCurrentValue : JSNum
  totalProfitLoss : JSNum
  deriving DecidableEq

/-- The three `+=` statements on the money totals of `typeGroups[type]`, with
the operators of the program: each sum and the difference
`currentValue - principal` are rounded to binary64. -/
def addToTotals64 (inv : Investment) (g : Totals64) : Totals64 :=
  { totalPrincipal := add64 g.totalPrincipal (principalOf inv)
    totalCurrentValue := add64 g.totalCurrentValue (currentValueOf inv)
    totalProfitLoss := add64 g.totalProfitLoss (sub64 (currentValueOf inv) (principalOf inv)) }

/-- The money totals of the group of a type after the `forEach`, with the
operators of the program: the investments of the type are added in input
order to the totals of a new group. -/
def typeTotals64 (investments : List Investment) (type : String) : Totals64 :=
  (investments.filter (fun inv => decide (typeOf inv = type))).foldl
    (fun g inv => addToTotals64 inv g)
    { totalPrincipal := fin 0, totalCurrentValue := fin 0, totalProfitLoss := fin 0 }

/-- The mapping from a type group to its `performanceByType` element. -/
def toTypePerformance (group : TypeGroup) : TypePerformance :=
  { group with
    avgROI := if 0 < group.count then div group.roiSum (fin group.count) else fin 0
    bestPerformer := div group.roiSum (fin group.count)
    worstPerformer := div group.roiSum (fin group.count) }

/-- The mapping from a risk group to its `riskDistribution` element. -/
def toRiskDistribution (group : RiskGroup) : RiskDistribution :=
  { group with
    avgExpectedReturn :=
      if 0 < group.count then div group.expectedReturnSum (fin group.count) else fin 0 }

/-- The `data` of the response of `getPerformanceAnalytics`. -/
structure Analytics where
  performanceByType : List TypePerformance
  riskDistribution : List RiskDistribution
  deriving DecidableEq

/-- The handler `getPerformanceAnalytics`, from the active investments found
for the user. -/
def getPerformanceAnalytics (investments : List Investment) : Analytics :=
  if investments.length = 0 then
    { performanceByType := [], riskDistribution := [] }
  else
    { performanceByType := (typeGroups investments).map toTypePerformance
      riskDistribution := (riskGroups investments).map toRiskDistribution }

/-- The `performanceByType` element reported for a type, if any. -/
def typePerformanceOf (investments : List Investment) (type : String) :
    Option TypePerformance :=
  (getPerformanceAnalytics investments).performanceByType.find?
    (fun g => decide (g._id = type))

/-- The `riskDistribution` element reported for a risk level, if any. -/
def riskDistributionOf (investments : List Investment) (risk : String) :
    Option RiskDistribution :=
  (getPerformanceAnalytics investments).riskDistribution.find?
    (fun g => decide (g._id = risk))

/-! ### `getAllInvestments` and `getPortfolioSummary` -/

/-- The object `portfolioSummary` of `getAllInvestments`. -/
structure PortfolioSummary where
  totalInvestments : Nat
  totalPrincipal : JSNum
  totalCurrentValue : JSNum
  totalROI : JSNum
  totalProfitLoss : JSNum
  deriving DecidableEq

/-- The `portfolioSummary` built by `getAllInvestments` from the investments
returned by its query. -/
def portfolioSummary (investments : List Investment) : PortfolioSummary :=
  let totalPrincipal := investments.foldl (fun sum inv => add sum (principalOf inv)) (fin 0)
  let totalCurrentValue :=
    investments.foldl (fun sum inv => add sum (currentValueOf inv)) (fin 0)
  { totalInvestments := investments.length
    totalPrincipal := totalPrincipal
    totalCurrentValue := totalCurrentValue
    totalROI :=
      if gt totalPrincipal (fin 0) then
        mul (div (sub totalCurrentValue totalPrincipal) totalPrincipal) (fin 100)
      else fin 0
    totalProfitLoss := sub totalCurrentValue totalPrincipal }

/-- The accumulator `$sum` of the aggregation pipeline: the sum of the values
that are numbers, absent values being skipped. -/
def mongoSum (values : List JSVal) : JSNum :=
  values.foldl (fun sum v => match v with
    | some x => add sum x
    | none => sum) (fin 0)

/-- The accumulator `$avg`: the mean of the values that are numbers, `null`
when there is none. -/
def mongoAvg (values : List JSVal) : JSVal :=
  if (values.filterMap id).length = 0 then none
  else some (div (mongoSum values) (fin ((values.filterMap id).length : ℚ)))

/-- The expression `$subtract`: `null` as soon as an operand is absent. -/
def mongoSubtract (a b : JSVal) : JSVal :=
  match a, b with
  | some x, some y => some (sub x y)
  | _, _ => none

/-- The document produced by the pipeline of `getPortfolioSummary`. -/
structure AggregateSummary where
  totalInvestments : Nat
  totalPrincipal : JSNum
  totalCurrentValue : JSNum
  avgExpectedReturn : JSVal
  totalProfitLoss : JSNum
  totalROI : JSNum
  deriving DecidableEq

/-- The pipeline of `getPortfolioSummary` on the stored investments of the
user: the `$match` keeps the active ones, the `$group` on `_id: null` yields
one document when at least one investment matches and none otherwise, and
`$addFields` adds `totalROI`. -/
def aggregate (stored : List Investment) : List AggregateSummary :=
  let matched := stored.filter (fun inv => inv.isActive)
  if matched.length = 0 then []
  else
    let totalPrincipal := mongoSum (matched.map (fun inv => inv.principalAmount))
    let totalProfitLoss :=
      mongoSum (matched.map (fun inv => mongoSubtract inv.currentValue inv.principalAmount))
    [{ totalInvestments := matched.length
       totalPrincipal := totalPrincipal
       totalCurrentValue := mongoSum (matched.map (fun inv => inv.currentValue))
       avgExpectedReturn := mongoAvg (matched.map (fun inv => inv.expectedReturn))
       totalProfitLoss := totalProfitLoss
       totalROI :=
         if totalPrincipal = fin 0 then fin 0
         else mul (div totalProfitLoss totalPrincipal) (fin 100) }]

/-- The static `getPortfolioSummary`.  Its `$match` stage is built with
`mongoose.Types.ObjectId(userId)`, called without `new` (the controller
writes `new mongoose.Types.ObjectId(...)` everywhere); `objectIdCallable` tells
whether the installed mongoose accepts that call.  When it does not, the call
throws before the pipeline is sent. -/
def getPortfolioSummary (objectIdCallable : Bool) (stored : List Investment) :
    Except String (List AggregateSummary) :=
  if objectIdCallable then .ok (aggregate stored)
  else .error "Class constructor ObjectId cannot be invoked without 'new'"

/-- The `forEach` of `getRecommendations` from the iteration of index `i`, when
the iteration of index `j` reads the clock (`new Date()`) as `clock j`. -/
def recommendationsFrom (clock : Nat → Int) : Nat → List Investment → List Recommendation
  | _, [] => []
  | i, inv :: rest => recommendationsFor inv (clock i) ++ recommendationsFrom clock (i + 1) rest

/-- The list `recommendations` of `getRecommendations` when each iteration
reads the clock for itself. -/
def getRecommendationsAt (investments : List Investment) (clock : Nat → Int) :
    List Recommendation :=
  recommendationsFrom clock 0 investments

/-- The `data` of the response of `getRecommendations`. -/
structure RecommendationsData where
  recommendations : List Recommendation
  count : Nat
  deriving DecidableEq

/-- The `data` that `getRecommendations` sends. -/
def getRecommendationsData (investments : List Investment) (now : Int) :
    RecommendationsData :=
  { recommendations := getRecommendations investments now
    count := (getRecommendations investments now).length }

namespace Controller

/-- The response of the `updatePerformance` handler: the status and, on
success, the saved record. -/
structure Response where
  status : Nat
  data : Option Investment
  deriving DecidableEq

/-- The snapshot that the `updatePerformance` handler pushes. -/
def pushedSnapshot (investment : Investment) (currentValue : JSVal) (now : Int) : Snapshot :=
  { date := now, value := currentValue,
    returnAmount := sub (toNumber currentValue) (toNumber investment.principalAmount),
    returnPercentage :=
      if gt (toNumber investment.principalAmount) (fin 0) then
        mul (div (sub (toNumber currentValue) (toNumber investment.principalAmount))
          (toNumber investment.principalAmount)) (fin 100)
      else fin 0 }

/-- The handler `updatePerformance`: `found` is the result of `findOne` for the
request's id and user, `currentValue` and `currentPrice` come from the request
body.  When `save()` rejects, the `catch` answers 500 and nothing is written.
The `Number` paths assigned are `currentValue`, `currentPrice` (only a truthy
value) and the three numbers of the snapshot. -/
def updatePerformance (found : Option Investment) (currentValue currentPrice : JSVal)
    (now : Int) : Response :=
  match found with
  | none => { status := 404, data := none }
  | some investment =>
    match Model.save
      { investment with
        currentValue := currentValue
        currentPrice := if currentPrice.truthy then currentPrice else investment.currentPrice
        performanceHistory := investment.performanceHistory ++
          [pushedSnapshot investment currentValue now] }
      [currentValue, currentValue,
        some (pushedSnapshot investment currentValue now).returnAmount,
        some (pushedSnapshot investment currentValue now).returnPercentage] with
    | .ok saved => { status := 200, data := some saved }
    | .error _ => { status := 500, data := none }

end Controller

/-! ## Market data routes (`routes/investment.js`)

An upstream request is described by the outcomes of its successive attempts;
the time is a number of milliseconds. -/

namespace Market

/-- What one pass through the `try` block of `fetchWithRetry` meets: `fetch`
rejects (network error), or a response arrives with its status and the result
of `response.json()`. -/
inductive Attempt (α : Type) where
  | rejected (message : String)
  | responded (status : Nat) (statusText : String) (json : Except String α)

/-- The value or the error of one pass through the `try` block: the parsed
body when `response.ok` (a status from 200 to 299), else the error thrown. -/
def Attempt.outcome {α : Type} : Attempt α → Except String α
  | .rejected message => .error message
  | .responded status statusText json =>
    if 200 ≤ status ∧ status ≤ 299 then json
    else .error ("HTTP " ++ toString status ++ ": " ++ statusText)

/-- A run of `fetchWithRetry`: what it returns or throws (`none` when the loop
ends without either, the function then returns `undefined`), the number of
calls of `fetch`, and the waits of `setTimeout` in order, in milliseconds. -/
structure FetchRun (α : Type) where
  result : Option (Except String α)
  calls : Nat
  waits : List Nat

/-- The loop of `fetchWithRetry` from index `i`, with `remaining` iterations
left before `i < retries` fails. -/
def fetchWithRetryFrom {α : Type} (attempt : Nat → Attempt α) (retries : Nat) :
    Nat → Nat → FetchRun α
  | 0, _ => { result := none, calls := 0, waits := [] }
  | remaining + 1, i =>
    match (attempt i).outcome with
    | .ok data => { result := some (.ok data), calls := 1, waits := [] }
    | .error error =>
      if i + 1 = retries then { result := some (.error error), calls := 1, waits := [] }
      else
        let rest := fetchWithRetryFrom attempt retries remaining (i + 1)
        { result := rest.result, calls := rest.calls + 1,
          waits := (1000 * (i + 1)) :: rest.waits }

/-- The function `fetchWithRetry(url, options, retries)`; `attempt i` is what
the pass of index `i` meets for this url. -/
def fetchWithRetry {α : Type} (attempt : Nat → Attempt α) (retries : Nat) : FetchRun α :=
  fetchWithRetryFrom attempt retries retries 0

/-- The default value of the parameter `retries`. -/
def defaultRetries : Nat := 3

/-- An element of the `/nse/stocks` payload. -/
structure Stock where
  symbol : String
  name : String
  price : JSNum
  change : JSNum
  volume : JSNum
  marketCap : JSVal
  sector : String
  deriving DecidableEq

/-- A value of the `/indices` payload. -/
structure IndexValue where
  value : JSNum
  change : JSNum
  high : JSVal
  low : JSVal
  deriving DecidableEq

/-- An element of the `/mutual-funds` payload. -/
structure Fund where
  name : String
  code : String
  nav : JSNum
  date : String
  returns : String
  category : String
  fundHouse : String
  deriving DecidableEq

/-- An element of the scheme list of the funds API. -/
structure Scheme where
  schemeCode : String
  schemeName : String
  deriving DecidableEq

/-- One of the entries `"24K"`, `"22K"`, `"18K"` of the `/gold-prices` payload. -/
structure GoldQuote where
  price : JSNum
  unit : String
  change : JSNum
  deriving DecidableEq

/-- The `/gold-prices` payload `processedData`. -/
structure GoldPrices where
  k24 : GoldQuote
  k22 : GoldQuote
  k18 : GoldQuote
  lastUpdated : Nat
  deriving DecidableEq

/-- A value stored in the cache and sent as a response body. -/
inductive Payload where
  | stocks (validStocks : List Stock)
  | indices (validIndices : List (String × IndexValue))
  | funds (validFunds : List Fund)
  | gold (processedData : GoldPrices)
  deriving DecidableEq

/-- An entry of the `node-cache` store: the value `v` and the time `t` after
which it is expired. -/
structure CacheEntry where
  v : Payload
  t : Nat
  deriving DecidableEq

/-- The store `cache`, a `NodeCache` created with `stdTTL: 300`. -/
abbrev Cache := List (String × CacheEntry)

/-- The option `stdTTL`, in seconds. -/
def stdTTL : Nat := 300

/-- The call `cache.set(key, value)` at time `now`: the entry lives until
`now + stdTTL * 1000`. -/
def Cache.set (cache : Cache) (key : String) (value : Payload) (now : Nat) : Cache :=
  (key, { v := value, t := now + stdTTL * 1000 }) :: cache.filter (fun e => e.1 ≠ key)

/-- The call `cache.get(key)` at time `now`: the stored value, unless the key
is absent or its entry is expired (`t < now`), in which case the entry is
deleted and the result is `undefined`. -/
def Cache.get (cache : Cache) (key : String) (now : Nat) : Option Payload × Cache :=
  match cache.find? (fun e => e.1 = key) with
  | none => (none, cache)
  | some e =>
    if e.2.t ≠ 0 ∧ e.2.t < now then (none, cache.filter (fun e => e.1 ≠ key))
    else (some e.2.v, cache)

/-- A response body: a payload, or an error object. -/
inductive Body where
  | json (payload : Payload)
  | error (error : String)
  deriving DecidableEq

/-- The response sent by a handler. -/
structure HttpResponse where
  status : Nat
  body : Body
  deriving DecidableEq

/-- One run of a handler: the response, the cache afterwards, and the number
of upstream calls made. -/
structure HandlerRun where
  response : HttpResponse
  cache : Cache
  calls : Nat
  deriving DecidableEq

/-- The values of the fulfilled promises of `Promise.allSettled`, in order. -/
def fulfilled {σ : Type} (settled : List (Except String σ)) : List σ :=
  settled.filterMap (fun r => match r with
    | .ok value => some value
    | .error _ => none)

/-- The list `stocks` of the `/nse/stocks` handler. -/
def topStocks : List String :=
  ["RELIANCE.NS", "TCS.NS", "HDFCBANK.NS", "INFY.NS", "HINDUNILVR.NS",
   "ITC.NS", "SBIN.NS", "BHARTIARTL.NS", "KOTAKBANK.NS", "LT.NS"]

/-- The promise made for one symbol by the `/nse/stocks` and `/indices`
handlers, with the number of upstream calls it makes.  The body of the
response is its first chart result `data.chart?.result?.[0]`, if any;
`quoteOf` stands for the construction of the quote from that result, which
throws when a field it reads is absent. -/
def chartSubFetch {ρ σ : Type} (upstream : String → Nat → Attempt (Option ρ))
    (quoteOf : String → ρ → Except String σ) (invalid : String) (symbol : String) :
    Except String σ × Nat :=
  let run := fetchWithRetry (upstream symbol) defaultRetries
  match run.result with
  | some (.ok (some result)) => (quoteOf symbol result, run.calls)
  | some (.ok none) => (.error invalid, run.calls)
  | some (.error error) => (.error error, run.calls)
  | none => (.error "Cannot read properties of undefined", run.calls)

/-- The handler of `/nse/stocks`, for a list `stocks` of symbols: the cache is
read at time `now`, and written `fetchMs` later when the fetch succeeded. -/
def nseStocksFor {ρ : Type} (stocks : List String)
    (upstream : String → Nat → Attempt (Option ρ))
    (quoteOf : String → ρ → Except String Stock) (cache : Cache) (now fetchMs : Nat) :
    HandlerRun :=
  match cache.get "nse-stocks" now with
  | (some cached, cache) =>
    { response := { status := 200, body := .json cached }, cache := cache, calls := 0 }
  | (none, cache) =>
    let stockData := stocks.map (chartSubFetch upstream quoteOf "Invalid data structure")
    let validStocks := fulfilled (stockData.map Prod.fst)
    let calls := (stockData.map Prod.snd).sum
    if validStocks.length = 0 then
      { response := { status := 503, body := .error "No stock data available" },
        cache := cache, calls := calls }
    else
      { response := { status := 200, body := .json (.stocks validStocks) },
        cache := cache.set "nse-stocks" (.stocks validStocks) (now + fetchMs),
        calls := calls }

/-- The handler of `/nse/stocks`. -/
def nseStocks {ρ : Type} (upstream : String → Nat → Attempt (Option ρ))
    (quoteOf : String → ρ → Except String Stock) (cache : Cache) (now fetchMs : Nat) :
    HandlerRun :=
  nseStocksFor topStocks upstream quoteOf cache now fetchMs

/-- The object `indices` of the `/indices` handler, as its entries. -/
def indexNames : List (String × String) :=
  [("^NSEI", "NIFTY"), ("^BSESN", "SENSEX"), ("^NSEBANK", "BANKNIFTY"),
   ("^NSMIDCP", "MIDCAP"), ("^CNXIT", "IT")]

/-- The assignment `object[key] = value` on an object kept as its entries in
insertion order. -/
def setKey {β : Type} (object : List (String × β)) (key : String) (value : β) :
    List (String × β) :=
  if object.any (fun e => e.1 = key) then
    object.map (fun e => if e.1 = key then (key, value) else e)
  else object ++ [(key, value)]

/-- The handler of `/indices`, for the entries `indices`. -/
def indicesFor {ρ : Type} (indices : List (String × String))
    (upstream : String → Nat → Attempt (Option ρ))
    (quoteOf : String → ρ → Except String IndexValue) (cache : Cache) (now fetchMs : Nat) :
    HandlerRun :=
  match cache.get "market-indices" now with
  | (some cached, cache) =>
    { response := { status := 200, body := .json cached }, cache := cache, calls := 0 }
  | (none, cache) =>
    let indicesData := indices.map (fun e =>
      let r := chartSubFetch upstream quoteOf "Invalid data" e.1
      (r.1.map (fun data => (e.2, data)), r.2))
    let validIndices :=
      (fulfilled (indicesData.map Prod.fst)).foldl (fun o data => setKey o data.1 data.2) []
    let calls := (indicesData.map Prod.snd).sum
    if validIndices.length = 0 then
      { response := { status := 503, body := .error "No indices data available" },
        cache := cache, calls := calls }
    else
      { response := { status := 200, body := .json (.indices validIndices) },
        cache := cache.set "market-indices" (.indices validIndices) (now + fetchMs),
        calls := calls }

/-- The handler of `/indices`. -/
def indices {ρ : Type} (upstream : String → Nat → Attempt (Option ρ))
    (quoteOf : String → ρ → Except String IndexValue) (cache : Cache) (now fetchMs : Nat) :
    HandlerRun :=
  indicesFor indexNames upstream quoteOf cache now fetchMs

/-- The method `includes` of strings. -/
def includes (s sub : String) : Bool := decide (sub.toList <:+: s.toList)

/-- The method `toLowerCase` of strings, on ASCII letters. -/
def toLowerCase (s : String) : String := String.mk (s.toList.map Char.toLower)

/-- The filter of `topSchemes`, on the lower-cased scheme name. -/
def isTopScheme (scheme : Scheme) : Bool :=
  includes (toLowerCase scheme.schemeName) "large cap" ||
  includes (toLowerCase scheme.schemeName) "flexi cap" ||
  includes (toLowerCase scheme.schemeName) "mid cap"

/-- The promise made for one scheme by the `/mutual-funds` handler, with the
number of upstream calls it makes; `fundOf` stands for the construction of the
fund from the NAV history, which throws when the history is empty. -/
def fundSubFetch {ν : Type} (navUpstream : String → Nat → Attempt ν)
    (fundOf : Scheme → ν → Except String Fund) (scheme : Scheme) : Except String Fund × Nat :=
  let run := fetchWithRetry (navUpstream scheme.schemeCode) defaultRetries
  match run.result with
  | some (.ok navData) => (fundOf scheme navData, run.calls)
  | some (.error error) => (.error error, run.calls)
  | none => (.error "Cannot read properties of undefined", run.calls)

/-- The handler of `/mutual-funds`; `schemeList` describes the request for the
list of schemes, `navUpstream` those for the NAV history of a scheme. -/
def mutualFunds {ν : Type} (schemeList : Nat → Attempt (List Scheme))
    (navUpstream : String → Nat → Attempt ν) (fundOf : Scheme → ν → Except String Fund)
    (cache : Cache) (now fetchMs : Nat) : HandlerRun :=
  match cache.get "mutual-funds" now with
  | (some cached, cache) =>
    { response := { status := 200, body := .json cached }, cache := cache, calls := 0 }
  | (none, cache) =>
    let listRun := fetchWithRetry schemeList defaultRetries
    match listRun.result with
    | some (.ok schemes) =>
      let topSchemes := (schemes.filter isTopScheme).take 15
      let fundsData := topSchemes.map (fundSubFetch navUpstream fundOf)
      let validFunds :=
        (fulfilled (fundsData.map Prod.fst)).filter (fun fund => gt fund.nav (fin 0))
      { response := { status := 200, body := .json (.funds validFunds) },
        cache := cache.set "mutual-funds" (.funds validFunds) (now + fetchMs),
        calls := listRun.calls + (fundsData.map Prod.snd).sum }
    | _ =>
      { response := { status := 500, body := .error "Failed to fetch mutual funds data" },
        cache := cache, calls := listRun.calls }

/-! ### `/gold-prices` -/

/-- The function `Math.round`: the nearest integer, halves going up. -/
def mathRound : JSNum → JSNum
  | fin q => fin (⌊q + 1 / 2⌋ : ℤ)
  | x => x

/-- The object `goldData`: the body of the gold API, or the object built from
the fallback sources. -/
structure GoldData where
  price_gram_24k : JSVal
  price_gram_22k : JSVal
  price_gram_18k : JSVal
  ch : JSVal
  deriving DecidableEq

/-- The object `processedData` built from `goldData` at time `now`. -/
def processGold (goldData : GoldData) (now : Nat) : GoldPrices :=
  let change := toNumber (jsOr goldData.ch (some (fin 0)))
  { k24 :=
      { price := mathRound (mul (toNumber goldData.price_gram_24k) (fin 10))
        unit := "per 10 grams", change := change }
    k22 :=
      { price := mathRound (mul (toNumber (jsOr goldData.price_gram_22k
          (some (mul (toNumber goldData.price_gram_24k) (fin (916 / 1000)))))) (fin 10))
        unit := "per 10 grams", change := change }
    k18 :=
      { price := mathRound (mul (toNumber (jsOr goldData.price_gram_18k
          (some (mul (toNumber goldData.price_gram_24k) (fin (75 / 100)))))) (fin 10))
        unit := "per 10 grams", change := change }
    lastUpdated := now }

/-- The fallback of `/gold-prices`: the two requests of `Promise.all`, then the
conversion; the body of each response is the rate it is read for, `rates.XAU`
or `rates.INR`, absent when the body has no `rates`.  With the result comes
the number of upstream calls. -/
def goldFallback (metal exchange : Nat → Attempt (Option JSVal)) :
    Except String GoldData × Nat :=
  let goldRun := fetchWithRetry metal defaultRetries
  let exchangeRun := fetchWithRetry exchange defaultRetries
  match goldRun.result, exchangeRun.result with
  | some (.ok (some xau)), some (.ok (some inr)) =>
    let goldPriceUsd := div (fin 1) (toNumber xau)
    let goldPriceInr := mul goldPriceUsd (toNumber inr)
    (.ok { price_gram_24k := some (div goldPriceInr (fin (311035 / 10000)))
           price_gram_22k :=
             some (mul (div goldPriceInr (fin (311035 / 10000))) (fin (916 / 1000)))
           price_gram_18k :=
             some (mul (div goldPriceInr (fin (311035 / 10000))) (fin (75 / 100)))
           ch := none },
      goldRun.calls + exchangeRun.calls)
  | _, _ => (.error "All gold price sources failed", goldRun.calls + exchangeRun.calls)

/-- The handler of `/gold-prices`; `goldApiKey` tells whether `GOLD_API_KEY`
is set, `primary` describes the request to the gold API, `metal` and
`exchange` those of the fallback. -/
def goldPrices (goldApiKey : Bool) (primary : Nat → Attempt GoldData)
    (metal exchange : Nat → Attempt (Option JSVal)) (cache : Cache) (now fetchMs : Nat) :
    HandlerRun :=
  match cache.get "gold-prices" now with
  | (some cached, cache) =>
    { response := { status := 200, body := .json cached }, cache := cache, calls := 0 }
  | (none, cache) =>
    let primaryRun : FetchRun GoldData :=
      if goldApiKey then fetchWithRetry primary defaultRetries
      else { result := some (.error "No Gold API key"), calls := 0, waits := [] }
    match primaryRun.result with
    | some (.ok goldData) =>
      { response :=
          { status := 200, body := .json (.gold (processGold goldData (now + fetchMs))) },
        cache := cache.set "gold-prices" (.gold (processGold goldData (now + fetchMs)))
          (now + fetchMs),
        calls := primaryRun.calls }
    | none =>
      { response := { status := 500, body := .error "Failed to fetch gold prices" },
        cache := cache, calls := primaryRun.calls }
    | some (.error _) =>
      match goldFallback metal exchange with
      | (.ok goldData, calls) =>
        { response :=
            { status := 200, body := .json (.gold (processGold goldData (now + fetchMs))) },
          cache := cache.set "gold-prices" (.gold (processGold goldData (now + fetchMs)))
            (now + fetchMs),
          calls := primaryRun.calls + calls }
      | (.error _, calls) =>
        { response := { status := 500, body := .error "Failed to fetch gold prices" },
          cache := cache, calls := primaryRun.calls + calls }

/-! ### The `/nse/stocks` handler around its `await`

Between the cache read and the cache write the handler awaits its promises;
other requests run in between. -/

/-- A request after its first part: answered from the cache, or suspended with
its sub-fetches issued (their fulfilled values and the number of upstream
calls they make). -/
inductive Started where
  | served (response : HttpResponse)
  | fetching (validStocks : List Stock) (calls : Nat)
  deriving DecidableEq

/-- The part of the `/nse/stocks` handler before the `await`: the cache read
and, on a miss, the start of the sub-fetches. -/
def nseStocksStart {ρ : Type} (stocks : List String)
    (upstream : String → Nat → Attempt (Option ρ))
    (quoteOf : String → ρ → Except String Stock) (cache : Cache) (now : Nat) :
    Started × Cache :=
  match cache.get "nse-stocks" now with
  | (some cached, cache) => (.served { status := 200, body := .json cached }, cache)
  | (none, cache) =>
    let stockData := stocks.map (chartSubFetch upstream quoteOf "Invalid data structure")
    (.fetching (fulfilled (stockData.map Prod.fst)) (stockData.map Prod.snd).sum, cache)

/-- The part of the `/nse/stocks` handler after the `await`, run at time `t` on
the cache as it is then. -/
def nseStocksFinish (validStocks : List Stock) (cache : Cache) (t : Nat) :
    HttpResponse × Cache :=
  if validStocks.length = 0 then
    ({ status := 503, body := .error "No stock data available" }, cache)
  else
    ({ status := 200, body := .json (.stocks validStocks) },
      cache.set "nse-stocks" (.stocks validStocks) t)

/-- A suspended or served request resumed at time `t` on the cache as it is
then: a served request changes nothing, a suspended one runs the second part
of the handler. -/
def resume (started : Started) (cache : Cache) (t : Nat) : HandlerRun :=
  match started with
  | .served response => { response := response, cache := cache, calls := 0 }
  | .fetching validStocks calls =>
    { response := (nseStocksFinish validStocks cache t).1,
      cache := (nseStocksFinish validStocks cache t).2, calls := calls }

/-- Two requests of `/nse/stocks` in flight together. -/
structure ConcurrentRun where
  responseA : HttpResponse
  responseB : HttpResponse
  cache : Cache
  calls : Nat
  deriving DecidableEq

/-- Two requests of `/nse/stocks` in flight together: the first arrives at
`nowA`, the second at `nowB` while the first awaits its promises; the first
resumes at `doneA`, then the second at `doneB`.  `calls` counts the upstream
calls of both. -/
def nseStocksConcurrent {ρ : Type} (stocks : List String)
    (upstreamA upstreamB : String → Nat → Attempt (Option ρ))
    (quoteOf : String → ρ → Except String Stock) (cache : Cache)
    (nowA nowB doneA doneB : Nat) : ConcurrentRun :=
  let a := nseStocksStart stocks upstreamA quoteOf cache nowA
  let b := nseStocksStart stocks upstreamB quoteOf a.2 nowB
  let runA := resume a.1 b.2 doneA
  let runB := resume b.1 runA.cache doneB
  { responseA := runA.response, responseB := runB.response, cache := runB.cache,
    calls := runA.calls + runB.calls }

/-! ### `analyzePortfolio` -/

/-- An element of the `portfolio` sent with an advice request. -/
structure PortfolioHolding where
  symbol : String
  quantity : JSVal
  currentPrice : JSVal
  deriving DecidableEq

/-- The product `holding.quantity * holding.currentPrice`. -/
def holdingValue (h : PortfolioHolding) : JSNum :=
  mul (toNumber h.quantity) (toNumber h.currentPrice)

/-- The comparator given to `sort`: the value of `b` minus the value of `a`. -/
def byValueDesc (a b : PortfolioHolding) : JSNum :=
  sub (holdingValue b) (holdingValue a)

/-- The call `portfolio.sort(comparator)`: a stable sort; `a` is placed before
`b` unless the comparator is positive on `(a, b)`.  On values that the
comparator orders consistently the stable sorted order is unique, and the
insertion sort computes it. -/
def sortByValueDesc (portfolio : List PortfolioHolding) : List PortfolioHolding :=
  portfolio.insertionSort (fun a b => gt (byValueDesc a b) (fin 0) = false)

/-- The object `sectorMap` of `getSectorFromSymbol`, as its entries. -/
def sectorMap : List (String × String) :=
  [("RELIANCE", "Oil & Gas"), ("TCS", "IT Services"), ("INFY", "IT Services"),
   ("HDFCBANK", "Banking"), ("SBIN", "Banking"), ("ITC", "FMCG"), ("HINDUNILVR", "FMCG"),
   ("BHARTIARTL", "Telecom"), ("KOTAKBANK", "Banking"), ("LT", "Infrastructure")]

/-- The function `getSectorFromSymbol` (on symbols that are not names of
members of `Object.prototype`). -/
def getSectorFromSymbol (symbol : String) : String :=
  match sectorMap.find? (fun e => e.1 = symbol) with
  | some e => e.2
  | none => "Others"

/-- The object returned by `analyzePortfolio`. -/
structure PortfolioAnalysis where
  summary : String
  totalValue : JSNum
  topHoldings : String
  sectors : String
  deriving DecidableEq

/-- The function `analyzePortfolio`; `none` is a missing portfolio.  The sort
is in place, so the sectors are listed in the sorted order. -/
def analyzePortfolio (portfolio : Option (List PortfolioHolding)) : PortfolioAnalysis :=
  match portfolio with
  | none | some [] =>
    { summary := "No portfolio data available", totalValue := fin 0, topHoldings := "None",
      sectors := "Not diversified" }
  | some (h :: hs) =>
    { summary := "Portfolio has " ++ toString (h :: hs).length ++ " holdings"
      totalValue := (h :: hs).foldl (fun sum holding => add sum (holdingValue holding)) (fin 0)
      topHoldings :=
        ", ".intercalate (((sortByValueDesc (h :: hs)).take 3).map (fun h => h.symbol))
      sectors :=
        ", ".intercalate
          ((sortByValueDesc (h :: hs)).map (fun h => getSectorFromSymbol h.symbol)).eraseDups }

/-- A holding of a portfolio with a finite quantity and price. -/
def position (symbol : String) (quantity currentPrice : ℚ) : PortfolioHolding :=
  { symbol := symbol, quantity := some (fin quantity), currentPrice := some (fin currentPrice) }

/-- A body of the gold API with the 24K price only. -/
def sampleGold : GoldData :=
  { price_gram_24k := some (fin 7000), price_gram_22k := none, price_gram_18k := none,
    ch := none }

/-- A quote for a symbol, with fixed figures. -/
def sampleQuote (symbol : String) : Stock :=
  { symbol := symbol, name := symbol, price := fin 100, change := fin 0, volume := fin 0,
    marketCap := none, sector := "Others" }

/-- An upstream where `AAA.NS` has a chart result and every other symbol is
answered `404 Not Found` at every attempt. -/
def onlyAAA : String → Nat → Attempt (Option Nat) :=
  fun symbol _ =>
    if symbol = "AAA.NS" then .responded 200 "OK" (.ok (some 1))
    else .responded 404 "Not Found" (.error "unread")

end Market

/-! ## The market data service (`services/marketDataService.js`)

The model `PriceData` is imported by the service but is not among the sources:
a price record keeps the symbol and the price given to its constructor, and
`PriceData.insertMany` is a parameter telling whether the insertion succeeds.
The upstream providers are parameters as well, one outcome per symbol. -/

namespace Service

/-- A price record `new PriceData({symbol, price, ...})`. -/
structure PriceData where
  symbol : String
  price : JSNum
  deriving DecidableEq

/-- The world around one call of `fetchStockData`.  For a symbol, `nse` is the
outcome of the NSE request (an error when the request fails, no record when
the body has no `priceInfo`), `yahoo` the record that `fetchStockDataYahoo`
pushes, if any (it catches every error), `groww` the record obtained
from the two Groww requests, if any (the per-symbol errors are caught). -/
structure Feeds where
  nse : String → Except String (Option PriceData)
  yahoo : String → Option PriceData
  groww : String → Option PriceData
  insertMany : List PriceData → Bool

/-- The method `fetchStockDataYahoo(symbol, priceUpdates)`: the list after the
call. -/
def fetchStockDataYahoo (feeds : Feeds) (symbol : String) (priceUpdates : List PriceData) :
    List PriceData :=
  match feeds.yahoo symbol with
  | some record => priceUpdates ++ [record]
  | none => priceUpdates

/-- The statement `if (priceUpdates.length > 0) await PriceData.insertMany(...)`
followed by `return priceUpdates`; a failed insertion throws. -/
def insertAndReturn (feeds : Feeds) (priceUpdates : List PriceData) :
    Except String (List PriceData) :=
  if 0 < priceUpdates.length then
    (if feeds.insertMany priceUpdates then .ok priceUpdates else .error "insertMany failed")
  else .ok priceUpdates

/-- The method `fetchStockDataNSE(symbols)`. -/
def fetchStockDataNSE (feeds : Feeds) (symbols : List String) :
    Except String (List PriceData) :=
  insertAndReturn feeds
    (symbols.foldl (fun priceUpdates symbol =>
      match feeds.nse symbol with
      | .ok (some record) => priceUpdates ++ [record]
      | .ok none => priceUpdates
      | .error _ => fetchStockDataYahoo feeds symbol priceUpdates) [])

/-- The method `fetchStockDataGroww(symbols)`. -/
def fetchStockDataGroww (feeds : Feeds) (symbols : List String) :
    Except String (List PriceData) :=
  insertAndReturn feeds
    (symbols.foldl (fun priceUpdates symbol =>
      match feeds.groww symbol with
      | some record => priceUpdates ++ [record]
      | none => priceUpdates) [])

/-- The final fallback of `fetchStockData`: the loop over
`fetchStockDataYahoo`, then the insertion. -/
def yahooFallback (feeds : Feeds) (symbols : List String) :
    Except String (List PriceData) :=
  insertAndReturn feeds
    (symbols.foldl (fun priceUpdates symbol =>
      fetchStockDataYahoo feeds symbol priceUpdates) [])

/-- A run of `fetchStockData`: what it returns or throws, and the providers it
called, in order. -/
structure StockRun where
  result : Except String (List PriceData)
  tried : List String

/-- The second `try` of `fetchStockData`: Groww, and Yahoo when Groww throws. -/
def growwThenYahoo (feeds : Feeds) (symbols : List String) : StockRun :=
  match fetchStockDataGroww feeds symbols with
  | .ok data => { result := .ok data, tried := ["NSE", "Groww"] }
  | .error _ => { result := yahooFallback feeds symbols, tried := ["NSE", "Groww", "Yahoo"] }

/-- The method `fetchStockData(symbols)`. -/
def fetchStockData (feeds : Feeds) (symbols : List String) : StockRun :=
  match fetchStockDataNSE feeds symbols with
  | .ok nseData =>
    if 0 < nseData.length then { result := .ok nseData, tried := ["NSE"] }
    else growwThenYahoo feeds symbols
  | .error _ => growwThenYahoo feeds symbols

/-- The world around one call of `fetchPreciousMetalsData`: `ibja` is the
outcome of the `try` block of `fetchPreciousMetalsDataIBJA` up to the list
`priceUpdates` it builds (an error when the request fails or a field read is
absent), `alternative n` the outcome of the invocation of index `n` of
`fetchPreciousMetalsDataAlternative`, which rethrows its errors. -/
structure MetalFeeds where
  ibja : Except String (List PriceData)
  alternative : Nat → Except String (List PriceData)
  insertMany : List PriceData → Bool

/-- The method `fetchPreciousMetalsDataAlternative`, at its invocation of
index `invocation`. -/
def fetchPreciousMetalsDataAlternative (feeds : MetalFeeds) (invocation : Nat) :
    Except String (List PriceData) :=
  feeds.alternative invocation

/-- The `try` block of `fetchPreciousMetalsDataIBJA`: the list built, inserted
and returned; a failed insertion throws. -/
def ibjaOwn (feeds : MetalFeeds) : Except String (List PriceData) :=
  match feeds.ibja with
  | .ok priceUpdates =>
    if feeds.insertMany priceUpdates then .ok priceUpdates else .error "insertMany failed"
  | .error error => .error error

/-- The method `fetchPreciousMetalsDataIBJA`: its result and the number of
invocations of the alternative adapter it made. -/
def fetchPreciousMetalsDataIBJA (feeds : MetalFeeds) : Except String (List PriceData) × Nat :=
  match ibjaOwn feeds with
  | .ok priceUpdates => (.ok priceUpdates, 0)
  | .error _ => (fetchPreciousMetalsDataAlternative feeds 0, 1)

/-- A run of `fetchPreciousMetalsData`: what it returns or throws, and the
number of invocations of the alternative adapter. -/
structure MetalsRun where
  result : Except String (List PriceData)
  alternativeCalls : Nat

/-- The method `fetchPreciousMetalsData`. -/
def fetchPreciousMetalsData (feeds : MetalFeeds) : MetalsRun :=
  match fetchPreciousMetalsDataIBJA feeds with
  | (.ok priceUpdates, n) => { result := .ok priceUpdates, alternativeCalls := n }
  | (.error _, n) =>
    { result := fetchPreciousMetalsDataAlternative feeds n, alternativeCalls := n + 1 }

/-- A world where the IBJA request fails and the alternative adapter fails at
its first invocation and returns one record at its second. -/
def ibjaDown : MetalFeeds :=
  { ibja := .error "Request failed with status code 503"
    alternative := fun n =>
      if n = 0 then .error "timeout of 10000ms exceeded"
      else .ok [{ symbol := "GOLD_24K", price := fin 7000 }]
    insertMany := fun _ => true }

/-- A world where NSE answers without `priceInfo`, Groww has no quote and
Yahoo quotes every symbol at 100. -/
def onlyYahooAnswers : Feeds :=
  { nse := fun _ => .ok none
    yahoo := fun symbol => some { symbol := symbol, price := fin 100 }
    groww := fun _ => none
    insertMany := fun _ => true }

end Service

/-! ## Transactions (`controllers/transact.controller.js`, `models/trasact.model.js`) -/

namespace Transact

/-- The constant `EARNINGS_CATEGORIES` of the model. -/
def EARNINGS_CATEGORIES : List String := ["salary", "investment return", "bonus", "other"]

/-- The constant `EXPENSE_CATEGORIES` of the model. -/
def EXPENSE_CATEGORIES : List String :=
  ["food", "transportation", "utilities", "entertainment", "shopping", "healthcare", "other"]

/-- The validator of `category` in `transactionSchema`, for a document whose
`type` is `type`. -/
def categoryValidator (type : Option String) (category : String) : Bool :=
  if type = some "credit" then EARNINGS_CATEGORIES.contains category
  else if type = some "debit" then EXPENSE_CATEGORIES.contains category
  else false

/-- The fields of the request body that `updateTransaction` inspects; `none`
is an absent field. -/
structure UpdateBody where
  type : Option String
  category : Option String
  deriving DecidableEq

/-- Truthiness of a field holding a string: absent and empty are falsy. -/
def truthyString : Option String → Bool
  | some s => s ≠ ""
  | none => false

/-- What `Transaction.findOneAndUpdate` does: throws, finds nothing, or returns
the updated document. -/
inductive Storage where
  | throws (message : String)
  | notFound
  | updated
  deriving DecidableEq

/-- A run of `updateTransaction`: the status sent and the number of calls to
the storage. -/
structure UpdateRun where
  status : Nat
  storageCalls : Nat
  deriving DecidableEq

/-- The local `isValidCategory` of `updateTransaction`, with the controller's
own copies of the two lists. -/
def isValidCategory (type category : String) : Bool :=
  (type = "credit" &&
    ["salary", "investment return", "bonus", "other"].contains category) ||
  (type = "debit" &&
    ["food", "transportation", "utilities", "entertainment", "shopping", "healthcare",
      "other"].contains category)

/-- The handler `updateTransaction`. -/
def updateTransaction (body : UpdateBody) (storage : Storage) : UpdateRun :=
  if truthyString body.type && truthyString body.category &&
      !(isValidCategory (body.type.getD "") (body.category.getD "")) then
    { status := 400, storageCalls := 0 }
  else
    match storage with
    | .throws _ => { status := 400, storageCalls := 1 }
    | .notFound => { status := 404, storageCalls := 1 }
    | .updated => { status := 200, storageCalls := 1 }

end Transact

/-! ## Sample records -/

/-- An active holding of type `stocks` with the given name, principal, current
value, purchase date and target; the other fields at their schema defaults. -/
def holding (name : String) (principal currentValue : ℚ) (purchaseDate : Int)
    (targetAmount : JSVal) : Investment :=
  { investmentType := some "stocks", instrumentName := name,
    principalAmount := some (fin principal), currentValue := some (fin currentValue),
    currentPrice := some (fin 0), purchaseDate := some purchaseDate,
    riskLevel := some "medium", expectedReturn := none, actualReturn := some (fin 0),
    isActive := true, performanceHistory := [], targetAmount := targetAmount,
    targetDate := none, goalAchieved := false }

/-- The same record with its `expectedReturn` set. -/
def withExpectedReturn (inv : Investment) (expectedReturn : ℚ) : Investment :=
  { inv with expectedReturn := some (fin expectedReturn) }

/-- The same record with the amounts that the decimal literals `principal` and
`currentValue` denote: the nearest binary64 values. -/
def withAmounts64 (inv : Investment) (principal currentValue : ℚ) : Investment :=
  { inv with principalAmount := some (round64 principal),
             currentValue := some (round64 currentValue) }

/-- The same record with its `riskLevel` set. -/
def withRiskLevel (inv : Investment) (riskLevel : String) : Investment :=
  { inv with riskLevel := some riskLevel }

/-- A number of whole days in milliseconds. -/
def daysMs (n : Int) : Int := n * 86400000

/-! ## Arithmetic on finite values -/

namespace JSNum

@[simp] theorem add_fin (a b : ℚ) : add (fin a) (fin b) = fin (a + b) := rfl

@[simp] theorem sub_fin (a b : ℚ) : sub (fin a) (fin b) = fin (a - b) := by
  simp [sub, neg, sub_eq_add_neg]

@[simp] theorem mul_fin (a b : ℚ) : mul (fin a) (fin b) = fin (a * b) := rfl

theorem div_fin (a : ℚ) {b : ℚ} (h : b ≠ 0) : div (fin a) (fin b) = fin (a / b) := by
  simp [div, h]

@[simp] theorem lt_fin (a b : ℚ) : lt (fin a) (fin b) = decide (a < b) := rfl

@[simp] theorem gt_fin (a b : ℚ) : gt (fin a) (fin b) = decide (b < a) := rfl

@[simp] theorem ge_fin (a b : ℚ) : ge (fin a) (fin b) = decide (b ≤ a) := rfl

@[simp] theorem fin_inj (a b : ℚ) : (fin a = fin b) ↔ a = b :=
  ⟨fun h => by injection h, fun h => by rw [h]⟩

@[simp] theorem add_nan (x : JSNum) : add x nan = nan := by cases x <;> rfl

@[simp] theorem nan_add (x : JSNum) : add nan x = nan := by cases x <;> rfl

@[simp] theorem sub_nan (x : JSNum) : sub x nan = nan := by simp [sub, neg]

@[simp] theorem nan_sub (x : JSNum) : sub nan x = nan := by cases x <;> rfl

@[simp] theorem div_nan (x : JSNum) : div x nan = nan := by cases x <;> rfl

@[simp] theorem nan_div (x : JSNum) : div nan x = nan := by cases x <;> rfl

@[simp] theorem mul_nan (x : JSNum) : mul x nan = nan := by cases x <;> rfl

@[simp] theorem nan_mul (x : JSNum) : mul nan x = nan := by cases x <;> rfl

@[simp] theorem lt_nan (x : JSNum) : lt x nan = false := by cases x <;> rfl

@[simp] theorem nan_lt (x : JSNum) : lt nan x = false := by cases x <;> rfl

@[simp] theorem gt_nan (x : JSNum) : gt x nan = false := by simp [gt]

@[simp] theorem nan_gt (x : JSNum) : gt nan x = false := by simp [gt]

@[simp] theorem ge_nan (x : JSNum) : ge x nan = false := by cases x <;> rfl

@[simp] theorem nan_ge (x : JSNum) : ge nan x = false := by cases x <;> rfl

end JSNum

/-! ## The model's ROI -/

/-- On finite values with a non-zero principal, `currentROI` is the finite
value of the formula. -/
theorem currentROI_fin (inv : Investment) (p c : ℚ) (hp : inv.principalAmount = some (fin p))
    (hc : inv.currentValue = some (fin c)) (h : p ≠ 0) :
    currentROI inv = fin ((c - p) / p * 100) := by
  simp [currentROI, strictEq, hp, hc, h, toNumber, div_fin _ h]

/-- C1: `currentROI` is exactly 0 when `principalAmount` is 0, and otherwise is
the value of `(currentValue - principalAmount) / principalAmount * 100`; on
finite values with a non-zero principal that is the finite number given by the
formula, so no division by zero reaches the result. -/
theorem currentROI_formula (inv : Investment) :
    (inv.principalAmount = some (fin 0) → currentROI inv = fin 0) ∧
    (inv.principalAmount ≠ some (fin 0) →
      currentROI inv =
        mul (div (sub (toNumber inv.currentValue) (toNumber inv.principalAmount))
          (toNumber inv.principalAmount)) (fin 100)) ∧
    (∀ p c : ℚ, inv.principalAmount = some (fin p) → inv.currentValue = some (fin c) →
      p ≠ 0 → currentROI inv = fin ((c - p) / p * 100)) := by
  refine ⟨fun h => ?_, fun h => ?_, fun p c hp hc h => ?_⟩
  · simp [currentROI, strictEq, h]
  · have hs : strictEq inv.principalAmount (fin 0) = false := by
      cases hpa : inv.principalAmount with
      | none => rfl
      | some x =>
        have hx : x ≠ fin 0 := fun hx => h (by rw [hpa, hx])
        simp [strictEq, hx]
    simp [currentROI, hs]
  · exact currentROI_fin inv p c hp hc h

/-- Witness of C1: a holding with principal 0 has ROI 0, and principal 10000
with value 15500 has ROI 55. -/
theorem currentROI_formula_witness :
    currentROI (holding "A" 0 500 0 none) = fin 0 ∧
    currentROI (holding "B" 10000 15500 0 none) = fin ((15500 - 10000) / 10000 * 100) :=
  ⟨(currentROI_formula (holding "A" 0 500 0 none)).1 rfl,
   (currentROI_formula (holding "B" 10000 15500 0 none)).2.2 10000 15500 rfl rfl
     (by norm_num)⟩

/-! ## The recommendation rules -/

/-- The recommendations are the concatenation, in input order, of what each
investment pushes. -/
theorem getRecommendations_eq_flatMap (investments : List Investment) (now : Int) :
    getRecommendations investments now =
      investments.flatMap (fun inv => recommendationsFor inv now) := by
  have h : ∀ (l : List Investment) (acc : List Recommendation),
      List.foldl (fun recs inv => recs ++ recommendationsFor inv now) acc l =
        acc ++ l.flatMap (fun inv => recommendationsFor inv now) := by
    intro l
    induction l with
    | nil => intro acc; simp
    | cons x xs ih => intro acc; simp [ih, List.append_assoc]
  simpa [getRecommendations] using h investments []

/-- What one investment pushes: each rule contributes its recommendation
exactly when its condition holds. -/
theorem mem_recommendationsFor (inv : Investment) (now : Int) (r : Recommendation) :
    r ∈ recommendationsFor inv now ↔
      (lt (roiOf inv) (fin (-20)) = true ∧ r = alertFor inv) ∨
      (gt (roiOf inv) (fin 50) = true ∧ gt (daysInvestedOf inv now) (fin 365) = true ∧
        r = profitTakingFor inv) ∨
      (inv.targetAmount.truthy = true ∧
        ge (currentValueOf inv) (toNumber inv.targetAmount) = true ∧
        r = goalAchievedFor inv) := by
  unfold recommendationsFor
  cases h1 : lt (roiOf inv) (fin (-20)) <;>
  cases h2 : gt (roiOf inv) (fin 50) <;>
  cases h3 : gt (daysInvestedOf inv now) (fin 365) <;>
  cases h4 : inv.targetAmount.truthy <;>
  cases h5 : ge (currentValueOf inv) (toNumber inv.targetAmount) <;>
  simp

/-- The handler's `roi` on finite values: the formula on the effective current
value when the principal is positive, 0 otherwise. -/
theorem roiOf_fin (inv : Investment) (p c : ℚ) (hp : inv.principalAmount = some (fin p))
    (hc : inv.currentValue = some (fin c)) :
    roiOf inv = if 0 < p then fin (((if c = 0 then p else c) - p) / p * 100) else fin 0 := by
  by_cases h0 : 0 < p
  · have hne : p ≠ 0 := ne_of_gt h0
    by_cases hc0 : c = 0
    · simp [roiOf, principalOf, currentValueOf, jsOr, JSVal.truthy, JSNum.truthy, toNumber,
        hp, hc, h0, hne, hc0, div_fin _ hne]
    · simp [roiOf, principalOf, currentValueOf, jsOr, JSVal.truthy, JSNum.truthy, toNumber,
        hp, hc, h0, hne, hc0, div_fin _ hne]
  · by_cases hp0 : p = 0
    · simp [roiOf, principalOf, jsOr, JSVal.truthy, JSNum.truthy, toNumber, hp, hp0]
    · simp [roiOf, principalOf, jsOr, JSVal.truthy, JSNum.truthy, toNumber, hp, hp0, h0]

/-- The handler's `currentValue`: the stored value when it is truthy, else the
principal, else 0. -/
theorem currentValueOf_cases (inv : Investment) :
    (inv.currentValue.truthy = true → currentValueOf inv = toNumber inv.currentValue) ∧
    (inv.currentValue.truthy = false → inv.principalAmount.truthy = true →
      currentValueOf inv = toNumber inv.principalAmount) ∧
    (inv.currentValue.truthy = false → inv.principalAmount.truthy = false →
      currentValueOf inv = fin 0) := by
  refine ⟨fun h => ?_, fun h h2 => ?_, fun h h2 => ?_⟩
  · simp [currentValueOf, jsOr, h]
  · simp [currentValueOf, jsOr, h, h2]
  · simp [currentValueOf, jsOr, h, h2, toNumber]

/-- The alert, profit and goal recommendations carry the type and priority of
their rule and the name of their investment. -/
theorem recommendation_fields (inv : Investment) :
    ((alertFor inv).type = "alert" ∧ (alertFor inv).priority = "high" ∧
      (alertFor inv).investment = inv.instrumentName) ∧
    ((profitTakingFor inv).type = "profit_taking" ∧
      (profitTakingFor inv).priority = "medium" ∧
      (profitTakingFor inv).investment = inv.instrumentName) ∧
    ((goalAchievedFor inv).type = "goal_achieved" ∧ (goalAchievedFor inv).priority = "low" ∧
      (goalAchievedFor inv).investment = inv.instrumentName) :=
  ⟨⟨rfl, rfl, rfl⟩, ⟨rfl, rfl, rfl⟩, ⟨rfl, rfl, rfl⟩⟩

/-- C3, as stated, fails: a holding of principal 1000 whose value fell to 0 has
ROI -100, below -20, and `getRecommendations` emits nothing for it. -/
theorem alert_missed_on_total_loss :
    currentROI (holding "X" 1000 0 0 none) = fin (-100) ∧
    lt (currentROI (holding "X" 1000 0 0 none)) (fin (-20)) = true ∧
    getRecommendations [holding "X" 1000 0 0 none] (daysMs 10) = [] := by
  have h : currentROI (holding "X" 1000 0 0 none) = fin (-100) := by
    rw [currentROI_fin _ 1000 0 rfl rfl (by norm_num)]
    norm_num
  refine ⟨h, ?_, ?_⟩
  · rw [h]; norm_num
  · have hr : roiOf (holding "X" 1000 0 0 none) = fin 0 := by
      rw [roiOf_fin _ 1000 0 rfl rfl]; norm_num
    simp only [getRecommendations, List.foldl_cons, List.foldl_nil, recommendationsFor, hr]
    norm_num [holding, JSVal.truthy]

/-- C3, amended: the recommendations of type `alert` are exactly the alerts
(priority `high`, naming the investment) of the investments whose `roi`, as
the handler computes it, is below -20; on finite values that `roi` is
`(v - principalAmount) / principalAmount * 100` with `v` the current value, or
the principal when the current value is 0, and it is 0 when the principal is
not above 0. -/
theorem alert_iff_roi_below (investments : List Investment) (now : Int)
    (r : Recommendation) :
    ((r ∈ getRecommendations investments now ∧ r.type = "alert") ↔
      ∃ inv ∈ investments, lt (roiOf inv) (fin (-20)) = true ∧ r = alertFor inv) ∧
    (∀ inv : Investment, (alertFor inv).type = "alert" ∧ (alertFor inv).priority = "high" ∧
      (alertFor inv).investment = inv.instrumentName) ∧
    (∀ (inv : Investment) (p c : ℚ), inv.principalAmount = some (fin p) →
      inv.currentValue = some (fin c) →
      roiOf inv = if 0 < p then fin (((if c = 0 then p else c) - p) / p * 100) else fin 0) := by
  refine ⟨?_, fun inv => (recommendation_fields inv).1, fun inv p c hp hc => roiOf_fin inv p c hp hc⟩
  rw [getRecommendations_eq_flatMap, List.mem_flatMap]
  constructor
  · rintro ⟨⟨inv, hmem, hr⟩, ht⟩
    rw [mem_recommendationsFor] at hr
    rcases hr with ⟨h1, rfl⟩ | ⟨_, _, rfl⟩ | ⟨_, _, rfl⟩
    · exact ⟨inv, hmem, h1, rfl⟩
    · simp [profitTakingFor] at ht
    · simp [goalAchievedFor] at ht
  · rintro ⟨inv, hmem, h1, rfl⟩
    exact ⟨⟨inv, hmem, (mem_recommendationsFor inv now _).2 (Or.inl ⟨h1, rfl⟩)⟩, rfl⟩

/-- Witness of C3: principal 1000 with value 700 has `roi` -30 and is alerted. -/
theorem alert_iff_roi_below_witness :
    roiOf (holding "Y" 1000 700 0 none) = fin (-30) ∧
    alertFor (holding "Y" 1000 700 0 none) ∈
      getRecommendations [holding "Y" 1000 700 0 none] (daysMs 10) := by
  have hr : roiOf (holding "Y" 1000 700 0 none) = fin (-30) := by
    rw [(alert_iff_roi_below [] 0 (alertFor (holding "Y" 1000 700 0 none))).2.2
      (holding "Y" 1000 700 0 none) 1000 700 rfl rfl]
    norm_num
  refine ⟨hr, ?_⟩
  have h := (alert_iff_roi_below [holding "Y" 1000 700 0 none] (daysMs 10)
    (alertFor (holding "Y" 1000 700 0 none))).1
  refine (h.2 ⟨_, List.mem_singleton.2 rfl, ?_, rfl⟩).1
  rw [hr]; norm_num

/-- On a principal that is not negative, the handler's `roi` is above 50
exactly when the model's `currentROI` is. -/
theorem roiOf_above_50 (inv : Investment)
    (h : lt (toNumber inv.principalAmount) (fin 0) = false) :
    gt (roiOf inv) (fin 50) = gt (currentROI inv) (fin 50) := by
  rcases hp : inv.principalAmount with _ | _ | _ | _ | p
  · simp [roiOf, currentROI, principalOf, hp, jsOr, JSVal.truthy, toNumber, strictEq]
  · simp [roiOf, currentROI, principalOf, hp, jsOr, JSVal.truthy, JSNum.truthy, toNumber,
      strictEq]
  · rcases hc : inv.currentValue with _ | _ | _ | _ | c <;>
      simp [roiOf, currentROI, principalOf, currentValueOf, hp, hc, jsOr, JSVal.truthy,
        JSNum.truthy, toNumber, strictEq, sub, neg, add, div, gt, lt]
    by_cases hc0 : c = 0 <;> simp [hc0]
  · simp [hp, toNumber, lt] at h
  · have hp0 : 0 ≤ p := by
      simpa [hp, toNumber] using h
    rcases eq_or_lt_of_le hp0 with h0 | h0
    · subst h0
      simp [roiOf, currentROI, principalOf, hp, jsOr, JSVal.truthy, JSNum.truthy, toNumber,
        strictEq]
    · have hne : p ≠ 0 := ne_of_gt h0
      have hnlt : ¬ p < 0 := not_lt.2 hp0
      rcases hc : inv.currentValue with _ | _ | _ | _ | c
      · simp [roiOf, currentROI, principalOf, currentValueOf, hp, hc, jsOr, JSVal.truthy,
          JSNum.truthy, toNumber, strictEq, hne, h0, div_fin _ hne]
      · simp [roiOf, currentROI, principalOf, currentValueOf, hp, hc, jsOr, JSVal.truthy,
          JSNum.truthy, toNumber, strictEq, hne, h0, div_fin _ hne]
      · simp [roiOf, currentROI, principalOf, currentValueOf, hp, hc, jsOr, JSVal.truthy,
          JSNum.truthy, toNumber, strictEq, hne, h0]
      · simp [roiOf, currentROI, principalOf, currentValueOf, hp, hc, jsOr, JSVal.truthy,
          JSNum.truthy, toNumber, strictEq, hne, h0]
      · rw [roiOf_fin inv p c hp hc, currentROI_fin inv p c hp hc hne, if_pos h0]
        by_cases hc0 : c = 0
        · subst hc0
          have e : ((0 : ℚ) - p) / p * 100 = -100 := by field_simp
          rw [if_pos rfl, e]
          norm_num
        · rw [if_neg hc0]

/-- The handler's `daysInvested` is above 365 exactly when the model's
`daysInvested` virtual is. -/
theorem daysInvestedOf_above_365 (inv : Investment) (now : Int) :
    gt (daysInvestedOf inv now) (fin 365) = gt (daysInvested inv now) (fin 365) := by
  unfold daysInvestedOf daysInvested
  cases inv.purchaseDate with
  | none => simp [msSince, div, floor, gt, lt]
  | some d => rfl

/-- C4: `getRecommendations` emits the `profit_taking` recommendation
(priority `medium`, naming the investment) for an investment exactly when the
`roi` it computes is above 50 and the whole-day `daysInvested` it computes is
above 365; for an investment whose principal is not negative (the schema's
`min: 0`) that is exactly when the model's `currentROI` is above 50 and the
model's `daysInvested` is above 365.  The holding of principal 10000 and value
15500 bought 400 days before the evaluation, without target, yields exactly
that one recommendation. -/
theorem profit_taking_iff (inv : Investment) (now : Int) :
    ((∃ r ∈ getRecommendations [inv] now, r.type = "profit_taking") ↔
      (gt (roiOf inv) (fin 50) = true ∧ gt (daysInvestedOf inv now) (fin 365) = true)) ∧
    (lt (toNumber inv.principalAmount) (fin 0) = false →
      ((∃ r ∈ getRecommendations [inv] now, r.type = "profit_taking") ↔
        (gt (currentROI inv) (fin 50) = true ∧
          gt (daysInvested inv now) (fin 365) = true))) ∧
    (∀ r ∈ getRecommendations [inv] now, r.type = "profit_taking" →
      r.priority = "medium" ∧ r.investment = inv.instrumentName) ∧
    (∀ (name : String) (d : Int),
      getRecommendations [holding name 10000 15500 d none] (d + daysMs 400) =
        [{ type := "profit_taking", investment := name,
           message := "Consider taking profits - excellent performance achieved",
           priority := "medium" }]) := by
  have hmem : ∀ r, r ∈ getRecommendations [inv] now ↔ r ∈ recommendationsFor inv now := by
    intro r
    simp [getRecommendations_eq_flatMap]
  have hiff : (∃ r ∈ getRecommendations [inv] now, r.type = "profit_taking") ↔
      (gt (roiOf inv) (fin 50) = true ∧ gt (daysInvestedOf inv now) (fin 365) = true) := by
    constructor
    · rintro ⟨r, hr, ht⟩
      rw [hmem, mem_recommendationsFor] at hr
      rcases hr with ⟨_, rfl⟩ | ⟨h1, h2, rfl⟩ | ⟨_, _, rfl⟩
      · simp [alertFor] at ht
      · exact ⟨h1, h2⟩
      · simp [goalAchievedFor] at ht
    · rintro ⟨h1, h2⟩
      exact ⟨profitTakingFor inv,
        (hmem _).2 ((mem_recommendationsFor inv now _).2 (Or.inr (Or.inl ⟨h1, h2, rfl⟩))), rfl⟩
  refine ⟨hiff, ?_, ?_, ?_⟩
  · intro h
    rw [← roiOf_above_50 inv h, ← daysInvestedOf_above_365]
    exact hiff
  · intro r hr ht
    rw [hmem, mem_recommendationsFor] at hr
    rcases hr with ⟨_, rfl⟩ | ⟨_, _, rfl⟩ | ⟨_, _, rfl⟩
    · simp [alertFor] at ht
    · exact ⟨rfl, rfl⟩
    · simp [goalAchievedFor] at ht
  · intro name d
    have hr : roiOf (holding name 10000 15500 d none) = fin 55 := by
      rw [roiOf_fin _ 10000 15500 rfl rfl]; norm_num
    have hd : daysInvestedOf (holding name 10000 15500 d none) (d + daysMs 400) = fin 400 := by
      simp [daysInvestedOf, holding, msSince, daysMs, msPerDay, div_fin, floor]
      rw [show (34560000000 : ℚ) / (1000 * 60 * 60 * 24) = ((400 : ℤ) : ℚ) by norm_num,
        Int.floor_intCast]
      norm_num
    simp only [getRecommendations, List.foldl_cons, List.foldl_nil, recommendationsFor, hr, hd]
    norm_num [holding, JSVal.truthy, profitTakingFor]

/-- Witness of C4: the scenario holding, evaluated 400 days after the
purchase, has a principal that is not negative, ROI above 50 and more than 365
days invested, and gets the one `profit_taking` recommendation. -/
theorem profit_taking_iff_witness :
    lt (toNumber (holding "S" 10000 15500 0 none).principalAmount) (fin 0) = false ∧
    (gt (currentROI (holding "S" 10000 15500 0 none)) (fin 50) = true ∧
      gt (daysInvested (holding "S" 10000 15500 0 none) (0 + daysMs 400)) (fin 365) = true) ∧
    getRecommendations [holding "S" 10000 15500 0 none] (0 + daysMs 400) =
      [{ type := "profit_taking", investment := "S",
         message := "Consider taking profits - excellent performance achieved",
         priority := "medium" }] := by
  have h := profit_taking_iff (holding "S" 10000 15500 0 none) (0 + daysMs 400)
  have hp : lt (toNumber (holding "S" 10000 15500 0 none).principalAmount) (fin 0) = false := by
    simp [holding, toNumber]
  have hs := h.2.2.2 "S" 0
  refine ⟨hp, (h.2.1 hp).1 ⟨profitTakingFor (holding "S" 10000 15500 0 none), ?_, rfl⟩, hs⟩
  rw [hs]
  exact List.mem_singleton.2 rfl

/-- C5, as stated, fails: a holding of principal 1000 with current value 0 and
target 500 has `currentValue < targetAmount`, yet the goal rule fires for it. -/
theorem goal_achieved_on_zero_value :
    (holding "G" 1000 0 0 (some (fin 500))).currentValue = some (fin 0) ∧
    ge (toNumber (holding "G" 1000 0 0 (some (fin 500))).currentValue)
      (toNumber (holding "G" 1000 0 0 (some (fin 500))).targetAmount) = false ∧
    getRecommendations [holding "G" 1000 0 0 (some (fin 500))] (daysMs 10) =
      [{ type := "goal_achieved", investment := "G",
         message := "Investment goal achieved! Consider your next step",
         priority := "low" }] := by
  refine ⟨rfl, ?_, ?_⟩
  · norm_num [holding, toNumber]
  · have hr : roiOf (holding "G" 1000 0 0 (some (fin 500))) = fin 0 := by
      rw [roiOf_fin _ 1000 0 rfl rfl]; norm_num
    have hc : currentValueOf (holding "G" 1000 0 0 (some (fin 500))) = fin 1000 := by
      simp [currentValueOf, holding, jsOr, JSVal.truthy, JSNum.truthy, toNumber]
    simp only [getRecommendations, List.foldl_cons, List.foldl_nil, recommendationsFor, hr, hc]
    norm_num [holding, JSVal.truthy, JSNum.truthy, toNumber, goalAchievedFor]

/-- C5, amended: the recommendations of type `goal_achieved` are exactly those
(priority `low`, naming the investment) of the investments whose
`targetAmount` is set and not 0 and whose effective current value is at least
`targetAmount`; the effective current value is `currentValue` when that is set
and not 0, else `principalAmount` when that is set and not 0, else 0. -/
theorem goal_achieved_iff (investments : List Investment) (now : Int)
    (r : Recommendation) :
    ((r ∈ getRecommendations investments now ∧ r.type = "goal_achieved") ↔
      ∃ inv ∈ investments, inv.targetAmount.truthy = true ∧
        ge (currentValueOf inv) (toNumber inv.targetAmount) = true ∧
        r = goalAchievedFor inv) ∧
    (∀ inv : Investment, (goalAchievedFor inv).type = "goal_achieved" ∧
      (goalAchievedFor inv).priority = "low" ∧
      (goalAchievedFor inv).investment = inv.instrumentName) ∧
    (∀ inv : Investment,
      (inv.currentValue.truthy = true → currentValueOf inv = toNumber inv.currentValue) ∧
      (inv.currentValue.truthy = false → inv.principalAmount.truthy = true →
        currentValueOf inv = toNumber inv.principalAmount) ∧
      (inv.currentValue.truthy = false → inv.principalAmount.truthy = false →
        currentValueOf inv = fin 0)) := by
  refine ⟨?_, fun inv => (recommendation_fields inv).2.2, currentValueOf_cases⟩
  rw [getRecommendations_eq_flatMap, List.mem_flatMap]
  constructor
  · rintro ⟨⟨inv, hmem, hr⟩, ht⟩
    rw [mem_recommendationsFor] at hr
    rcases hr with ⟨_, rfl⟩ | ⟨_, _, rfl⟩ | ⟨h1, h2, rfl⟩
    · simp [alertFor] at ht
    · simp [profitTakingFor] at ht
    · exact ⟨inv, hmem, h1, h2, rfl⟩
  · rintro ⟨inv, hmem, h1, h2, rfl⟩
    exact ⟨⟨inv, hmem,
      (mem_recommendationsFor inv now _).2 (Or.inr (Or.inr ⟨h1, h2, rfl⟩))⟩, rfl⟩

/-- Witness of C5: value 1200 against target 1000 fires the goal rule, through
the stored current value. -/
theorem goal_achieved_iff_witness :
    currentValueOf (holding "H" 1000 1200 0 (some (fin 1000))) = fin 1200 ∧
    goalAchievedFor (holding "H" 1000 1200 0 (some (fin 1000))) ∈
      getRecommendations [holding "H" 1000 1200 0 (some (fin 1000))] (daysMs 10) := by
  have hc : currentValueOf (holding "H" 1000 1200 0 (some (fin 1000))) = fin 1200 :=
    ((goal_achieved_iff [] 0 (goalAchievedFor (holding "H" 1000 1200 0 (some (fin 1000))))).2.2
      (holding "H" 1000 1200 0 (some (fin 1000)))).1
      (by simp [holding, JSVal.truthy, JSNum.truthy])
  refine ⟨hc, ?_⟩
  have h := (goal_achieved_iff [holding "H" 1000 1200 0 (some (fin 1000))] (daysMs 10)
    (goalAchievedFor (holding "H" 1000 1200 0 (some (fin 1000))))).1
  refine (h.2 ⟨_, List.mem_singleton.2 rfl, ?_, ?_, rfl⟩).1
  · simp [holding, JSVal.truthy, JSNum.truthy]
  · rw [hc]; norm_num [holding, toNumber]

/-! ## Goal progress -/

/-- C6, as stated, fails: a goal of target 10000 whose value is 15000 is
reported by `getGoalProgress` with progress 150, above 100 and different from
`min(15000 / 10000, 1) * 100`. -/
theorem progress_exceeds_100 :
    (getGoalProgress [holding "P" 10000 15000 0 (some (fin 10000))] 0).map
      GoalProgress.progress = [fin 150] ∧
    lt (fin 100) (fin 150) = true ∧
    fin 150 ≠ fin (min (15000 / 10000) 1 * 100) := by
  refine ⟨?_, by norm_num, by norm_num⟩
  have hg : isGoal (holding "P" 10000 15000 0 (some (fin 10000))) = true := by
    simp [isGoal, holding, toNumber]
  simp only [getGoalProgress, List.filter_cons, hg, if_true, List.filter_nil, List.map_cons,
    List.map_nil]
  norm_num [goalWithProgress, holding, toNumber, div_fin]

/-- C6, amended: every goal reported by `getGoalProgress` has
`targetAmount > 0` and its progress is `currentValue / targetAmount * 100`,
not clamped: on finite values it equals `min(currentValue / targetAmount, 1) *
100` when the value does not exceed the target and is above 100 when it does;
the clamp to 100 is applied by the `InvestmentGoals` component. -/
theorem goal_progress_unclamped (stored : List Investment) (now : Int) (g : GoalProgress)
    (hg : g ∈ getGoalProgress stored now) :
    gt (toNumber g.goal.targetAmount) (fin 0) = true ∧
    g.progress =
      mul (div (toNumber g.goal.currentValue) (toNumber g.goal.targetAmount)) (fin 100) ∧
    (∀ t c : ℚ, g.goal.targetAmount = some (fin t) → g.goal.currentValue = some (fin c) →
      g.progress = fin (c / t * 100) ∧
      (c ≤ t → g.progress = fin (min (c / t) 1 * 100)) ∧
      (t < c → lt (fin 100) g.progress = true) ∧
      progressPercentage g.goal = fin (min (c / t) 1 * 100)) := by
  obtain ⟨inv, hinv, rfl⟩ := List.mem_map.1 hg
  have hgoal : isGoal inv = true := (List.mem_filter.1 hinv).2
  have hpos : gt (toNumber inv.targetAmount) (fin 0) = true := by
    simp only [isGoal, Bool.and_eq_true] at hgoal
    exact hgoal.2
  have hprog : (goalWithProgress inv now).progress =
      mul (div (toNumber inv.currentValue) (toNumber inv.targetAmount)) (fin 100) := by
    simp [goalWithProgress, hpos]
  refine ⟨hpos, hprog, ?_⟩
  intro t c ht hc
  have htg : (goalWithProgress inv now).goal = inv := rfl
  rw [htg] at ht hc
  have ht0 : 0 < t := by simpa [ht, toNumber] using hpos
  have hne : t ≠ 0 := ne_of_gt ht0
  have hval : (goalWithProgress inv now).progress = fin (c / t * 100) := by
    rw [hprog]; simp [ht, hc, toNumber, div_fin _ hne]
  refine ⟨hval, ?_, ?_, ?_⟩
  · intro hle
    have h1 : c / t ≤ 1 := (div_le_one ht0).2 hle
    rw [hval, min_eq_left h1]
  · intro hlt
    have h1 : 1 < c / t := (one_lt_div ht0).2 hlt
    rw [hval]
    simp only [lt_fin, decide_eq_true_eq]
    linarith
  · rw [htg]
    simp only [progressPercentage, ht, hc, toNumber, div_fin _ hne, mul_fin, lt_fin]
    rcases le_or_lt (c / t) 1 with h1 | h1
    · have h2 : ¬ (100 < c / t * 100) := by linarith
      simp [h2, min_eq_left h1]
    · have h2 : 100 < c / t * 100 := by linarith
      simp [h2, min_eq_right (le_of_lt h1)]

/-- Witness of C6: the goal of target 10000 and value 15000. -/
theorem goal_progress_unclamped_witness :
    goalWithProgress (holding "P" 10000 15000 0 (some (fin 10000))) 0 ∈
      getGoalProgress [holding "P" 10000 15000 0 (some (fin 10000))] 0 ∧
    (goalWithProgress (holding "P" 10000 15000 0 (some (fin 10000))) 0).progress =
      fin (15000 / 10000 * 100) ∧
    progressPercentage (holding "P" 10000 15000 0 (some (fin 10000))) =
      fin (min (15000 / 10000) 1 * 100) := by
  have hmem : goalWithProgress (holding "P" 10000 15000 0 (some (fin 10000))) 0 ∈
      getGoalProgress [holding "P" 10000 15000 0 (some (fin 10000))] 0 := by
    have hg : isGoal (holding "P" 10000 15000 0 (some (fin 10000))) = true := by
      simp [isGoal, holding, toNumber]
    simp [getGoalProgress, hg]
  have h := (goal_progress_unclamped _ 0 _ hmem).2.2 10000 15000 rfl rfl
  exact ⟨hmem, h.1, h.2.2.2⟩

/-! ## Performance updates -/

/-- The handler's verdict when no number it assigns is `NaN`: status 200 with
the document after the assignments and the push. -/
theorem Controller.updatePerformance_saved (inv : Investment)
    (currentValue currentPrice : JSVal) (now : Int)
    (h1 : currentValue ≠ some nan)
    (h2 : sub (toNumber currentValue) (toNumber inv.principalAmount) ≠ nan)
    (h3 : (Controller.pushedSnapshot inv currentValue now).returnPercentage ≠ nan) :
    Controller.updatePerformance (some inv) currentValue currentPrice now =
      { status := 200
        data := some { inv with
          currentValue := currentValue
          currentPrice := if currentPrice.truthy then currentPrice else inv.currentPrice
          performanceHistory := inv.performanceHistory ++
            [Controller.pushedSnapshot inv currentValue now] } } := by
  have h2' : (Controller.pushedSnapshot inv currentValue now).returnAmount ≠ nan := h2
  simp [Controller.updatePerformance, Model.save, h1, h2', h3]

/-- The handler's verdict when a number it assigns is `NaN`: status 500. -/
theorem Controller.updatePerformance_refused (inv : Investment)
    (currentValue currentPrice : JSVal) (now : Int)
    (h : currentValue = some nan ∨
      sub (toNumber currentValue) (toNumber inv.principalAmount) = nan ∨
      (Controller.pushedSnapshot inv currentValue now).returnPercentage = nan) :
    Controller.updatePerformance (some inv) currentValue currentPrice now =
      { status := 500, data := none } := by
  have hany : ([currentValue, currentValue,
      some (Controller.pushedSnapshot inv currentValue now).returnAmount,
      some (Controller.pushedSnapshot inv currentValue now).returnPercentage].any
      (fun v => decide (v = some nan))) = true := by
    rcases h with h | h | h
    · simp [h]
    · have h' : (Controller.pushedSnapshot inv currentValue now).returnAmount = nan := h
      simp [h']
    · simp [h]
  simp only [Controller.updatePerformance, Model.save, hany, if_true]

/-- The snapshot pushed by the handler for a finite value on a finite
principal holds finite numbers. -/
theorem Controller.pushedSnapshot_fin (inv : Investment) (now : Int) (v p : ℚ)
    (hp : inv.principalAmount = some (fin p)) :
    (Controller.pushedSnapshot inv (some (fin v)) now).returnAmount = fin (v - p) ∧
    (Controller.pushedSnapshot inv (some (fin v)) now).returnPercentage =
      (if 0 < p then fin ((v - p) / p * 100) else fin 0) := by
  by_cases h0 : 0 < p
  · have hne : p ≠ 0 := ne_of_gt h0
    simp [Controller.pushedSnapshot, toNumber, hp, h0, div_fin _ hne]
  · simp [Controller.pushedSnapshot, toNumber, hp, h0]

/-- C7, as stated, fails: a request whose body has no `currentValue` (the new
value is `undefined`) on a holding of principal 1000 computes the return
`NaN`; `save()` refuses it, the handler answers 500 and no snapshot is
stored.  The model method with the same missing value is rejected too. -/
theorem updatePerformance_refuses_missing_value :
    Controller.updatePerformance (some (holding "R" 1000 1000 0 none)) none none (daysMs 1) =
      { status := 500, data := none } ∧
    Model.updatePerformanceAndSave (holding "R" 1000 1000 0 none) none none (daysMs 1) =
      .error "Investment validation failed" := by
  constructor
  · exact Controller.updatePerformance_refused _ none none _
      (Or.inr (Or.inl (by simp [holding, toNumber, sub])))
  · simp [Model.updatePerformanceAndSave, Model.save, holding, toNumber, sub]

/-- C7, amended: for an investment whose principal is a finite number and a
new value that is a finite number, the handler saves the document, answers 200
and leaves `performanceHistory` equal to the previous history followed by one
snapshot whose value is the new value and whose return is the new value minus
the principal; so does the model method when the principal is not 0.  The
length grows by one, the earlier snapshots are unchanged, and a second update
with the same value appends a second snapshot.  When the computed return is
`NaN` (the new value is missing or not a number) `save()` rejects, the handler
answers 500 and nothing is stored. -/
theorem updatePerformance_appends (inv : Investment) (newPrice : JSVal) (now now2 : Int)
    (v p : ℚ) (hp : inv.principalAmount = some (fin p)) :
    (∃ (s : Snapshot) (saved : Investment), s.date = now ∧ s.value = some (fin v) ∧
      s.returnAmount = fin (v - p) ∧
      Controller.updatePerformance (some inv) (some (fin v)) newPrice now =
        { status := 200, data := some saved } ∧
      saved.performanceHistory = inv.performanceHistory ++ [s] ∧
      saved.performanceHistory.length = inv.performanceHistory.length + 1 ∧
      (∀ i : Nat, i < inv.performanceHistory.length →
        saved.performanceHistory[i]? = inv.performanceHistory[i]?) ∧
      saved.principalAmount = inv.principalAmount ∧
      (Controller.updatePerformance (some saved) (some (fin v)) newPrice now2).data.map
          (fun i => i.performanceHistory.map Snapshot.value) =
        some (inv.performanceHistory.map Snapshot.value ++ [some (fin v), some (fin v)])) ∧
    (p ≠ 0 →
      ∃ (s : Snapshot) (saved : Investment), s.date = now ∧ s.value = some (fin v) ∧
        s.returnAmount = fin (v - p) ∧
        Model.updatePerformanceAndSave inv (some (fin v)) newPrice now = .ok saved ∧
        saved.performanceHistory = inv.performanceHistory ++ [s] ∧
        saved.performanceHistory.length = inv.performanceHistory.length + 1 ∧
        (∀ i : Nat, i < inv.performanceHistory.length →
          saved.performanceHistory[i]? = inv.performanceHistory[i]?) ∧
        saved.principalAmount = inv.principalAmount ∧
        (Model.updatePerformanceAndSave saved (some (fin v)) newPrice now2).toOption.map
            (fun i => i.performanceHistory.map Snapshot.value) =
          some (inv.performanceHistory.map Snapshot.value ++ [some (fin v), some (fin v)])) ∧
    (∀ (newValue : JSVal),
      sub (toNumber newValue) (toNumber inv.principalAmount) = nan →
      Controller.updatePerformance (some inv) newValue newPrice now =
        { status := 500, data := none } ∧
      ∃ e, Model.updatePerformanceAndSave inv newValue newPrice now = .error e) := by
  obtain ⟨hra, hrp⟩ := Controller.pushedSnapshot_fin inv now v p hp
  have hsaved := Controller.updatePerformance_saved inv (some (fin v)) newPrice now
    (by simp) (by simp [toNumber, hp])
    (by rw [hrp]; split <;> simp)
  refine ⟨⟨Controller.pushedSnapshot inv (some (fin v)) now, _, rfl, rfl, hra, hsaved, rfl,
    by simp, ?_, rfl, ?_⟩, ?_, ?_⟩
  · intro i hi
    simp [List.getElem?_append_left hi]
  · obtain ⟨_, hrp2⟩ := Controller.pushedSnapshot_fin
      { inv with
        currentValue := some (fin v)
        currentPrice := if newPrice.truthy then newPrice else inv.currentPrice
        performanceHistory := inv.performanceHistory ++
          [Controller.pushedSnapshot inv (some (fin v)) now] } now2 v p hp
    rw [Controller.updatePerformance_saved _ (some (fin v)) newPrice now2
      (by simp) (by simp [toNumber, hp]) (by rw [hrp2]; split <;> simp)]
    simp [Controller.pushedSnapshot]
  · intro hne
    have hpct : mul (div (sub (fin v) (fin p)) (fin p)) (fin 100) = fin ((v - p) / p * 100) := by
      simp [div_fin _ hne]
    have hpct2 : mul (div (fin (v - p)) (fin p)) (fin 100) = fin ((v - p) / p * 100) := by
      simp [div_fin _ hne]
    have hsave : ∀ (doc : Investment) (t : Int), doc.principalAmount = some (fin p) →
        Model.updatePerformanceAndSave doc (some (fin v)) newPrice t =
          .ok (Model.updatePerformance doc (some (fin v)) newPrice t) := by
      intro doc t hdoc
      simp only [Model.updatePerformanceAndSave, Model.save, toNumber, hdoc, hpct]
      simp
    refine ⟨⟨now, some (fin v), fin (v - p), fin ((v - p) / p * 100)⟩,
      Model.updatePerformance inv (some (fin v)) newPrice now, rfl, rfl, rfl, hsave inv now hp,
      ?_, ?_, ?_, ?_, ?_⟩
    · simp [Model.updatePerformance, toNumber, hp, hpct2]
    · simp [Model.updatePerformance]
    · intro i hi
      simp [Model.updatePerformance, List.getElem?_append_left hi]
    · simp [Model.updatePerformance]
    · rw [hsave _ now2 (by simp [Model.updatePerformance, hp])]
      simp [Except.toOption, Model.updatePerformance]
  · intro newValue hnan
    refine ⟨Controller.updatePerformance_refused inv newValue newPrice now (Or.inr (Or.inl hnan)),
      "Investment validation failed", ?_⟩
    simp [Model.updatePerformanceAndSave, Model.save, hnan]

/-- C7, amended, on a holding of principal 1000 updated to 1500: the handler
answers 200 and the saved history is the one snapshot of value 1500 and return
500. -/
theorem updatePerformance_appends_witness :
    (holding "R" 1000 1000 0 none).principalAmount = some (fin 1000) ∧
    (Controller.updatePerformance (some (holding "R" 1000 1000 0 none)) (some (fin 1500))
        none (daysMs 1)).status = 200 ∧
    (Controller.updatePerformance (some (holding "R" 1000 1000 0 none)) (some (fin 1500))
        none (daysMs 1)).data.map
      (fun i => i.performanceHistory.map (fun s => (s.value, s.returnAmount))) =
      some [(some (fin 1500), fin (1500 - 1000))] := by
  obtain ⟨s, saved, _, hval, hret, hresp, hhist, _⟩ :=
    (updatePerformance_appends (holding "R" 1000 1000 0 none) none (daysMs 1) (daysMs 2)
      1500 1000 rfl).1
  refine ⟨rfl, by rw [hresp], ?_⟩
  rw [hresp]
  simp only [Option.map_some', hhist, holding, List.nil_append, List.map_cons, List.map_nil,
    hval, hret]

/-- C8 fails on the handler: the model method sets `actualReturn` to the
`returnPercentage` of the snapshot it appends, but the handler, updating a
holding of principal 1000 to the value 1500, appends a snapshot of
`returnPercentage` 50 and leaves `actualReturn` at its old value 0. -/
theorem handler_keeps_old_actualReturn :
    (∀ (inv : Investment) (newValue newPrice : JSVal) (now : Int),
      (Model.updatePerformance inv newValue newPrice now).actualReturn =
        (Model.updatePerformance inv newValue newPrice now).performanceHistory.getLast?.map
          Snapshot.returnPercentage ∧
      (Model.updatePerformance inv newValue newPrice now).actualReturn =
        some (mul (div (sub (toNumber newValue) (toNumber inv.principalAmount))
          (toNumber inv.principalAmount)) (fin 100))) ∧
    (Controller.updatePerformance (some (holding "R" 1000 1000 0 none)) (some (fin 1500))
        none (daysMs 1)).data.map
      (fun i => (i.actualReturn, i.performanceHistory.map Snapshot.returnPercentage)) =
      some (some (fin 0), [fin 50]) := by
  refine ⟨fun inv newValue newPrice now => ⟨?_, rfl⟩, ?_⟩
  · simp [Model.updatePerformance]
  · rw [Controller.updatePerformance_saved _ _ _ _ (by simp)
      (by simp [holding, toNumber])
      (by norm_num [Controller.pushedSnapshot, holding, toNumber, div_fin]; simp)]
    norm_num [Controller.pushedSnapshot, holding, toNumber, div_fin]

/-- C9 fails on two of the four computations: for a holding of principal 0 and
value 500 bought 365 days before the evaluation, `currentROI` and the
handler's `returnPercentage` are 0, but the model method's `returnPercentage`
(and the `actualReturn` it stores) and `annualizedReturn` are `+Infinity`,
the result of dividing by the principal. -/
theorem zero_principal_divisions :
    currentROI (holding "Z" 0 500 0 none) = fin 0 ∧
    (Controller.updatePerformance (some (holding "Z" 0 500 0 none)) (some (fin 500)) none
        (daysMs 365)).data.map (fun i => i.performanceHistory.map Snapshot.returnPercentage) =
      some [fin 0] ∧
    (Model.updatePerformance (holding "Z" 0 500 0 none) (some (fin 500)) none
        (daysMs 365)).performanceHistory.map Snapshot.returnPercentage = [posInf] ∧
    (Model.updatePerformance (holding "Z" 0 500 0 none) (some (fin 500)) none
        (daysMs 365)).actualReturn = some posInf ∧
    (∀ approx : ℚ → ℚ → ℚ,
      annualizedReturn approx (holding "Z" 0 500 0 none) (daysMs 365) = posInf) := by
  refine ⟨?_, ?_, ?_, ?_, fun approx => ?_⟩
  · simp [currentROI, strictEq, holding]
  · simp [Controller.updatePerformance, Controller.pushedSnapshot, Model.save, holding,
      toNumber]
  · simp [Model.updatePerformance, holding, toNumber, div, mul, infTimes]
  · simp [Model.updatePerformance, holding, toNumber, div, mul, infTimes]
  · have hy : div (div (JSNum.abs (msSince (daysMs 365) (holding "Z" 0 500 0 none).purchaseDate))
        (fin msPerDay)) (fin 365) = fin 1 := by
      norm_num [msSince, holding, daysMs, JSNum.abs, msPerDay, div_fin]
    simp only [annualizedReturn, hy]
    norm_num [strictEq, holding, toNumber, div, mathPow, sub, neg, add, mul, infTimes]

/-! ## Annualized return -/

/-- C10, as stated, fails: a holding of principal 1000 and value 2000 bought
12 hours before the evaluation has `daysInvested` 0, and its
`annualizedReturn` is `(2 ^ 730 - 1) * 100`, not 0: the year fraction is
`0.5 / 365`, not `0 / 365`. -/
theorem annualizedReturn_within_first_day :
    daysInvested (holding "N" 1000 2000 0 none) 43200000 = fin 0 ∧
    (∀ approx : ℚ → ℚ → ℚ,
      annualizedReturn approx (holding "N" 1000 2000 0 none) 43200000 =
        fin ((2 ^ 730 - 1) * 100)) ∧
    fin ((2 ^ 730 - 1) * 100) ≠ fin 0 := by
  refine ⟨?_, fun approx => ?_, by norm_num⟩
  · have h : div (msSince 43200000 (holding "N" 1000 2000 0 none).purchaseDate)
        (fin msPerDay) = fin (1 / 2) := by
      norm_num [msSince, holding, msPerDay, div_fin]
    simp only [daysInvested, h, floor]
    rw [fin_inj]
    have : ⌊(1 / 2 : ℚ)⌋ = 0 := by
      rw [Int.floor_eq_iff]; norm_num
    rw [this]; norm_num
  · have hy : div (div (JSNum.abs (msSince 43200000 (holding "N" 1000 2000 0 none).purchaseDate))
        (fin msPerDay)) (fin 365) = fin (1 / 730) := by
      norm_num [msSince, holding, JSNum.abs, msPerDay, div_fin]
    have he : div (fin 1) (fin (1 / 730)) = fin ((730 : ℤ) : ℚ) := by
      norm_num [div_fin]
    have ht : div (toNumber (holding "N" 1000 2000 0 none).currentValue)
        (toNumber (holding "N" 1000 2000 0 none).principalAmount) = fin 2 := by
      norm_num [holding, toNumber, div_fin]
    simp only [annualizedReturn, hy, he, ht]
    have hs : strictEq (some (fin (1 / 730))) (fin 0) = false := by
      norm_num [strictEq]
    rw [hs]
    simp only [mathPow, Rat.intCast_den, Rat.intCast_num]
    norm_num [overflow64]

/-- C10, amended: the year fraction of `annualizedReturn` is the elapsed time
`|now - purchaseDate|` in fractional days over 365, so the result is 0 when the
purchase date is the evaluation time itself, and otherwise is
`(Math.pow(currentValue / principalAmount, 1 / years) - 1) * 100` with that
non-zero fraction, also within the first day. -/
theorem annualizedReturn_year_fraction (approx : ℚ → ℚ → ℚ) (inv : Investment)
    (now d : Int) (hd : inv.purchaseDate = some d) :
    (d = now → annualizedReturn approx inv now = fin 0) ∧
    (d ≠ now →
      annualizedReturn approx inv now =
        mul (sub (mathPow approx
          (div (toNumber inv.currentValue) (toNumber inv.principalAmount))
          (fin (1 / (|((now - d : ℤ) : ℚ)| / msPerDay / 365)))) (fin 1)) (fin 100)) := by
  have hms : (msPerDay : ℚ) ≠ 0 := by norm_num [msPerDay]
  have hy : div (div (JSNum.abs (msSince now inv.purchaseDate)) (fin msPerDay)) (fin 365) =
      fin (|((now - d : ℤ) : ℚ)| / msPerDay / 365) := by
    simp [hd, msSince, JSNum.abs, div_fin _ hms, div_fin]
  constructor
  · intro h
    subst h
    simp only [annualizedReturn, hy]
    simp [strictEq]
  · intro h
    have hnd : ((now - d : ℤ) : ℚ) ≠ 0 := by
      intro h0
      have : now - d = 0 := by exact_mod_cast h0
      exact h (by omega)
    have hyne : |((now - d : ℤ) : ℚ)| / msPerDay / 365 ≠ 0 := by
      have h1 : |((now - d : ℤ) : ℚ)| ≠ 0 := abs_ne_zero.2 hnd
      have h365 : (365 : ℚ) ≠ 0 := by norm_num
      exact div_ne_zero (div_ne_zero h1 hms) h365
    simp only [annualizedReturn, hy]
    have hs : strictEq (some (fin (|((now - d : ℤ) : ℚ)| / msPerDay / 365))) (fin 0) = false := by
      have hne : fin (|((now - d : ℤ) : ℚ)| / msPerDay / 365) ≠ fin 0 := by
        intro h0
        exact hyne ((fin_inj _ _).1 h0)
      simp only [strictEq, hne, decide_False, Bool.and_false]
    rw [hs, div_fin _ hyne]
    simp

/-- Witness of C10: a holding evaluated at its purchase time has annualized
return 0; a holding of principal 1000 and value 2000 bought 365 days before
the evaluation has year fraction 1 and annualized return 100; a holding of
principal 1000 and value 0 bought 12 hours before the evaluation (whole days
invested 0) has year fraction `0.5 / 365` and annualized return -100. -/
theorem annualizedReturn_year_fraction_witness :
    (holding "N" 1000 2000 77 none).purchaseDate = some 77 ∧
    annualizedReturn (fun _ _ => 1) (holding "N" 1000 2000 77 none) 77 = fin 0 ∧
    annualizedReturn (fun _ _ => 1) (holding "N" 1000 2000 0 none) (daysMs 365) = fin 100 ∧
    daysInvested (holding "L" 1000 0 0 none) 43200000 = fin 0 ∧
    annualizedReturn (fun _ _ => 1) (holding "L" 1000 0 0 none) 43200000 = fin (-100) := by
  refine ⟨rfl, (annualizedReturn_year_fraction (fun _ _ => 1) (holding "N" 1000 2000 77 none)
    77 77 rfl).1 rfl, ?_, ?_, ?_⟩
  · have h := (annualizedReturn_year_fraction (fun _ _ => 1) (holding "N" 1000 2000 0 none)
      (daysMs 365) 0 rfl).2 (by decide)
    have he : (1 / (|((daysMs 365 - 0 : ℤ) : ℚ)| / msPerDay / 365) : ℚ) = ((1 : ℤ) : ℚ) := by
      norm_num [daysMs, msPerDay]
    rw [he] at h
    rw [h]
    simp only [mathPow, Rat.intCast_den, Rat.intCast_num]
    norm_num [holding, toNumber, div_fin, overflow64]
  · have h : div (msSince 43200000 (holding "L" 1000 0 0 none).purchaseDate)
        (fin msPerDay) = fin (1 / 2) := by
      norm_num [msSince, holding, msPerDay, div_fin]
    simp only [daysInvested, h, floor]
    rw [fin_inj]
    have : ⌊(1 / 2 : ℚ)⌋ = 0 := by
      rw [Int.floor_eq_iff]; norm_num
    rw [this]; norm_num
  · have h := (annualizedReturn_year_fraction (fun _ _ => 1) (holding "L" 1000 0 0 none)
      43200000 0 rfl).2 (by decide)
    have he : (1 / (|((43200000 - 0 : ℤ) : ℚ)| / msPerDay / 365) : ℚ) = ((730 : ℤ) : ℚ) := by
      norm_num [msPerDay]
    rw [he] at h
    rw [h]
    simp only [mathPow, Rat.intCast_den, Rat.intCast_num]
    norm_num [holding, toNumber, div_fin, overflow64]

/-! ## Grouping by key -/

/-- Looking a key up after an `upsert`: the updated (or created) group under
the upserted key, the old lookup under any other key. -/
theorem find?_upsert {γ : Type} (key : γ → String) (k k' : String) (init : γ) (f : γ → γ)
    (hf : ∀ g, key (f g) = key g) (hinit : key init = k') (gs : List γ) :
    (upsert key k' init f gs).find? (fun g => decide (key g = k)) =
      if k' = k then
        some (f ((gs.find? (fun g => decide (key g = k'))).getD init))
      else gs.find? (fun g => decide (key g = k)) := by
  induction gs with
  | nil =>
    by_cases h : k' = k
    · simp [upsert, List.find?, hf, hinit, h]
    · simp [upsert, List.find?, hf, hinit, h]
  | cons g gs ih =>
    by_cases hg : key g = k'
    · by_cases h : k' = k
      · subst h
        simp [upsert, List.find?, hf, hg]
      · have hgk : ¬ key g = k := fun e => h (hg ▸ e)
        simp [upsert, List.find?, hf, hg, h]
    · by_cases h : k' = k
      · subst h
        simp [upsert, List.find?, hg, ih]
      · by_cases hgk : key g = k
        · have h2 : ¬ k = k' := fun e => h e.symm
          simp [upsert, List.find?, h, h2, hgk]
        · simp [upsert, List.find?, hg, h, hgk, ih]

/-- Folding an update that always produces a group, from a group. -/
theorem foldl_some_update {α γ : Type} (upd : α → γ → γ) (init : γ) (l : List α) (g : γ) :
    l.foldl (fun o x => some (upd x (Option.getD o init))) (some g) =
      some (l.foldl (fun g x => upd x g) g) := by
  induction l generalizing g with
  | nil => rfl
  | cons x xs ih => simp [ih]

/-- The group found under a key after the grouping loop is the fold of the
updates of the members of that key, in input order. -/
theorem find?_foldl_upsert {α γ : Type} (key : γ → String) (kOf : α → String)
    (mk : String → γ) (upd : α → γ → γ) (hupd : ∀ x g, key (upd x g) = key g)
    (hmk : ∀ k, key (mk k) = k) (k : String) (l : List α) (gs : List γ) :
    (l.foldl (fun gs x => upsert key (kOf x) (mk (kOf x)) (upd x) gs) gs).find?
        (fun g => decide (key g = k)) =
      (l.filter (fun x => decide (kOf x = k))).foldl
        (fun o x => some (upd x (Option.getD o (mk k))))
        (gs.find? (fun g => decide (key g = k))) := by
  induction l generalizing gs with
  | nil => rfl
  | cons x xs ih =>
    rw [List.foldl_cons, ih, find?_upsert key k (kOf x) (mk (kOf x)) (upd x) (hupd x) (hmk _)]
    by_cases h : kOf x = k
    · subst h
      simp
    · simp [h]

/-- The keys after an `upsert`: unchanged when the key is present, extended by
the key otherwise. -/
theorem map_key_upsert {γ : Type} (key : γ → String) (k : String) (init : γ) (f : γ → γ)
    (hf : ∀ g, key (f g) = key g) (hinit : key init = k) (gs : List γ) :
    (upsert key k init f gs).map key =
      if k ∈ gs.map key then gs.map key else gs.map key ++ [k] := by
  induction gs with
  | nil => simp [upsert, hf, hinit]
  | cons g gs ih =>
    by_cases hg : key g = k
    · simp [upsert, hg, hf]
    · have hne : ¬ k = key g := fun e => hg e.symm
      by_cases hmem : k ∈ gs.map key
      · rw [if_pos hmem] at ih
        have hmem2 : k ∈ (g :: gs).map key := by
          rw [List.map_cons]; exact List.mem_cons_of_mem _ hmem
        rw [if_pos hmem2]
        simp [upsert, hg, ih]
      · rw [if_neg hmem] at ih
        have hmem2 : ¬ k ∈ (g :: gs).map key := by
          rw [List.map_cons, List.mem_cons]
          rintro (e | e)
          · exact hne e
          · exact hmem e
        rw [if_neg hmem2]
        simp [upsert, hg, ih]

/-- The grouping loop keeps the keys of the groups pairwise distinct. -/
theorem nodup_keys_foldl_upsert {α γ : Type} (key : γ → String) (kOf : α → String)
    (mk : String → γ) (upd : α → γ → γ) (hupd : ∀ x g, key (upd x g) = key g)
    (hmk : ∀ k, key (mk k) = k) (l : List α) (gs : List γ) (hgs : (gs.map key).Nodup) :
    ((l.foldl (fun gs x => upsert key (kOf x) (mk (kOf x)) (upd x) gs) gs).map key).Nodup := by
  induction l generalizing gs with
  | nil => exact hgs
  | cons x xs ih =>
    rw [List.foldl_cons]
    apply ih
    rw [map_key_upsert key (kOf x) (mk (kOf x)) (upd x) (hupd x) (hmk _)]
    by_cases hmem : kOf x ∈ gs.map key
    · rw [if_pos hmem]; exact hgs
    · rw [if_neg hmem]
      exact List.Nodup.append hgs (List.nodup_singleton _)
        (by simpa [List.disjoint_singleton] using hmem)

/-- Summing finite values with `+` from a finite start gives the finite sum. -/
theorem foldl_add_fin {α : Type} (f : α → JSNum) (l : List α) (rs : List ℚ) (a : ℚ)
    (h : l.map f = rs.map fin) :
    l.foldl (fun s x => add s (f x)) (fin a) = fin (a + rs.sum) := by
  induction l generalizing rs a with
  | nil =>
    cases rs with
    | nil => simp
    | cons r rs => simp at h
  | cons x xs ih =>
    cases rs with
    | nil => simp at h
    | cons r rs =>
      simp only [List.map_cons, List.cons.injEq] at h
      rw [List.foldl_cons, h.1, add_fin, ih rs (a + r) h.2, List.sum_cons, add_assoc]

/-! ## Performance by type -/

/-- The fields of a type group after the members of a list were added to it. -/
theorem foldl_addToTypeGroup (l : List Investment) (g : TypeGroup) :
    (l.foldl (fun g inv => addToTypeGroup inv g) g)._id = g._id ∧
    (l.foldl (fun g inv => addToTypeGroup inv g) g).count = g.count + l.length ∧
    (l.foldl (fun g inv => addToTypeGroup inv g) g).totalPrincipal =
      l.foldl (fun s inv => add s (principalOf inv)) g.totalPrincipal ∧
    (l.foldl (fun g inv => addToTypeGroup inv g) g).totalCurrentValue =
      l.foldl (fun s inv => add s (currentValueOf inv)) g.totalCurrentValue ∧
    (l.foldl (fun g inv => addToTypeGroup inv g) g).totalProfitLoss =
      l.foldl (fun s inv => add s (sub (currentValueOf inv) (principalOf inv)))
        g.totalProfitLoss ∧
    (l.foldl (fun g inv => addToTypeGroup inv g) g).roiSum =
      l.foldl (fun s inv => add s (roiOf inv)) g.roiSum := by
  induction l generalizing g with
  | nil => simp
  | cons x xs ih =>
    obtain ⟨h1, h2, h3, h4, h5, h6⟩ := ih (addToTypeGroup x g)
    simp only [List.foldl_cons, List.length_cons]
    refine ⟨?_, ?_, ?_, ?_, ?_, ?_⟩
    · rw [h1]; rfl
    · rw [h2]; simp only [addToTypeGroup]; omega
    · rw [h3]; rfl
    · rw [h4]; rfl
    · rw [h5]; rfl
    · rw [h6]; rfl

/-- The `performanceByType` element reported for a type: none when no
investment has the type, else the element derived from the group of the
investments of that type, added in input order. -/
theorem typePerformanceOf_eq (investments : List Investment) (type : String) :
    typePerformanceOf investments type =
      if investments.filter (fun inv => decide (typeOf inv = type)) = [] then none
      else some (toTypePerformance
        ((investments.filter (fun inv => decide (typeOf inv = type))).foldl
          (fun g inv => addToTypeGroup inv g) (newTypeGroup type))) := by
  have hfind : (typeGroups investments).find? (fun g => decide (g._id = type)) =
      (investments.filter (fun inv => decide (typeOf inv = type))).foldl
        (fun o inv => some (addToTypeGroup inv (Option.getD o (newTypeGroup type)))) none :=
    find?_foldl_upsert TypeGroup._id typeOf newTypeGroup addToTypeGroup
      (fun _ _ => rfl) (fun _ => rfl) type investments []
  have hcomp : ((fun g : TypePerformance => decide (g._id = type)) ∘ toTypePerformance) =
      fun g : TypeGroup => decide (g._id = type) := rfl
  unfold typePerformanceOf getPerformanceAnalytics
  cases investments with
  | nil => simp
  | cons x xs =>
    simp only [List.length_cons, Nat.add_one_ne_zero, if_false]
    rw [List.find?_map, hcomp, hfind]
    cases hm : (x :: xs).filter (fun inv => decide (typeOf inv = type)) with
    | nil => simp
    | cons m ms =>
      rw [List.foldl_cons, foldl_some_update]
      simp

/-- The groups of `performanceByType` have pairwise distinct `_id`. -/
theorem performanceByType_nodup (investments : List Investment) :
    ((getPerformanceAnalytics investments).performanceByType.map
      (fun g => g._id)).Nodup := by
  unfold getPerformanceAnalytics
  cases investments with
  | nil => simp
  | cons x xs =>
    simp only [List.length_cons, Nat.add_one_ne_zero, if_false, List.map_map]
    exact nodup_keys_foldl_upsert TypeGroup._id typeOf newTypeGroup addToTypeGroup
      (fun _ _ => rfl) (fun _ => rfl) (x :: xs) [] List.nodup_nil

/-- In a list of groups with pairwise distinct keys, the group found under a
key is the only one with that key. -/
theorem eq_of_find?_of_nodup {γ : Type} (key : γ → String) (k : String) (l : List γ)
    (hn : (l.map key).Nodup) (g : γ) (hg : l.find? (fun g => decide (key g = k)) = some g)
    (g' : γ) (hm : g' ∈ l) (hk : key g' = k) : g' = g := by
  induction l with
  | nil => simp at hm
  | cons a l ih =>
    rw [List.map_cons, List.nodup_cons] at hn
    by_cases ha : key a = k
    · have hga : a = g := by simpa [List.find?, ha] using hg
      rcases List.mem_cons.1 hm with e | e
      · rw [e, hga]
      · exact absurd (List.mem_map.2 ⟨g', e, hk.trans ha.symm⟩) hn.1
    · have hgl : l.find? (fun g => decide (key g = k)) = some g := by
        simpa [List.find?, ha] using hg
      rcases List.mem_cons.1 hm with e | e
      · exact absurd (e ▸ hk) ha
      · exact ih hn.2 hgl e

/-- C2, as stated, fails: for the single holding of principal 1000 whose value
fell to 0, the per-investment ROI is -100 and so is its mean, but the `avgROI`
reported for its type is 0. -/
theorem avgROI_ignores_total_loss :
    (typePerformanceOf [holding "X" 1000 0 0 none] "stocks").map TypePerformance.avgROI =
      some (fin 0) ∧
    currentROI (holding "X" 1000 0 0 none) = fin (-100) ∧
    div (fin (-100)) (fin 1) ≠ fin 0 := by
  refine ⟨?_, ?_, ?_⟩
  · have hr : roiOf (holding "X" 1000 0 0 none) = fin 0 := by
      rw [roiOf_fin _ 1000 0 rfl rfl]; norm_num
    have ht : typeOf (holding "X" 1000 0 0 none) = "stocks" := by
      simp [typeOf, holding]
    rw [typePerformanceOf_eq]
    simp only [List.filter_cons, ht, decide_True, if_true, List.filter_nil, List.foldl_cons,
      List.foldl_nil]
    simp [toTypePerformance, addToTypeGroup, newTypeGroup, hr, div_fin]
  · rw [currentROI_fin _ 1000 0 rfl rfl (by norm_num)]
    norm_num
  · norm_num [div_fin]

/-- C2, amended: for every type occurring in the list, the `avgROI` reported
for that type (by the one group with that `_id`) is the sum, in input order,
of the per-investment `roi` of the investments of that type divided by their
number, the unweighted mean; `roi` is the handler's value, computed on the
effective current value (the principal when `currentValue` is 0 or absent)
and 0 when the principal is not above 0.  When those `roi` are the finite
values `rs`, `avgROI` is `rs.sum / rs.length`. -/
theorem avgROI_unweighted_mean (investments : List Investment) (type : String)
    (h : type ∈ investments.map typeOf) :
    ∃ g : TypePerformance,
      typePerformanceOf investments type = some g ∧
      (∀ g' ∈ (getPerformanceAnalytics investments).performanceByType,
        g'._id = type → g' = g) ∧
      g.count = (investments.filter (fun inv => decide (typeOf inv = type))).length ∧
      g.avgROI =
        div ((investments.filter (fun inv => decide (typeOf inv = type))).foldl
            (fun s inv => add s (roiOf inv)) (fin 0))
          (fin ((investments.filter (fun inv => decide (typeOf inv = type))).length : ℚ)) ∧
      (∀ rs : List ℚ,
        (investments.filter (fun inv => decide (typeOf inv = type))).map roiOf = rs.map fin →
        g.avgROI = fin (rs.sum / rs.length)) := by
  obtain ⟨x, hx, hxt⟩ := List.mem_map.1 h
  have hmem : x ∈ investments.filter (fun inv => decide (typeOf inv = type)) :=
    List.mem_filter.2 ⟨hx, by simp [hxt]⟩
  have hne : investments.filter (fun inv => decide (typeOf inv = type)) ≠ [] :=
    List.ne_nil_of_mem hmem
  have hlen : 0 < (investments.filter (fun inv => decide (typeOf inv = type))).length :=
    List.length_pos.2 hne
  obtain ⟨_, hcount, _, _, _, hroi⟩ := foldl_addToTypeGroup
    (investments.filter (fun inv => decide (typeOf inv = type))) (newTypeGroup type)
  have hfind := typePerformanceOf_eq investments type
  rw [if_neg hne] at hfind
  have hcount2 : ((investments.filter (fun inv => decide (typeOf inv = type))).foldl
      (fun g inv => addToTypeGroup inv g) (newTypeGroup type)).count =
      (investments.filter (fun inv => decide (typeOf inv = type))).length := by
    rw [hcount]; simp [newTypeGroup]
  have havg : (toTypePerformance
      ((investments.filter (fun inv => decide (typeOf inv = type))).foldl
        (fun g inv => addToTypeGroup inv g) (newTypeGroup type))).avgROI =
      div ((investments.filter (fun inv => decide (typeOf inv = type))).foldl
          (fun s inv => add s (roiOf inv)) (fin 0))
        (fin ((investments.filter (fun inv => decide (typeOf inv = type))).length : ℚ)) := by
    simp only [toTypePerformance, hcount2, hroi, hlen, if_true]
    rfl
  refine ⟨_, hfind, ?_, hcount2, havg, ?_⟩
  · intro g' hg' hid
    exact eq_of_find?_of_nodup (fun g : TypePerformance => g._id) type _
      (performanceByType_nodup investments) _ hfind g' hg' hid
  · intro rs hrs
    have hl : rs.length = (investments.filter (fun inv => decide (typeOf inv = type))).length := by
      have := congrArg List.length hrs
      simpa using this.symm
    have hq : ((investments.filter (fun inv => decide (typeOf inv = type))).length : ℚ) ≠ 0 := by
      exact_mod_cast (Nat.pos_iff_ne_zero.1 hlen)
    rw [havg, foldl_add_fin roiOf _ rs 0 hrs, div_fin _ hq, hl, zero_add]

/-- Witness of C2: two stock holdings, 100 grown to 200 (`roi` 100) and 300
unchanged (`roi` 0): the reported `avgROI` is their plain mean 50, where the
value-weighted return `(500 - 400) / 400 * 100` is 25. -/
theorem avgROI_unweighted_mean_witness :
    ("stocks" ∈ [holding "A" 100 200 0 none, holding "B" 300 300 0 none].map typeOf) ∧
    (typePerformanceOf [holding "A" 100 200 0 none, holding "B" 300 300 0 none]
      "stocks").map TypePerformance.avgROI = some (fin 50) ∧
    fin ((500 - 400) / 400 * 100) = fin 25 := by
  have ht : "stocks" ∈ [holding "A" 100 200 0 none, holding "B" 300 300 0 none].map typeOf := by
    simp [typeOf, holding]
  obtain ⟨g, hg, _, _, _, hrs⟩ := avgROI_unweighted_mean _ "stocks" ht
  refine ⟨ht, ?_, by norm_num⟩
  have hf : [holding "A" 100 200 0 none, holding "B" 300 300 0 none].filter
      (fun inv => decide (typeOf inv = "stocks")) =
      [holding "A" 100 200 0 none, holding "B" 300 300 0 none] := by
    simp [typeOf, holding]
  have h := hrs [100, 0] (by
    rw [hf]
    simp only [List.map_cons, List.map_nil]
    rw [roiOf_fin _ 100 200 rfl rfl, roiOf_fin _ 300 300 rfl rfl]
    norm_num)
  rw [hg, Option.map_some', h]
  norm_num

/-! ## Totals by type -/

/-- The handler's `principal` and `currentValue` on finite stored values: the
principal itself, and the current value or, when that is 0, the principal. -/
theorem locals_fin (inv : Investment) (p c : ℚ) (hp : inv.principalAmount = some (fin p))
    (hc : inv.currentValue = some (fin c)) :
    principalOf inv = fin p ∧ currentValueOf inv = fin (if c = 0 then p else c) := by
  constructor
  · by_cases h : p = 0
    · simp [principalOf, jsOr, JSVal.truthy, JSNum.truthy, toNumber, hp, h]
    · simp [principalOf, jsOr, JSVal.truthy, JSNum.truthy, toNumber, hp, h]
  · by_cases h : c = 0
    · by_cases h2 : p = 0
      · simp [currentValueOf, jsOr, JSVal.truthy, JSNum.truthy, toNumber, hp, hc, h, h2]
      · simp [currentValueOf, jsOr, JSVal.truthy, JSNum.truthy, toNumber, hp, hc, h, h2]
    · simp [currentValueOf, jsOr, JSVal.truthy, JSNum.truthy, toNumber, hc, h]

/-- C11, as stated, fails: for the single holding of principal 1000 whose value
fell to 0, the sum of `currentValue` is 0 and the sum of `currentValue -
principalAmount` is -1000, but the group of its type reports
`totalCurrentValue` 1000 and `totalProfitLoss` 0. -/
theorem type_totals_ignore_total_loss :
    (typePerformanceOf [holding "X" 1000 0 0 none] "stocks").map
      (fun g => (g.count, g.totalPrincipal, g.totalCurrentValue, g.totalProfitLoss)) =
      some (1, fin 1000, fin 1000, fin 0) ∧
    (holding "X" 1000 0 0 none).currentValue = some (fin 0) ∧
    profitLoss (holding "X" 1000 0 0 none) = fin (-1000) := by
  refine ⟨?_, rfl, ?_⟩
  · have hl := locals_fin (holding "X" 1000 0 0 none) 1000 0 rfl rfl
    have ht : typeOf (holding "X" 1000 0 0 none) = "stocks" := by
      simp [typeOf, holding]
    rw [typePerformanceOf_eq]
    simp only [List.filter_cons, ht, decide_True, if_true, List.filter_nil, List.foldl_cons,
      List.foldl_nil]
    simp [toTypePerformance, addToTypeGroup, newTypeGroup, hl.1, hl.2]
  · norm_num [profitLoss, holding, toNumber]

/-- C11, amended: for every type occurring in the list, the group reported for
that type has `count` the number of investments of the type, `totalPrincipal`
the sum of their principal, `totalCurrentValue` the sum of their effective
current value and `totalProfitLoss` the sum of effective current value minus
principal, all summed in input order from 0; the effective current value is
`currentValue`, or the principal when `currentValue` is 0 or absent.  When the
summands are the finite values `ps`, `cs`, `ds`, the totals are their sums. -/
theorem type_group_totals (investments : List Investment) (type : String)
    (h : type ∈ investments.map typeOf) :
    ∃ g : TypePerformance,
      typePerformanceOf investments type = some g ∧
      g.count = (investments.filter (fun inv => decide (typeOf inv = type))).length ∧
      g.totalPrincipal =
        (investments.filter (fun inv => decide (typeOf inv = type))).foldl
          (fun s inv => add s (principalOf inv)) (fin 0) ∧
      g.totalCurrentValue =
        (investments.filter (fun inv => decide (typeOf inv = type))).foldl
          (fun s inv => add s (currentValueOf inv)) (fin 0) ∧
      g.totalProfitLoss =
        (investments.filter (fun inv => decide (typeOf inv = type))).foldl
          (fun s inv => add s (sub (currentValueOf inv) (principalOf inv))) (fin 0) ∧
      (∀ ps cs ds : List ℚ,
        (investments.filter (fun inv => decide (typeOf inv = type))).map principalOf =
          ps.map fin →
        (investments.filter (fun inv => decide (typeOf inv = type))).map currentValueOf =
          cs.map fin →
        (investments.filter (fun inv => decide (typeOf inv = type))).map
          (fun inv => sub (currentValueOf inv) (principalOf inv)) = ds.map fin →
        g.totalPrincipal = fin ps.sum ∧ g.totalCurrentValue = fin cs.sum ∧
          g.totalProfitLoss = fin ds.sum) ∧
      (∀ (inv : Investment) (p c : ℚ), inv.principalAmount = some (fin p) →
        inv.currentValue = some (fin c) →
        principalOf inv = fin p ∧ currentValueOf inv = fin (if c = 0 then p else c)) := by
  obtain ⟨x, hx, hxt⟩ := List.mem_map.1 h
  have hmem : x ∈ investments.filter (fun inv => decide (typeOf inv = type)) :=
    List.mem_filter.2 ⟨hx, by simp [hxt]⟩
  have hne : investments.filter (fun inv => decide (typeOf inv = type)) ≠ [] :=
    List.ne_nil_of_mem hmem
  obtain ⟨_, hcount, hp, hc, hd, _⟩ := foldl_addToTypeGroup
    (investments.filter (fun inv => decide (typeOf inv = type))) (newTypeGroup type)
  have hfind := typePerformanceOf_eq investments type
  rw [if_neg hne] at hfind
  have hcount2 : ((investments.filter (fun inv => decide (typeOf inv = type))).foldl
      (fun g inv => addToTypeGroup inv g) (newTypeGroup type)).count =
      (investments.filter (fun inv => decide (typeOf inv = type))).length := by
    rw [hcount]; simp [newTypeGroup]
  refine ⟨_, hfind, hcount2, hp, hc, hd, ?_, locals_fin⟩
  intro ps cs ds hps hcs hds
  refine ⟨?_, ?_, ?_⟩
  · exact hp.trans (by simpa [newTypeGroup] using foldl_add_fin principalOf _ ps 0 hps)
  · exact hc.trans (by simpa [newTypeGroup] using foldl_add_fin currentValueOf _ cs 0 hcs)
  · exact hd.trans (by
      simpa [newTypeGroup] using
        foldl_add_fin (fun inv => sub (currentValueOf inv) (principalOf inv)) _ ds 0 hds)

/-- Witness of C11: two stock holdings, 100 grown to 200 and 300 fallen to 250:
count 2, principal 400, current value 450, profit 50. -/
theorem type_group_totals_witness :
    ("stocks" ∈ [holding "A" 100 200 0 none, holding "B" 300 250 0 none].map typeOf) ∧
    (typePerformanceOf [holding "A" 100 200 0 none, holding "B" 300 250 0 none]
      "stocks").map (fun g => (g.count, g.totalPrincipal, g.totalCurrentValue,
        g.totalProfitLoss)) = some (2, fin 400, fin 450, fin 50) := by
  have ht : "stocks" ∈ [holding "A" 100 200 0 none, holding "B" 300 250 0 none].map typeOf := by
    simp [typeOf, holding]
  obtain ⟨g, hg, hcount, _, _, _, hsum, _⟩ := type_group_totals _ "stocks" ht
  refine ⟨ht, ?_⟩
  have hf : [holding "A" 100 200 0 none, holding "B" 300 250 0 none].filter
      (fun inv => decide (typeOf inv = "stocks")) =
      [holding "A" 100 200 0 none, holding "B" 300 250 0 none] := by
    simp [typeOf, holding]
  have hA := locals_fin (holding "A" 100 200 0 none) 100 200 rfl rfl
  have hB := locals_fin (holding "B" 300 250 0 none) 300 250 rfl rfl
  rw [hf] at hsum hcount
  have h := hsum [100, 300] [200, 250] [100, -50]
    (by simp only [List.map_cons, List.map_nil, hA.1, hB.1])
    (by simp only [List.map_cons, List.map_nil, hA.2, hB.2]; norm_num)
    (by simp only [List.map_cons, List.map_nil, hA.1, hA.2, hB.1, hB.2]; norm_num)
  rw [hg, Option.map_some', hcount, h.1, h.2.1, h.2.2]
  norm_num

/-! ## Distribution by risk -/

/-- The fields of a risk group after the members of a list were added to it. -/
theorem foldl_addToRiskGroup (l : List Investment) (g : RiskGroup) :
    (l.foldl (fun g inv => addToRiskGroup inv g) g)._id = g._id ∧
    (l.foldl (fun g inv => addToRiskGroup inv g) g).count = g.count + l.length ∧
    (l.foldl (fun g inv => addToRiskGroup inv g) g).totalAmount =
      l.foldl (fun s inv => add s (principalOf inv)) g.totalAmount ∧
    (l.foldl (fun g inv => addToRiskGroup inv g) g).expectedReturnSum =
      l.foldl (fun s inv => add s (toNumber (jsOr inv.expectedReturn (some (fin 0)))))
        g.expectedReturnSum := by
  induction l generalizing g with
  | nil => simp
  | cons x xs ih =>
    obtain ⟨h1, h2, h3, h4⟩ := ih (addToRiskGroup x g)
    simp only [List.foldl_cons, List.length_cons]
    refine ⟨?_, ?_, ?_, ?_⟩
    · rw [h1]; rfl
    · rw [h2]; simp only [addToRiskGroup]; omega
    · rw [h3]; rfl
    · rw [h4]; rfl

/-- The `riskDistribution` element reported for a risk level: none when no
investment has the level, else the element derived from the group of the
investments of that level, added in input order. -/
theorem riskDistributionOf_eq (investments : List Investment) (risk : String) :
    riskDistributionOf investments risk =
      if investments.filter (fun inv => decide (riskOf inv = risk)) = [] then none
      else some (toRiskDistribution
        ((investments.filter (fun inv => decide (riskOf inv = risk))).foldl
          (fun g inv => addToRiskGroup inv g) (newRiskGroup risk))) := by
  have hfind : (riskGroups investments).find? (fun g => decide (g._id = risk)) =
      (investments.filter (fun inv => decide (riskOf inv = risk))).foldl
        (fun o inv => some (addToRiskGroup inv (Option.getD o (newRiskGroup risk)))) none :=
    find?_foldl_upsert RiskGroup._id riskOf newRiskGroup addToRiskGroup
      (fun _ _ => rfl) (fun _ => rfl) risk investments []
  have hcomp : ((fun g : RiskDistribution => decide (g._id = risk)) ∘ toRiskDistribution) =
      fun g : RiskGroup => decide (g._id = risk) := rfl
  unfold riskDistributionOf getPerformanceAnalytics
  cases investments with
  | nil => simp
  | cons x xs =>
    simp only [List.length_cons, Nat.add_one_ne_zero, if_false]
    rw [List.find?_map, hcomp, hfind]
    cases hm : (x :: xs).filter (fun inv => decide (riskOf inv = risk)) with
    | nil => simp
    | cons m ms =>
      rw [List.foldl_cons, foldl_some_update]
      simp

/-- The expected return the handler adds for an investment whose
`expectedReturn` is a finite number is that number. -/
theorem expectedReturn_or_zero (inv : Investment) (e : ℚ)
    (h : inv.expectedReturn = some (fin e)) :
    toNumber (jsOr inv.expectedReturn (some (fin 0))) = fin e := by
  by_cases h0 : e = 0
  · simp [jsOr, JSVal.truthy, JSNum.truthy, toNumber, h, h0]
  · simp [jsOr, JSVal.truthy, JSNum.truthy, toNumber, h, h0]

/-- The `riskDistribution` group of a key `risk` of `riskGroups`: its count,
amount and average over the investments whose local `risk` is the key. -/
theorem riskDistributionOf_totals (investments : List Investment) (risk : String)
    (h : risk ∈ investments.map riskOf) :
    ∃ g : RiskDistribution,
      riskDistributionOf investments risk = some g ∧
      g.count = (investments.filter (fun inv => decide (riskOf inv = risk))).length ∧
      g.totalAmount =
        (investments.filter (fun inv => decide (riskOf inv = risk))).foldl
          (fun s inv => add s (principalOf inv)) (fin 0) ∧
      g.avgExpectedReturn =
        div ((investments.filter (fun inv => decide (riskOf inv = risk))).foldl
            (fun s inv => add s (toNumber (jsOr inv.expectedReturn (some (fin 0))))) (fin 0))
          (fin ((investments.filter (fun inv => decide (riskOf inv = risk))).length : ℚ)) ∧
      (∀ ps : List ℚ,
        (investments.filter (fun inv => decide (riskOf inv = risk))).map
          (fun inv => inv.principalAmount) = ps.map (fun p => some (fin p)) →
        g.totalAmount = fin ps.sum) ∧
      (∀ es : List ℚ,
        (investments.filter (fun inv => decide (riskOf inv = risk))).map
          (fun inv => inv.expectedReturn) = es.map (fun e => some (fin e)) →
        g.avgExpectedReturn = fin (es.sum / es.length)) := by
  obtain ⟨x, hx, hxt⟩ := List.mem_map.1 h
  have hmem : x ∈ investments.filter (fun inv => decide (riskOf inv = risk)) :=
    List.mem_filter.2 ⟨hx, by simp [hxt]⟩
  have hne : investments.filter (fun inv => decide (riskOf inv = risk)) ≠ [] :=
    List.ne_nil_of_mem hmem
  have hlen : 0 < (investments.filter (fun inv => decide (riskOf inv = risk))).length :=
    List.length_pos.2 hne
  obtain ⟨_, hcount, hamount, hsum⟩ := foldl_addToRiskGroup
    (investments.filter (fun inv => decide (riskOf inv = risk))) (newRiskGroup risk)
  have hfind := riskDistributionOf_eq investments risk
  rw [if_neg hne] at hfind
  have hcount2 : ((investments.filter (fun inv => decide (riskOf inv = risk))).foldl
      (fun g inv => addToRiskGroup inv g) (newRiskGroup risk)).count =
      (investments.filter (fun inv => decide (riskOf inv = risk))).length := by
    rw [hcount]; simp [newRiskGroup]
  have havg : (toRiskDistribution
      ((investments.filter (fun inv => decide (riskOf inv = risk))).foldl
        (fun g inv => addToRiskGroup inv g) (newRiskGroup risk))).avgExpectedReturn =
      div ((investments.filter (fun inv => decide (riskOf inv = risk))).foldl
          (fun s inv => add s (toNumber (jsOr inv.expectedReturn (some (fin 0))))) (fin 0))
        (fin ((investments.filter (fun inv => decide (riskOf inv = risk))).length : ℚ)) := by
    simp only [toRiskDistribution, hcount2, hsum, hlen, if_true]
    rfl
  refine ⟨_, hfind, hcount2, hamount, havg, ?_, ?_⟩
  · intro ps hps
    have hmap : (investments.filter (fun inv => decide (riskOf inv = risk))).map principalOf =
        ps.map fin := by
      generalize investments.filter (fun inv => decide (riskOf inv = risk)) = l at hps
      induction l generalizing ps with
      | nil =>
        cases ps with
        | nil => rfl
        | cons p ps => simp at hps
      | cons y ys ih =>
        cases ps with
        | nil => simp at hps
        | cons p ps =>
          simp only [List.map_cons, List.cons.injEq] at hps
          have hy : principalOf y = fin p := by
            by_cases h0 : p = 0
            · simp [principalOf, jsOr, JSVal.truthy, JSNum.truthy, toNumber, hps.1, h0]
            · simp [principalOf, jsOr, JSVal.truthy, JSNum.truthy, toNumber, hps.1, h0]
          rw [List.map_cons, List.map_cons, hy, ih ps hps.2]
    exact hamount.trans (by simpa [newRiskGroup] using foldl_add_fin principalOf _ ps 0 hmap)
  · intro es hes
    have hmap : (investments.filter (fun inv => decide (riskOf inv = risk))).map
        (fun inv => toNumber (jsOr inv.expectedReturn (some (fin 0)))) = es.map fin := by
      generalize investments.filter (fun inv => decide (riskOf inv = risk)) = l at hes
      induction l generalizing es with
      | nil =>
        cases es with
        | nil => rfl
        | cons e es => simp at hes
      | cons y ys ih =>
        cases es with
        | nil => simp at hes
        | cons e es =>
          simp only [List.map_cons, List.cons.injEq] at hes
          rw [List.map_cons, List.map_cons, expectedReturn_or_zero y e hes.1, ih es hes.2]
    have hl : es.length = (investments.filter (fun inv => decide (riskOf inv = risk))).length := by
      have := congrArg List.length hes
      simpa using this.symm
    have hq : ((investments.filter (fun inv => decide (riskOf inv = risk))).length : ℚ) ≠ 0 := by
      exact_mod_cast (Nat.pos_iff_ne_zero.1 hlen)
    rw [havg, foldl_add_fin _ _ es 0 hmap, div_fin _ hq, hl, zero_add]

/-- The local `risk` of an investment is a given level exactly when its
`riskLevel` is that level, or is absent or empty and the level is `'medium'`. -/
theorem riskOf_eq_iff (inv : Investment) (risk : String) (hrisk : risk ≠ "") :
    riskOf inv = risk ↔
      (inv.riskLevel = some risk ∨
        (risk = "medium" ∧ (inv.riskLevel = none ∨ inv.riskLevel = some ""))) := by
  unfold riskOf
  cases hr : inv.riskLevel with
  | none =>
    simp only [reduceCtorEq, false_or, true_or, and_true]
    exact eq_comm
  | some r =>
    by_cases h0 : r = ""
    · subst h0
      simp only [if_true, Option.some.injEq, reduceCtorEq, false_or, or_true, and_true]
      constructor
      · intro h; exact Or.inr h.symm
      · rintro (h | h)
        · exact absurd h.symm hrisk
        · exact h.symm
    · simp [h0]

/-- C12, as stated, fails: of two holdings of medium risk, one with
`expectedReturn` 10 and one without `expectedReturn`, the group reports
`avgExpectedReturn` 5: the absent value enters the sum as 0.  The mean of the
expected returns that exist, which `$avg` computes in `getPortfolioSummary`,
is 10. -/
theorem avgExpectedReturn_counts_absent_as_zero :
    [withExpectedReturn (holding "A" 100 200 0 none) 10, holding "B" 300 250 0 none].map
      (fun inv => (inv.riskLevel, inv.expectedReturn)) =
      [(some "medium", some (fin 10)), (some "medium", none)] ∧
    (riskDistributionOf [withExpectedReturn (holding "A" 100 200 0 none) 10,
      holding "B" 300 250 0 none] "medium").map
      (fun g => (g.count, g.avgExpectedReturn)) = some (2, fin 5) ∧
    mongoAvg ([withExpectedReturn (holding "A" 100 200 0 none) 10,
      holding "B" 300 250 0 none].map (fun inv => inv.expectedReturn)) = some (fin 10) ∧
    fin 5 ≠ fin 10 := by
  refine ⟨rfl, by decide!, by decide!, by norm_num⟩

/-- C12, amended: for every risk level of the list, the `riskDistribution`
group of that level is made of the investments whose `riskLevel` is the level
(an absent `riskLevel` counting as `'medium'`): its `count` is their number,
its `totalAmount` the sum of their principal, and its `avgExpectedReturn` the
sum of their `expectedReturn`, an absent one counting as 0, divided by their
number; when each of them has a (finite) `expectedReturn`, that is the
arithmetic mean of their `expectedReturn`. -/
theorem risk_group_totals (investments : List Investment) (risk : String)
    (hrisk : risk ≠ "")
    (h : ∃ inv ∈ investments, inv.riskLevel = some risk ∨
      (risk = "medium" ∧ (inv.riskLevel = none ∨ inv.riskLevel = some ""))) :
    ∃ g : RiskDistribution,
      riskDistributionOf investments risk = some g ∧
      g._id = risk ∧
      g.count = (investments.filter (fun inv => decide (inv.riskLevel = some risk ∨
        (risk = "medium" ∧ (inv.riskLevel = none ∨ inv.riskLevel = some ""))))).length ∧
      g.totalAmount =
        (investments.filter (fun inv => decide (inv.riskLevel = some risk ∨
          (risk = "medium" ∧ (inv.riskLevel = none ∨ inv.riskLevel = some ""))))).foldl
          (fun s inv => add s (principalOf inv)) (fin 0) ∧
      g.avgExpectedReturn =
        div ((investments.filter (fun inv => decide (inv.riskLevel = some risk ∨
            (risk = "medium" ∧ (inv.riskLevel = none ∨ inv.riskLevel = some ""))))).foldl
            (fun s inv => add s (toNumber (jsOr inv.expectedReturn (some (fin 0))))) (fin 0))
          (fin ((investments.filter (fun inv => decide (inv.riskLevel = some risk ∨
            (risk = "medium" ∧
              (inv.riskLevel = none ∨ inv.riskLevel = some ""))))).length : ℚ)) ∧
      (∀ ps : List ℚ,
        (investments.filter (fun inv => decide (inv.riskLevel = some risk ∨
          (risk = "medium" ∧ (inv.riskLevel = none ∨ inv.riskLevel = some ""))))).map
          (fun inv => inv.principalAmount) = ps.map (fun p => some (fin p)) →
        g.totalAmount = fin ps.sum) ∧
      (∀ es : List ℚ,
        (investments.filter (fun inv => decide (inv.riskLevel = some risk ∨
          (risk = "medium" ∧ (inv.riskLevel = none ∨ inv.riskLevel = some ""))))).map
          (fun inv => inv.expectedReturn) = es.map (fun e => some (fin e)) →
        g.avgExpectedReturn = fin (es.sum / es.length)) ∧
      (∀ es : List ℚ,
        (investments.filter (fun inv => decide (inv.riskLevel = some risk ∨
          (risk = "medium" ∧ (inv.riskLevel = none ∨ inv.riskLevel = some ""))))).map
          (fun inv => toNumber (jsOr inv.expectedReturn (some (fin 0)))) = es.map fin →
        g.avgExpectedReturn = fin (es.sum / es.length)) := by
  have hfilter : investments.filter (fun inv => decide (inv.riskLevel = some risk ∨
      (risk = "medium" ∧ (inv.riskLevel = none ∨ inv.riskLevel = some "")))) =
      investments.filter (fun inv => decide (riskOf inv = risk)) := by
    apply List.filter_congr
    intro inv _
    exact decide_eq_decide.2 (riskOf_eq_iff inv risk hrisk).symm
  have hmem : risk ∈ investments.map riskOf := by
    obtain ⟨inv, hinv, hlevel⟩ := h
    exact List.mem_map.2 ⟨inv, hinv, (riskOf_eq_iff inv risk hrisk).2 hlevel⟩
  obtain ⟨g, hg, hcount, hamount, havg, hps, hes⟩ :=
    riskDistributionOf_totals investments risk hmem
  rw [hfilter]
  have hid : g._id = risk := by
    have := List.find?_some hg
    simpa using this
  refine ⟨g, hg, hid, hcount, hamount, havg, hps, hes, ?_⟩
  intro es hmap
  have hlen : 0 < (investments.filter (fun inv => decide (riskOf inv = risk))).length := by
    obtain ⟨x, hx, hxt⟩ := List.mem_map.1 hmem
    exact List.length_pos.2 (List.ne_nil_of_mem (List.mem_filter.2 ⟨hx, by simp [hxt]⟩))
  have hl : es.length = (investments.filter (fun inv => decide (riskOf inv = risk))).length := by
    have := congrArg List.length hmap
    simpa using this.symm
  have hq : ((investments.filter (fun inv => decide (riskOf inv = risk))).length : ℚ) ≠ 0 := by
    exact_mod_cast (Nat.pos_iff_ne_zero.1 hlen)
  rw [havg, foldl_add_fin _ _ es 0 hmap, div_fin _ hq, hl, zero_add]

/-- C12, amended, on four holdings: two of high risk with principals 100 and
500 and expected returns 10 and 20, one of low risk, and one of medium risk
without expected return.  The high group has count 2, amount 600 and average
15; the medium group has count 1, amount 300 and average 0. -/
theorem risk_group_totals_witness :
    (∃ inv ∈ [withRiskLevel (withExpectedReturn (holding "A" 100 200 0 none) 10) "high",
        holding "B" 300 250 0 none,
        withRiskLevel (withExpectedReturn (holding "C" 500 500 0 none) 20) "high",
        withRiskLevel (withExpectedReturn (holding "D" 700 700 0 none) 5) "low"],
      inv.riskLevel = some "high" ∨
        ("high" = "medium" ∧ (inv.riskLevel = none ∨ inv.riskLevel = some ""))) ∧
    (riskDistributionOf
      [withRiskLevel (withExpectedReturn (holding "A" 100 200 0 none) 10) "high",
        holding "B" 300 250 0 none,
        withRiskLevel (withExpectedReturn (holding "C" 500 500 0 none) 20) "high",
        withRiskLevel (withExpectedReturn (holding "D" 700 700 0 none) 5) "low"] "high").map
      (fun g => (g._id, g.count, g.totalAmount, g.avgExpectedReturn)) =
      some ("high", 2, fin 600, fin 15) := by
  have ht : ∃ inv ∈ [withRiskLevel (withExpectedReturn (holding "A" 100 200 0 none) 10) "high",
        holding "B" 300 250 0 none,
        withRiskLevel (withExpectedReturn (holding "C" 500 500 0 none) 20) "high",
        withRiskLevel (withExpectedReturn (holding "D" 700 700 0 none) 5) "low"],
      inv.riskLevel = some "high" ∨
        ("high" = "medium" ∧ (inv.riskLevel = none ∨ inv.riskLevel = some "")) :=
    ⟨_, List.mem_cons_self _ _, Or.inl rfl⟩
  obtain ⟨g, hg, hid, hcount, _, _, hamount, havg, _⟩ :=
    risk_group_totals _ "high" (by decide) ht
  refine ⟨ht, ?_⟩
  have hf : [withRiskLevel (withExpectedReturn (holding "A" 100 200 0 none) 10) "high",
        holding "B" 300 250 0 none,
        withRiskLevel (withExpectedReturn (holding "C" 500 500 0 none) 20) "high",
        withRiskLevel (withExpectedReturn (holding "D" 700 700 0 none) 5) "low"].filter
      (fun inv => decide (inv.riskLevel = some "high" ∨
        ("high" = "medium" ∧ (inv.riskLevel = none ∨ inv.riskLevel = some "")))) =
      [withRiskLevel (withExpectedReturn (holding "A" 100 200 0 none) 10) "high",
        withRiskLevel (withExpectedReturn (holding "C" 500 500 0 none) 20) "high"] := by
    simp [holding, withExpectedReturn, withRiskLevel]
  rw [hf] at hcount hamount havg
  have h1 := hamount [100, 500] rfl
  have h2 := havg [10, 20] rfl
  rw [hg, Option.map_some', hid, hcount, h1, h2]
  norm_num

/-! ## Portfolio summary -/

/-- The accumulator `$sum` over finite values, from a finite start. -/
theorem foldl_mongo_fin (rs : List ℚ) (a : ℚ) :
    (rs.map (fun r => some (fin r))).foldl (fun sum (v : JSVal) => match v with
      | some x => add sum x
      | none => sum) (fin a) = fin (a + rs.sum) := by
  induction rs generalizing a with
  | nil => simp
  | cons r rs ih =>
    simp only [List.map_cons, List.foldl_cons, add_fin, ih, List.sum_cons, add_assoc]

/-- The accumulator `$sum` over finite values is their sum. -/
theorem mongoSum_fin (rs : List ℚ) :
    mongoSum (rs.map (fun r => some (fin r))) = fin rs.sum := by
  simpa [mongoSum] using foldl_mongo_fin rs 0

/-- The sum of the differences of a list of pairs is the difference of the sums. -/
theorem sum_snd_sub_fst (pcs : List (ℚ × ℚ)) :
    (pcs.map (fun pc => pc.2 - pc.1)).sum = (pcs.map Prod.snd).sum - (pcs.map Prod.fst).sum := by
  induction pcs with
  | nil => simp
  | cons x xs ih => simp only [List.map_cons, List.sum_cons, ih]; ring

/-- On investments whose principal and current value are the finite pairs
`pcs`, with no current value equal to 0, the handler's locals are those values. -/
theorem locals_of_pairs (investments : List Investment) (pcs : List (ℚ × ℚ))
    (h : investments.map (fun inv => (inv.principalAmount, inv.currentValue)) =
      pcs.map (fun pc => (some (fin pc.1), some (fin pc.2))))
    (hc : ∀ pc ∈ pcs, pc.2 ≠ 0) :
    investments.map principalOf = (pcs.map Prod.fst).map fin ∧
    investments.map currentValueOf = (pcs.map Prod.snd).map fin := by
  induction investments generalizing pcs with
  | nil =>
    cases pcs with
    | nil => exact ⟨rfl, rfl⟩
    | cons pc pcs => simp at h
  | cons x xs ih =>
    cases pcs with
    | nil => simp at h
    | cons pc pcs =>
      simp only [List.map_cons, List.cons.injEq, Prod.mk.injEq] at h
      obtain ⟨⟨hp, hcv⟩, hrest⟩ := h
      have hl := locals_fin x pc.1 pc.2 hp hcv
      have hne : pc.2 ≠ 0 := hc pc (List.mem_cons_self _ _)
      obtain ⟨ih1, ih2⟩ := ih pcs hrest (fun q hq => hc q (List.mem_cons_of_mem _ hq))
      rw [if_neg hne] at hl
      simp only [List.map_cons, hl.1, hl.2, ih1, ih2, and_self]

/-- C13, as stated, fails: for the single active holding of principal 1000
whose value fell to 0, `getAllInvestments` reports `totalCurrentValue` 1000
(the sum of `currentValue` is 0), `totalProfitLoss` 0 and `totalROI` 0, where
`getPortfolioSummary` reports 0, -1000 and -100. -/
theorem summary_ignores_total_loss :
    portfolioSummary [holding "X" 1000 0 0 none] =
      { totalInvestments := 1, totalPrincipal := fin 1000, totalCurrentValue := fin 1000,
        totalROI := fin 0, totalProfitLoss := fin 0 } ∧
    (holding "X" 1000 0 0 none).currentValue = some (fin 0) ∧
    getPortfolioSummary true [holding "X" 1000 0 0 none] =
      .ok [{ totalInvestments := 1, totalPrincipal := fin 1000, totalCurrentValue := fin 0,
             avgExpectedReturn := none, totalProfitLoss := fin (-1000),
             totalROI := fin (-100) }] := by
  refine ⟨?_, rfl, ?_⟩
  · have hl := locals_fin (holding "X" 1000 0 0 none) 1000 0 rfl rfl
    simp only [portfolioSummary, List.foldl_cons, List.foldl_nil, hl.1, hl.2]
    norm_num [div_fin]
  · have hf : [holding "X" 1000 0 0 none].filter (fun inv => inv.isActive) =
        [holding "X" 1000 0 0 none] := by
      simp [holding]
    simp only [getPortfolioSummary, aggregate, hf, if_true]
    norm_num [mongoSum, mongoAvg, mongoSubtract, holding, div_fin]

/-- The `portfolioSummary` of `getAllInvestments` and the pipeline of
`getPortfolioSummary` when every sum and difference is exact. -/
theorem portfolioSummary_exact (investments : List Investment) :
    (portfolioSummary investments).totalInvestments = investments.length ∧
    (portfolioSummary investments).totalPrincipal =
      investments.foldl (fun s inv => add s (principalOf inv)) (fin 0) ∧
    (portfolioSummary investments).totalCurrentValue =
      investments.foldl (fun s inv => add s (currentValueOf inv)) (fin 0) ∧
    (portfolioSummary investments).totalProfitLoss =
      sub (portfolioSummary investments).totalCurrentValue
        (portfolioSummary investments).totalPrincipal ∧
    (portfolioSummary investments).totalROI =
      (if gt (portfolioSummary investments).totalPrincipal (fin 0) then
        mul (div (portfolioSummary investments).totalProfitLoss
          (portfolioSummary investments).totalPrincipal) (fin 100)
      else fin 0) ∧
    (∀ pcs : List (ℚ × ℚ),
      investments.map (fun inv => (inv.principalAmount, inv.currentValue)) =
        pcs.map (fun pc => (some (fin pc.1), some (fin pc.2))) →
      (∀ pc ∈ pcs, pc.2 ≠ 0) →
      ((portfolioSummary investments).totalPrincipal = fin (pcs.map Prod.fst).sum ∧
        (portfolioSummary investments).totalCurrentValue = fin (pcs.map Prod.snd).sum ∧
        (portfolioSummary investments).totalProfitLoss =
          fin ((pcs.map Prod.snd).sum - (pcs.map Prod.fst).sum) ∧
        (portfolioSummary investments).totalROI =
          (if 0 < (pcs.map Prod.fst).sum then
            fin (((pcs.map Prod.snd).sum - (pcs.map Prod.fst).sum) /
              (pcs.map Prod.fst).sum * 100)
          else fin 0)) ∧
      (investments ≠ [] → (∀ inv ∈ investments, inv.isActive = true) →
        (∀ pc ∈ pcs, 0 ≤ pc.1) →
        ∃ doc : AggregateSummary, aggregate investments = [doc] ∧
          doc.totalInvestments = (portfolioSummary investments).totalInvestments ∧
          doc.totalPrincipal = (portfolioSummary investments).totalPrincipal ∧
          doc.totalCurrentValue = (portfolioSummary investments).totalCurrentValue ∧
          doc.totalProfitLoss = (portfolioSummary investments).totalProfitLoss ∧
          doc.totalROI = (portfolioSummary investments).totalROI)) := by
  refine ⟨rfl, rfl, rfl, rfl, rfl, ?_⟩
  intro pcs hmap hnz
  obtain ⟨hP, hC⟩ := locals_of_pairs investments pcs hmap hnz
  have hp : (portfolioSummary investments).totalPrincipal = fin (pcs.map Prod.fst).sum := by
    simpa [portfolioSummary] using foldl_add_fin principalOf investments _ 0 hP
  have hc : (portfolioSummary investments).totalCurrentValue = fin (pcs.map Prod.snd).sum := by
    simpa [portfolioSummary] using foldl_add_fin currentValueOf investments _ 0 hC
  have hpl : (portfolioSummary investments).totalProfitLoss =
      fin ((pcs.map Prod.snd).sum - (pcs.map Prod.fst).sum) := by
    show sub (portfolioSummary investments).totalCurrentValue
      (portfolioSummary investments).totalPrincipal = _
    rw [hp, hc, sub_fin]
  have hroi : (portfolioSummary investments).totalROI =
      (if 0 < (pcs.map Prod.fst).sum then
        fin (((pcs.map Prod.snd).sum - (pcs.map Prod.fst).sum) /
          (pcs.map Prod.fst).sum * 100)
      else fin 0) := by
    show (if gt (portfolioSummary investments).totalPrincipal (fin 0) then
        mul (div (sub (portfolioSummary investments).totalCurrentValue
          (portfolioSummary investments).totalPrincipal)
          (portfolioSummary investments).totalPrincipal) (fin 100)
      else fin 0) = _
    rw [hp, hc]
    by_cases h0 : 0 < (pcs.map Prod.fst).sum
    · simp [h0, div_fin _ (ne_of_gt h0)]
    · simp [h0]
  refine ⟨⟨hp, hc, hpl, hroi⟩, ?_⟩
  intro hne hact hpos
  have hfilter : investments.filter (fun inv => inv.isActive) = investments :=
    List.filter_eq_self.2 hact
  have hlen : investments.length ≠ 0 := fun h0 => hne (List.length_eq_zero.1 h0)
  have hmp : investments.map (fun inv => inv.principalAmount) =
      (pcs.map Prod.fst).map (fun r => some (fin r)) := by
    have := congrArg (List.map Prod.fst) hmap
    simpa [List.map_map, Function.comp] using this
  have hmc : investments.map (fun inv => inv.currentValue) =
      (pcs.map Prod.snd).map (fun r => some (fin r)) := by
    have := congrArg (List.map Prod.snd) hmap
    simpa [List.map_map, Function.comp] using this
  have hmd : investments.map (fun inv => mongoSubtract inv.currentValue inv.principalAmount) =
      (pcs.map (fun pc => pc.2 - pc.1)).map (fun r => some (fin r)) := by
    calc investments.map (fun inv => mongoSubtract inv.currentValue inv.principalAmount)
        = (investments.map (fun inv => (inv.principalAmount, inv.currentValue))).map
            (fun ab : JSVal × JSVal => mongoSubtract ab.2 ab.1) := by
          rw [List.map_map]; rfl
      _ = (pcs.map (fun pc => ((some (fin pc.1) : JSVal), (some (fin pc.2) : JSVal)))).map
            (fun ab : JSVal × JSVal => mongoSubtract ab.2 ab.1) := by rw [hmap]
      _ = (pcs.map (fun pc => pc.2 - pc.1)).map (fun r => some (fin r)) := by
          rw [List.map_map, List.map_map]
          apply List.map_congr_left
          intro pc _
          simp [mongoSubtract]
  have hsum0 : 0 ≤ (pcs.map Prod.fst).sum := by
    apply List.sum_nonneg
    intro x hx
    obtain ⟨pc, hpc, rfl⟩ := List.mem_map.1 hx
    exact hpos pc hpc
  have hg : ∃ doc : AggregateSummary, aggregate investments = [doc] ∧
      doc.totalInvestments = investments.length ∧
      doc.totalPrincipal = mongoSum (investments.map (fun inv => inv.principalAmount)) ∧
      doc.totalCurrentValue = mongoSum (investments.map (fun inv => inv.currentValue)) ∧
      doc.totalProfitLoss = mongoSum (investments.map
        (fun inv => mongoSubtract inv.currentValue inv.principalAmount)) ∧
      doc.totalROI =
        (if mongoSum (investments.map (fun inv => inv.principalAmount)) = fin 0 then fin 0
        else mul (div (mongoSum (investments.map
            (fun inv => mongoSubtract inv.currentValue inv.principalAmount)))
          (mongoSum (investments.map (fun inv => inv.principalAmount)))) (fin 100)) := by
    simp only [aggregate, hfilter, hlen, if_false]
    exact ⟨_, rfl, rfl, rfl, rfl, rfl, rfl⟩
  obtain ⟨doc, hdoc, g1, g2, g3, g4, g5⟩ := hg
  refine ⟨doc, hdoc, g1, ?_, ?_, ?_, ?_⟩
  · rw [g2, hmp, mongoSum_fin, hp]
  · rw [g3, hmc, mongoSum_fin, hc]
  · rw [g4, hmd, mongoSum_fin, hpl, sum_snd_sub_fst]
  · rw [g5, hmp, hmd, mongoSum_fin, mongoSum_fin, hroi, sum_snd_sub_fst]
    by_cases h0 : 0 < (pcs.map Prod.fst).sum
    · have hne0 : (pcs.map Prod.fst).sum ≠ 0 := ne_of_gt h0
      simp [h0, hne0, div_fin _ hne0]
    · have h00 : (pcs.map Prod.fst).sum = 0 := le_antisymm (not_lt.1 h0) hsum0
      simp [h00]

/-- The sums of integer amounts, read as rationals. -/
theorem sum_map_cast (pcs : List (ℤ × ℤ)) :
    ((pcs.map (fun pc => ((pc.1 : ℚ), (pc.2 : ℚ)))).map Prod.fst).sum =
      (((pcs.map Prod.fst).sum : ℤ) : ℚ) ∧
    ((pcs.map (fun pc => ((pc.1 : ℚ), (pc.2 : ℚ)))).map Prod.snd).sum =
      (((pcs.map Prod.snd).sum : ℤ) : ℚ) := by
  induction pcs with
  | nil => simp
  | cons x xs ih =>
    simp only [List.map_cons, List.sum_cons, Int.cast_add, ih.1, ih.2, and_self]

/-- C13, amended: the `portfolioSummary` of `getAllInvestments` has
`totalPrincipal` the sum of the principals, `totalCurrentValue` the sum of the
effective current values (`currentValue`, or the principal when `currentValue`
is 0 or absent), `totalProfitLoss` their difference and `totalROI` that
difference over `totalPrincipal` times 100 when `totalPrincipal > 0`, else 0.
When the aggregation of `getPortfolioSummary` runs, on a non-empty list of
active investments whose principal and current value are integers, the
principal not negative, the current value not 0, and the magnitudes summing to
less than `2 ^ 53` (every sum and difference is then exact in binary64), its
totals are those of `portfolioSummary`. -/
theorem portfolio_summary_totals (investments : List Investment) :
    (portfolioSummary investments).totalInvestments = investments.length ∧
    (portfolioSummary investments).totalPrincipal =
      investments.foldl (fun s inv => add s (principalOf inv)) (fin 0) ∧
    (portfolioSummary investments).totalCurrentValue =
      investments.foldl (fun s inv => add s (currentValueOf inv)) (fin 0) ∧
    (portfolioSummary investments).totalProfitLoss =
      sub (portfolioSummary investments).totalCurrentValue
        (portfolioSummary investments).totalPrincipal ∧
    (portfolioSummary investments).totalROI =
      (if gt (portfolioSummary investments).totalPrincipal (fin 0) then
        mul (div (portfolioSummary investments).totalProfitLoss
          (portfolioSummary investments).totalPrincipal) (fin 100)
      else fin 0) ∧
    (∀ pcs : List (ℤ × ℤ),
      investments.map (fun inv => (inv.principalAmount, inv.currentValue)) =
        pcs.map (fun pc => (some (fin (pc.1 : ℚ)), some (fin (pc.2 : ℚ)))) →
      (∀ pc ∈ pcs, 0 ≤ pc.1 ∧ pc.2 ≠ 0) →
      (pcs.map (fun pc => |pc.1| + |pc.2|)).sum < 2 ^ 53 →
      investments ≠ [] → (∀ inv ∈ investments, inv.isActive = true) →
      ∃ doc : AggregateSummary, getPortfolioSummary true investments = .ok [doc] ∧
        doc.totalInvestments = (portfolioSummary investments).totalInvestments ∧
        doc.totalPrincipal = (portfolioSummary investments).totalPrincipal ∧
        doc.totalCurrentValue = (portfolioSummary investments).totalCurrentValue ∧
        doc.totalProfitLoss = (portfolioSummary investments).totalProfitLoss ∧
        doc.totalROI = (portfolioSummary investments).totalROI ∧
        doc.totalPrincipal = fin (((pcs.map Prod.fst).sum : ℤ) : ℚ) ∧
        doc.totalCurrentValue = fin (((pcs.map Prod.snd).sum : ℤ) : ℚ)) ∧
    (∀ stored : List Investment, ∃ e, getPortfolioSummary false stored = .error e) := by
  refine ⟨rfl, rfl, rfl, rfl, rfl, ?_, fun stored => ⟨_, rfl⟩⟩
  intro pcs hmap hpc _ hne hact
  have hmapq : investments.map (fun inv => (inv.principalAmount, inv.currentValue)) =
      (pcs.map (fun pc => ((pc.1 : ℚ), (pc.2 : ℚ)))).map
        (fun pc => (some (fin pc.1), some (fin pc.2))) := by
    rw [hmap, List.map_map]
    rfl
  obtain ⟨⟨hp, hc, _, _⟩, hagree⟩ :=
    (portfolioSummary_exact investments).2.2.2.2.2
      (pcs.map (fun pc => ((pc.1 : ℚ), (pc.2 : ℚ)))) hmapq
      (by
        intro pc hmem
        obtain ⟨z, hz, rfl⟩ := List.mem_map.1 hmem
        show ((z.2 : ℤ) : ℚ) ≠ 0
        exact_mod_cast (hpc z hz).2)
  obtain ⟨doc, hdoc, d1, d2, d3, d4, d5⟩ := hagree hne hact (by
    intro pc hmem
    obtain ⟨z, hz, rfl⟩ := List.mem_map.1 hmem
    show (0 : ℚ) ≤ ((z.1 : ℤ) : ℚ)
    exact_mod_cast (hpc z hz).1)
  obtain ⟨hs1, hs2⟩ := sum_map_cast pcs
  refine ⟨doc, by simp only [getPortfolioSummary, hdoc, if_true], d1, d2, d3, d4, d5, ?_, ?_⟩
  · rw [d2, hp, hs1]
  · rw [d3, hc, hs2]

/-- Witness of C13: two active holdings, 100 grown to 200 and 300 fallen to
250: principal 400, current value 450, profit 50, ROI 12.5, and the same
totals from `getPortfolioSummary`. -/
theorem portfolio_summary_totals_witness :
    portfolioSummary [holding "A" 100 200 0 none, holding "B" 300 250 0 none] =
      { totalInvestments := 2, totalPrincipal := fin 400, totalCurrentValue := fin 450,
        totalROI := fin (25 / 2), totalProfitLoss := fin 50 } ∧
    (getPortfolioSummary true
      [holding "A" 100 200 0 none, holding "B" 300 250 0 none]).toOption.map
      (fun docs => docs.map (fun doc => (doc.totalInvestments, doc.totalPrincipal,
        doc.totalCurrentValue, doc.totalProfitLoss, doc.totalROI))) =
      some [(2, fin 400, fin 450, fin 50, fin (25 / 2))] := by
  have hsum : portfolioSummary [holding "A" 100 200 0 none, holding "B" 300 250 0 none] =
      { totalInvestments := 2, totalPrincipal := fin 400, totalCurrentValue := fin 450,
        totalROI := fin (25 / 2), totalProfitLoss := fin 50 } := by decide!
  obtain ⟨doc, hdoc, d1, d2, d3, d4, d5, _, _⟩ :=
    (portfolio_summary_totals
      [holding "A" 100 200 0 none, holding "B" 300 250 0 none]).2.2.2.2.2.1
      [(100, 200), (300, 250)] (by simp [holding])
      (by intro pc hpc; simp at hpc; rcases hpc with rfl | rfl <;> norm_num)
      (by norm_num) (by simp)
      (by intro inv hinv; simp at hinv; rcases hinv with rfl | rfl <;> rfl)
  refine ⟨hsum, ?_⟩
  rw [hdoc]
  simp only [Except.toOption, Option.map_some', List.map_cons, List.map_nil, d1, d2, d3, d4,
    d5, hsum]

/-! ## Retries of an upstream request -/

namespace Market

/-- The waits of a run that makes `m + 1` calls from index `i`, one step
unfolded. -/
theorem waits_step (i m : Nat) :
    (1000 * (i + 1)) :: (List.range m).map (fun j => 1000 * (i + 1 + j + 1)) =
      (List.range (m + 1)).map (fun j => 1000 * (i + j + 1)) := by
  rw [List.range_succ_eq_map, List.map_cons, List.map_map]
  congr 1
  apply List.map_congr_left
  intro j _
  simp only [Function.comp, Nat.succ_eq_add_one]
  ring_nf

/-- The loop from index `i` with `n` iterations left, `n + i = retries`: it
makes at most `n` calls, at least one when `n` is not 0, then returns or
throws, and the waits are `1000 * (i + 1)`, `1000 * (i + 2)`, ... one after
each call but the last. -/
theorem fetchWithRetryFrom_bounds {α : Type} (attempt : Nat → Attempt α) (retries : Nat)
    (n i : Nat) (hn : n + i = retries) :
    (fetchWithRetryFrom attempt retries n i).calls ≤ n ∧
    (1 ≤ n → 1 ≤ (fetchWithRetryFrom attempt retries n i).calls ∧
      (fetchWithRetryFrom attempt retries n i).result ≠ none) ∧
    (fetchWithRetryFrom attempt retries n i).waits =
      (List.range ((fetchWithRetryFrom attempt retries n i).calls - 1)).map
        (fun j => 1000 * (i + j + 1)) := by
  induction n generalizing i with
  | zero => simp [fetchWithRetryFrom]
  | succ n ih =>
    unfold fetchWithRetryFrom
    cases hout : (attempt i).outcome with
    | ok data => simp
    | error e =>
      by_cases hlast : i + 1 = retries
      · simp [hlast]
      · have hn1 : n + (i + 1) = retries := by omega
        have hpos : 1 ≤ n := by omega
        obtain ⟨h1, h2, h3⟩ := ih (i + 1) hn1
        obtain ⟨h4, h5⟩ := h2 hpos
        simp only [hlast, if_false]
        refine ⟨by omega, fun _ => ⟨by omega, h5⟩, ?_⟩
        rw [h3, Nat.add_sub_cancel]
        obtain ⟨m, hm⟩ : ∃ m, (fetchWithRetryFrom attempt retries n (i + 1)).calls = m + 1 :=
          ⟨(fetchWithRetryFrom attempt retries n (i + 1)).calls - 1, by omega⟩
        rw [hm, Nat.add_sub_cancel]
        exact waits_step i m

/-- When the pass of index `k` is the first to succeed, the loop started at
`i ≤ k` returns its response after `k - i + 1` calls. -/
theorem fetchWithRetryFrom_success {α : Type} (attempt : Nat → Attempt α) (retries : Nat)
    (n i : Nat) (hn : n + i = retries) (k : Nat) (hik : i ≤ k) (hk : k < retries)
    (hfail : ∀ j, i ≤ j → j < k → ∃ e, (attempt j).outcome = .error e) (r : α)
    (hr : (attempt k).outcome = .ok r) :
    (fetchWithRetryFrom attempt retries n i).result = some (.ok r) ∧
    (fetchWithRetryFrom attempt retries n i).calls = k - i + 1 := by
  induction n generalizing i with
  | zero => omega
  | succ n ih =>
    unfold fetchWithRetryFrom
    rcases Nat.eq_or_lt_of_le hik with heq | hlt
    · subst heq
      simp [hr]
    · obtain ⟨e, he⟩ := hfail i (le_refl i) hlt
      have hlast : ¬ i + 1 = retries := by omega
      obtain ⟨h1, h2⟩ := ih (i + 1) (by omega) (by omega)
        (fun j hj hjk => hfail j (by omega) hjk)
      simp only [he, hlast, if_false, h1, h2, true_and]
      omega

/-- When no pass succeeds, the loop started at `i` with `n ≥ 1` iterations
left throws the error of the last pass after exactly `n` calls. -/
theorem fetchWithRetryFrom_all_fail {α : Type} (attempt : Nat → Attempt α) (retries : Nat)
    (n i : Nat) (hn : n + i = retries) (h1 : 1 ≤ n)
    (hfail : ∀ j, i ≤ j → j < retries → ∃ e, (attempt j).outcome = .error e) (e : String)
    (he : (attempt (retries - 1)).outcome = .error e) :
    (fetchWithRetryFrom attempt retries n i).result = some (.error e) ∧
    (fetchWithRetryFrom attempt retries n i).calls = n := by
  induction n generalizing i with
  | zero => omega
  | succ n ih =>
    unfold fetchWithRetryFrom
    obtain ⟨e', he'⟩ := hfail i (le_refl i) (by omega)
    by_cases hlast : i + 1 = retries
    · have hi : retries - 1 = i := by omega
      rw [hi, he'] at he
      have hee : e' = e := by injection he
      have hn0 : n = 0 := by omega
      simp [he', hlast, hee, hn0]
    · obtain ⟨h2, h3⟩ := ih (i + 1) (by omega) (by omega)
        (fun j hj hjr => hfail j (by omega) hjr)
      simp only [he', hlast, if_false, h2, h3, and_self]

/-- C14: with a budget `retries ≥ 1`, `fetchWithRetry` calls upstream until
the first success and returns that response (after `k + 1` calls when the pass
of index `k` is the first to succeed); when none of the `retries` passes
succeeds it has made exactly `retries` calls and throws the error of the last
one; it never makes more than `retries` calls, and the default budget is 3. -/
theorem fetchWithRetry_attempts {α : Type} (attempt : Nat → Attempt α) (retries : Nat)
    (h : 1 ≤ retries) :
    (∀ (k : Nat) (r : α), k < retries →
      (∀ j, j < k → ∃ e, (attempt j).outcome = .error e) →
      (attempt k).outcome = .ok r →
      (fetchWithRetry attempt retries).result = some (.ok r) ∧
        (fetchWithRetry attempt retries).calls = k + 1) ∧
    (∀ e : String, (∀ j, j < retries → ∃ e', (attempt j).outcome = .error e') →
      (attempt (retries - 1)).outcome = .error e →
      (fetchWithRetry attempt retries).result = some (.error e) ∧
        (fetchWithRetry attempt retries).calls = retries) ∧
    (fetchWithRetry attempt retries).calls ≤ retries ∧
    1 ≤ (fetchWithRetry attempt retries).calls ∧
    defaultRetries = 3 := by
  obtain ⟨hle, hpos, _⟩ := fetchWithRetryFrom_bounds attempt retries retries 0 (by omega)
  refine ⟨?_, ?_, hle, (hpos h).1, rfl⟩
  · intro k r hk hfail hr
    have := fetchWithRetryFrom_success attempt retries retries 0 (by omega) k (Nat.zero_le k) hk
      (fun j _ hjk => hfail j hjk) r hr
    simpa [fetchWithRetry] using this
  · intro e hfail he
    exact fetchWithRetryFrom_all_fail attempt retries retries 0 (by omega) h
      (fun j _ hjr => hfail j hjr) e he

/-- Witness of C14: with the default budget, two server errors followed by a
success return the response after 3 calls, and three server errors throw the
last error after 3 calls. -/
theorem fetchWithRetry_attempts_witness :
    (fetchWithRetry (fun i => if i < 2 then Attempt.responded 500 "Server Error" (.ok 0)
        else Attempt.responded 200 "OK" (.ok 7)) 3).result = some (.ok 7) ∧
    (fetchWithRetry (fun i => if i < 2 then Attempt.responded 500 "Server Error" (.ok 0)
        else Attempt.responded 200 "OK" (.ok 7)) 3).calls = 2 + 1 ∧
    (fetchWithRetry (fun _ => (Attempt.responded 500 "Server Error" (.ok 0) : Attempt Nat))
        3).result = some (.error "HTTP 500: Server Error") ∧
    (fetchWithRetry (fun _ => (Attempt.responded 500 "Server Error" (.ok 0) : Attempt Nat))
        3).calls = 3 := by
  have h1 := (fetchWithRetry_attempts
    (fun i => if i < 2 then Attempt.responded 500 "Server Error" (.ok 0)
      else Attempt.responded 200 "OK" (.ok 7)) 3 (by decide)).1 2 7 (by decide)
    (by
      intro j hj
      exact ⟨"HTTP 500: Server Error", by simp [hj, Attempt.outcome]; rfl⟩)
    (by simp [Attempt.outcome])
  have h2 := (fetchWithRetry_attempts
    (fun _ => (Attempt.responded 500 "Server Error" (.ok 0) : Attempt Nat)) 3
    (by decide)).2.1 "HTTP 500: Server Error"
    (by
      intro j _
      exact ⟨"HTTP 500: Server Error", by simp [Attempt.outcome]; rfl⟩)
    (by simp [Attempt.outcome]; rfl)
  exact ⟨h1.1, h1.2, h2.1, h2.2⟩

end Market

namespace Market

/-- C15: the waits of `fetchWithRetry` are 1000 ms after the first failed
call, 2000 ms after the second, and so on, `1000 * k` after the `k`-th; there
is one wait after each call but the last, so none after the final failed
call; with the default budget and no success the waits are 1000 then 2000. -/
theorem fetchWithRetry_waits {α : Type} (attempt : Nat → Attempt α) (retries : Nat) :
    (fetchWithRetry attempt retries).waits =
      (List.range ((fetchWithRetry attempt retries).calls - 1)).map
        (fun k => 1000 * (k + 1)) ∧
    (1 ≤ retries →
      (fetchWithRetry attempt retries).waits.length + 1 =
        (fetchWithRetry attempt retries).calls) ∧
    (∀ k, k < (fetchWithRetry attempt retries).waits.length →
      (fetchWithRetry attempt retries).waits[k]? = some (1000 * (k + 1))) ∧
    ((∀ j, j < defaultRetries → ∃ e, (attempt j).outcome = .error e) →
      (fetchWithRetry attempt defaultRetries).waits = [1000, 2000]) := by
  obtain ⟨_, hpos, hw⟩ := fetchWithRetryFrom_bounds attempt retries retries 0 (by omega)
  have hw2 : (fetchWithRetry attempt retries).waits =
      (List.range ((fetchWithRetry attempt retries).calls - 1)).map
        (fun k => 1000 * (k + 1)) := by
    simpa [fetchWithRetry] using hw
  refine ⟨hw2, ?_, ?_, ?_⟩
  · intro h
    have h1 : 1 ≤ (fetchWithRetry attempt retries).calls := (hpos h).1
    rw [hw2, List.length_map, List.length_range]
    omega
  · intro k hk
    rw [hw2] at hk ⊢
    rw [List.length_map, List.length_range] at hk
    simp [List.getElem?_map, List.getElem?_range hk]
  · intro hfail
    obtain ⟨e, he⟩ := hfail 2 (by decide)
    obtain ⟨_, hcalls⟩ := fetchWithRetryFrom_all_fail attempt defaultRetries defaultRetries 0
      (by omega) (by decide) (fun j _ hj => hfail j hj) e he
    obtain ⟨_, _, hw3⟩ :=
      fetchWithRetryFrom_bounds attempt defaultRetries defaultRetries 0 (by omega)
    rw [hcalls] at hw3
    simpa [fetchWithRetry, defaultRetries, List.range_succ] using hw3

/-- Witness of C15: three server errors under the default budget wait 1000 ms
then 2000 ms, one wait less than there are calls. -/
theorem fetchWithRetry_waits_witness :
    (fetchWithRetry (fun _ => (Attempt.responded 500 "Server Error" (.ok 0) : Attempt Nat))
        defaultRetries).waits = [1000, 2000] ∧
    (fetchWithRetry (fun _ => (Attempt.responded 500 "Server Error" (.ok 0) : Attempt Nat))
        3).waits.length + 1 =
      (fetchWithRetry (fun _ => (Attempt.responded 500 "Server Error" (.ok 0) : Attempt Nat))
        3).calls := by
  have h := fetchWithRetry_waits
    (fun _ => (Attempt.responded 500 "Server Error" (.ok 0) : Attempt Nat)) 3
  exact ⟨h.2.2.2 (fun j _ => ⟨"HTTP 500: Server Error", by simp [Attempt.outcome]; rfl⟩),
    h.2.1 (by decide)⟩

end Market

/-! ## The stock waterfall of the service -/

namespace Service

/-- C16 fails on the Groww step: when NSE answers without `priceInfo` and
Groww has no quote for `TCS` (it returns an empty list without throwing),
`fetchStockData` returns the empty list after NSE and Groww only, although
the Yahoo fallback would return a quote; Yahoo is tried only when Groww
throws, while the NSE step does go on to Groww both on failure and on zero
quotes. -/
theorem groww_empty_skips_yahoo :
    (fetchStockData onlyYahooAnswers ["TCS"]).result = .ok [] ∧
    (fetchStockData onlyYahooAnswers ["TCS"]).tried = ["NSE", "Groww"] ∧
    yahooFallback onlyYahooAnswers ["TCS"] = .ok [{ symbol := "TCS", price := fin 100 }] ∧
    (∀ (feeds : Feeds) (symbols : List String),
      (fetchStockDataNSE feeds symbols = .ok [] ∨
        ∃ e, fetchStockDataNSE feeds symbols = .error e) →
      fetchStockData feeds symbols = growwThenYahoo feeds symbols ∧
      "Groww" ∈ (fetchStockData feeds symbols).tried) ∧
    (∀ (feeds : Feeds) (symbols : List String),
      fetchStockDataGroww feeds symbols = .ok [] →
      (growwThenYahoo feeds symbols).result = .ok [] ∧
      (growwThenYahoo feeds symbols).tried = ["NSE", "Groww"]) ∧
    (∀ (feeds : Feeds) (symbols : List String) (e : String),
      fetchStockDataGroww feeds symbols = .error e →
      (growwThenYahoo feeds symbols).result = yahooFallback feeds symbols ∧
      (growwThenYahoo feeds symbols).tried = ["NSE", "Groww", "Yahoo"]) := by
  refine ⟨?_, ?_, ?_, ?_, ?_, ?_⟩
  · simp [fetchStockData, fetchStockDataNSE, growwThenYahoo, fetchStockDataGroww,
      insertAndReturn, onlyYahooAnswers]
  · simp [fetchStockData, fetchStockDataNSE, growwThenYahoo, fetchStockDataGroww,
      insertAndReturn, onlyYahooAnswers]
  · simp [yahooFallback, fetchStockDataYahoo, insertAndReturn, onlyYahooAnswers]
  · intro feeds symbols h
    have heq : fetchStockData feeds symbols = growwThenYahoo feeds symbols := by
      rcases h with h | ⟨e, h⟩
      · simp [fetchStockData, h]
      · simp [fetchStockData, h]
    refine ⟨heq, ?_⟩
    rw [heq]
    unfold growwThenYahoo
    cases fetchStockDataGroww feeds symbols <;> simp
  · intro feeds symbols h
    simp [growwThenYahoo, h]
  · intro feeds symbols e h
    simp [growwThenYahoo, h]

end Service

/-! ## The cache and the dataset handlers -/

namespace Market

/-- A value written at time `t` is read back, the cache unchanged, up to
`t + stdTTL * 1000`. -/
theorem get_set_fresh (cache : Cache) (key : String) (value : Payload) (t later : Nat)
    (h : later ≤ t + stdTTL * 1000) :
    (cache.set key value t).get key later = (some value, cache.set key value t) := by
  have hn : ¬ (t + stdTTL * 1000 < later) := by omega
  simp [Cache.get, Cache.set, List.find?, hn]

/-- A value written at time `t` is no longer read after `t + stdTTL * 1000`. -/
theorem get_set_expired (cache : Cache) (key : String) (value : Payload) (t later : Nat)
    (h : t + stdTTL * 1000 < later) :
    ((cache.set key value t).get key later).1 = none := by
  have h0 : t + stdTTL * 1000 ≠ 0 := by
    simp [stdTTL]
  simp [Cache.get, Cache.set, List.find?, h, h0]

/-- After a read that found nothing, the key has no entry. -/
theorem find?_after_miss (cache : Cache) (key : String) (now : Nat)
    (h : (cache.get key now).1 = none) :
    (cache.get key now).2.find? (fun e => e.1 = key) = none := by
  unfold Cache.get at h ⊢
  cases hf : cache.find? (fun e => e.1 = key) with
  | none => simp [hf]
  | some e =>
    simp only [hf] at h ⊢
    by_cases hexp : e.2.t ≠ 0 ∧ e.2.t < now
    · rw [if_pos hexp]
      show (cache.filter (fun e => e.1 ≠ key)).find? (fun e => e.1 = key) = none
      rw [List.find?_eq_none]
      intro x hx
      have := (List.mem_filter.1 hx).2
      simpa using this
    · rw [if_neg hexp] at h
      simp at h

/-- No promise fulfilled: no value. -/
theorem fulfilled_eq_nil {σ : Type} (settled : List (Except String σ))
    (h : ∀ r ∈ settled, ∃ e, r = .error e) : fulfilled settled = [] := by
  induction settled with
  | nil => rfl
  | cons r rs ih =>
    obtain ⟨e, he⟩ := h r (List.mem_cons_self _ _)
    have := ih (fun x hx => h x (List.mem_cons_of_mem _ hx))
    simp only [fulfilled] at this ⊢
    simp [he, this]

/-- A fulfilled promise contributes its value. -/
theorem mem_fulfilled {σ : Type} (settled : List (Except String σ)) (v : σ) :
    v ∈ fulfilled settled ↔ Except.ok v ∈ settled := by
  simp only [fulfilled, List.mem_filterMap]
  constructor
  · rintro ⟨r, hr, hv⟩
    cases r with
    | ok w =>
      simp only [Option.some.injEq] at hv
      rw [← hv]; exact hr
    | error e => simp at hv
  · intro h
    exact ⟨_, h, rfl⟩

/-- A promise for one symbol makes at least one upstream call and at most
`defaultRetries`. -/
theorem chartSubFetch_calls {ρ σ : Type} (upstream : String → Nat → Attempt (Option ρ))
    (quoteOf : String → ρ → Except String σ) (invalid symbol : String) :
    1 ≤ (chartSubFetch upstream quoteOf invalid symbol).2 ∧
    (chartSubFetch upstream quoteOf invalid symbol).2 ≤ defaultRetries := by
  obtain ⟨hle, hpos, _⟩ :=
    fetchWithRetryFrom_bounds (upstream symbol) defaultRetries defaultRetries 0 (by omega)
  have h1 := (hpos (by decide)).1
  have hc : (chartSubFetch upstream quoteOf invalid symbol).2 =
      (fetchWithRetry (upstream symbol) defaultRetries).calls := by
    unfold chartSubFetch
    cases hr : (fetchWithRetry (upstream symbol) defaultRetries).result with
    | none => simp [hr]
    | some r =>
      cases r with
      | error e => simp [hr]
      | ok d => cases d <;> simp [hr]
  rw [hc]
  exact ⟨h1, hle⟩

/-- A sum of numbers that are all at least 1 is at least their count. -/
theorem length_le_sum (l : List Nat) (h : ∀ n ∈ l, 1 ≤ n) : l.length ≤ l.sum := by
  induction l with
  | nil => simp
  | cons n ns ih =>
    have h1 := h n (List.mem_cons_self _ _)
    have h2 := ih (fun m hm => h m (List.mem_cons_of_mem _ hm))
    simp only [List.length_cons, List.sum_cons]
    omega

end Market

namespace Market

/-- The `/nse/stocks` handler on a cache miss when every promise is rejected:
status 503, nothing written. -/
theorem nseStocksFor_no_data {ρ : Type} (stocks : List String)
    (upstream : String → Nat → Attempt (Option ρ))
    (quoteOf : String → ρ → Except String Stock) (cache : Cache) (now fetchMs : Nat)
    (hmiss : (cache.get "nse-stocks" now).1 = none)
    (hfail : ∀ s ∈ stocks,
      ∃ e, (chartSubFetch upstream quoteOf "Invalid data structure" s).1 = .error e) :
    (nseStocksFor stocks upstream quoteOf cache now fetchMs).response =
      { status := 503, body := .error "No stock data available" } ∧
    (nseStocksFor stocks upstream quoteOf cache now fetchMs).cache =
      (cache.get "nse-stocks" now).2 := by
  have hnil : fulfilled ((stocks.map
      (chartSubFetch upstream quoteOf "Invalid data structure")).map Prod.fst) = [] := by
    apply fulfilled_eq_nil
    intro r hr
    rw [List.map_map] at hr
    obtain ⟨s, hs, rfl⟩ := List.mem_map.1 hr
    exact hfail s hs
  cases hget : cache.get "nse-stocks" now with
  | mk v c =>
    rw [hget] at hmiss
    simp only at hmiss
    subst hmiss
    simp only [nseStocksFor, hget, hnil, List.length_nil, if_true, and_self]

/-- The `/indices` handler on a cache miss when every promise is rejected:
status 503, nothing written. -/
theorem indicesFor_no_data {ρ : Type} (indices : List (String × String))
    (upstream : String → Nat → Attempt (Option ρ))
    (quoteOf : String → ρ → Except String IndexValue) (cache : Cache) (now fetchMs : Nat)
    (hmiss : (cache.get "market-indices" now).1 = none)
    (hfail : ∀ x ∈ indices,
      ∃ e, (chartSubFetch upstream quoteOf "Invalid data" x.1).1 = .error e) :
    (indicesFor indices upstream quoteOf cache now fetchMs).response =
      { status := 503, body := .error "No indices data available" } ∧
    (indicesFor indices upstream quoteOf cache now fetchMs).cache =
      (cache.get "market-indices" now).2 := by
  have hnil : fulfilled ((indices.map (fun x =>
      ((chartSubFetch upstream quoteOf "Invalid data" x.1).1.map (fun data => (x.2, data)),
        (chartSubFetch upstream quoteOf "Invalid data" x.1).2))).map Prod.fst) = [] := by
    apply fulfilled_eq_nil
    intro r hr
    rw [List.map_map] at hr
    obtain ⟨x, hx, rfl⟩ := List.mem_map.1 hr
    obtain ⟨e, he⟩ := hfail x hx
    exact ⟨e, by simp [Function.comp, he, Except.map]⟩
  cases hget : cache.get "market-indices" now with
  | mk v c =>
    rw [hget] at hmiss
    simp only at hmiss
    subst hmiss
    simp only [indicesFor, hget, hnil, List.foldl_nil, List.length_nil, if_true, and_self]

/-- C17 fails on `/mutual-funds`: on a cache miss with every promise rejected,
`/nse/stocks` and `/indices` answer 503 and write nothing, but with one
large-cap scheme listed and its NAV request answered by server errors,
`/mutual-funds` answers 200 with the empty list and writes it to the cache,
from which the next request is served. -/
theorem mutual_funds_caches_empty :
    (∀ (ρ : Type) (stocks : List String) (upstream : String → Nat → Attempt (Option ρ))
      (quoteOf : String → ρ → Except String Stock) (cache : Cache) (now fetchMs : Nat),
      (cache.get "nse-stocks" now).1 = none →
      (∀ s ∈ stocks,
        ∃ e, (chartSubFetch upstream quoteOf "Invalid data structure" s).1 = .error e) →
      (nseStocksFor stocks upstream quoteOf cache now fetchMs).response =
        { status := 503, body := .error "No stock data available" } ∧
      (nseStocksFor stocks upstream quoteOf cache now fetchMs).cache =
        (cache.get "nse-stocks" now).2 ∧
      (nseStocksFor stocks upstream quoteOf cache now fetchMs).cache.find?
        (fun e => e.1 = "nse-stocks") = none) ∧
    (∀ (ρ : Type) (indices : List (String × String))
      (upstream : String → Nat → Attempt (Option ρ))
      (quoteOf : String → ρ → Except String IndexValue) (cache : Cache) (now fetchMs : Nat),
      (cache.get "market-indices" now).1 = none →
      (∀ x ∈ indices, ∃ e, (chartSubFetch upstream quoteOf "Invalid data" x.1).1 = .error e) →
      (indicesFor indices upstream quoteOf cache now fetchMs).response =
        { status := 503, body := .error "No indices data available" } ∧
      (indicesFor indices upstream quoteOf cache now fetchMs).cache =
        (cache.get "market-indices" now).2 ∧
      (indicesFor indices upstream quoteOf cache now fetchMs).cache.find?
        (fun e => e.1 = "market-indices") = none) ∧
    mutualFunds
        (fun _ => .responded 200 "OK"
          (.ok [{ schemeCode := "119551", schemeName := "Axis Large Cap Fund" }]))
        (fun _ _ => (.responded 500 "Server Error" (.error "unread") : Attempt Nat))
        (fun _ _ => .error "unused") [] 0 50 =
      { response := { status := 200, body := .json (.funds []) },
        cache := [("mutual-funds", { v := .funds [], t := 50 + 300 * 1000 })],
        calls := 1 + 3 } ∧
    (mutualFunds (fun _ => (.rejected "offline" : Attempt (List Scheme)))
        (fun _ _ => (.rejected "offline" : Attempt Nat)) (fun _ _ => .error "unused")
        [("mutual-funds", { v := .funds [], t := 50 + 300 * 1000 })] 1000 50).response =
      { status := 200, body := .json (.funds []) } := by
  refine ⟨?_, ?_, ?_, ?_⟩
  · intro ρ stocks upstream quoteOf cache now fetchMs hmiss hfail
    obtain ⟨h1, h2⟩ := nseStocksFor_no_data stocks upstream quoteOf cache now fetchMs hmiss hfail
    exact ⟨h1, h2, by rw [h2]; exact find?_after_miss cache _ now hmiss⟩
  · intro ρ indices upstream quoteOf cache now fetchMs hmiss hfail
    obtain ⟨h1, h2⟩ := indicesFor_no_data indices upstream quoteOf cache now fetchMs hmiss hfail
    exact ⟨h1, h2, by rw [h2]; exact find?_after_miss cache _ now hmiss⟩
  · decide
  · decide

end Market

namespace Market

/-- C18: on a cache miss the `/nse/stocks` handler collects the quotes of the
symbols whose promise is fulfilled, in the order of the symbol list; as soon as
one symbol succeeds the batch succeeds with status 200 and exactly those
quotes, whatever the other symbols did. -/
theorem nse_stocks_keeps_fulfilled {ρ : Type} (stocks : List String)
    (upstream : String → Nat → Attempt (Option ρ))
    (quoteOf : String → ρ → Except String Stock) (cache : Cache) (now fetchMs : Nat)
    (hmiss : (cache.get "nse-stocks" now).1 = none)
    (hsome : ∃ s ∈ stocks, ∃ q,
      (chartSubFetch upstream quoteOf "Invalid data structure" s).1 = .ok q) :
    (nseStocksFor stocks upstream quoteOf cache now fetchMs).response =
      { status := 200,
        body := .json (.stocks (stocks.filterMap (fun s =>
          (chartSubFetch upstream quoteOf "Invalid data structure" s).1.toOption))) } ∧
    (∀ q, q ∈ stocks.filterMap (fun s =>
        (chartSubFetch upstream quoteOf "Invalid data structure" s).1.toOption) ↔
      ∃ s ∈ stocks, (chartSubFetch upstream quoteOf "Invalid data structure" s).1 = .ok q) ∧
    (stocks.filterMap (fun s =>
        (chartSubFetch upstream quoteOf "Invalid data structure" s).1.toOption)).length ≤
      stocks.length := by
  have hval : fulfilled ((stocks.map
      (chartSubFetch upstream quoteOf "Invalid data structure")).map Prod.fst) =
      stocks.filterMap (fun s =>
        (chartSubFetch upstream quoteOf "Invalid data structure" s).1.toOption) := by
    rw [List.map_map, fulfilled, List.filterMap_map]
    apply List.filterMap_congr
    intro s _
    simp only [Function.comp]
    cases (chartSubFetch upstream quoteOf "Invalid data structure" s).1 <;> rfl
  have hmem : ∀ q, q ∈ stocks.filterMap (fun s =>
        (chartSubFetch upstream quoteOf "Invalid data structure" s).1.toOption) ↔
      ∃ s ∈ stocks, (chartSubFetch upstream quoteOf "Invalid data structure" s).1 = .ok q := by
    intro q
    rw [List.mem_filterMap]
    constructor
    · rintro ⟨s, hs, hq⟩
      refine ⟨s, hs, ?_⟩
      cases hr : (chartSubFetch upstream quoteOf "Invalid data structure" s).1 with
      | ok v =>
        rw [hr] at hq
        simp only [Except.toOption, Option.some.injEq] at hq
        rw [hq]
      | error e =>
        rw [hr] at hq
        simp [Except.toOption] at hq
    · rintro ⟨s, hs, hq⟩
      exact ⟨s, hs, by rw [hq]; rfl⟩
  refine ⟨?_, hmem, List.length_filterMap_le _ _⟩
  obtain ⟨s, hs, q, hq⟩ := hsome
  have hne : (stocks.filterMap (fun s =>
      (chartSubFetch upstream quoteOf "Invalid data structure" s).1.toOption)).length ≠ 0 := by
    intro h0
    have hq' := (hmem q).2 ⟨s, hs, hq⟩
    rw [List.length_eq_zero.1 h0] at hq'
    simp at hq'
  cases hget : cache.get "nse-stocks" now with
  | mk v c =>
    rw [hget] at hmiss
    simp only at hmiss
    subst hmiss
    simp only [nseStocksFor, hget, hval, hne, if_false]

/-- Witness of C18: the batch `AAA.NS`, `BBB.NS` where the first has a chart
result and the second is not found yields status 200 with the one quote of
`AAA.NS`. -/
theorem nse_stocks_keeps_fulfilled_witness :
    (nseStocksFor ["AAA.NS", "BBB.NS"] onlyAAA (fun s _ => .ok (sampleQuote s)) [] 0
      50).response =
      { status := 200, body := .json (.stocks [sampleQuote "AAA.NS"]) } := by
  have h := (nse_stocks_keeps_fulfilled ["AAA.NS", "BBB.NS"] onlyAAA
    (fun s _ => .ok (sampleQuote s)) [] 0 50 rfl
    ⟨"AAA.NS", by simp, sampleQuote "AAA.NS", rfl⟩).1
  rw [h]
  rfl

end Market

namespace Market

/-- C19, as stated, fails: a symbol answered `404 Not Found` at every attempt
is requested three times, with waits of 1000 ms and 2000 ms, before its
promise is rejected. -/
theorem not_found_is_retried :
    chartSubFetch onlyAAA (fun s _ => Except.ok (sampleQuote s)) "Invalid data structure"
      "BBB.NS" = (.error "HTTP 404: Not Found", 3) ∧
    (fetchWithRetry (onlyAAA "BBB.NS") defaultRetries).waits = [1000, 2000] := by
  constructor
  · rfl
  · rfl

/-- C19, amended: a symbol whose first response arrives without a chart result
is not retried, exactly one upstream call is made and its promise is rejected;
a symbol answered by an HTTP not-found response is retried like any other
failure, `defaultRetries` calls with waits of 1000 ms and 2000 ms when every
attempt is answered so, and its promise is rejected.  A rejected promise
contributes nothing to the result set. -/
theorem not_found_retry_policy {ρ σ : Type} (upstream : String → Nat → Attempt (Option ρ))
    (quoteOf : String → ρ → Except String σ) (invalid symbol : String) :
    ((upstream symbol 0).outcome = .ok none →
      chartSubFetch upstream quoteOf invalid symbol = (.error invalid, 1)) ∧
    ((∀ i, ∃ statusText json, upstream symbol i = .responded 404 statusText json) →
      (chartSubFetch upstream quoteOf invalid symbol).2 = defaultRetries ∧
      (∃ e, (chartSubFetch upstream quoteOf invalid symbol).1 = .error e) ∧
      (fetchWithRetry (upstream symbol) defaultRetries).waits = [1000, 2000]) ∧
    (∀ e, (chartSubFetch upstream quoteOf invalid symbol).1 = .error e →
      fulfilled [(chartSubFetch upstream quoteOf invalid symbol).1] = []) := by
  refine ⟨?_, ?_, ?_⟩
  · intro h
    have hrun := fetchWithRetryFrom_success (upstream symbol) defaultRetries defaultRetries 0
      (by omega) 0 (le_refl 0) (by decide) (fun j _ hj => absurd hj (Nat.not_lt_zero j)) none h
    have hres : (fetchWithRetry (upstream symbol) defaultRetries).result = some (.ok none) :=
      hrun.1
    have hcalls : (fetchWithRetry (upstream symbol) defaultRetries).calls = 1 := hrun.2
    simp only [chartSubFetch, hres, hcalls]
  · intro h
    have hfail : ∀ j, ∃ e, (upstream symbol j).outcome = .error e := by
      intro j
      obtain ⟨statusText, json, hj⟩ := h j
      exact ⟨"HTTP " ++ toString 404 ++ ": " ++ statusText, by
        rw [hj]
        simp [Attempt.outcome]⟩
    obtain ⟨e, he⟩ := hfail (defaultRetries - 1)
    have hrun := fetchWithRetryFrom_all_fail (upstream symbol) defaultRetries defaultRetries 0
      (by omega) (by decide) (fun j _ _ => hfail j) e he
    have hres : (fetchWithRetry (upstream symbol) defaultRetries).result = some (.error e) :=
      hrun.1
    have hcalls : (fetchWithRetry (upstream symbol) defaultRetries).calls = defaultRetries :=
      hrun.2
    obtain ⟨_, _, hw⟩ := fetchWithRetryFrom_bounds (upstream symbol) defaultRetries
      defaultRetries 0 (by omega)
    refine ⟨?_, ⟨e, ?_⟩, ?_⟩
    · simp only [chartSubFetch, hres, hcalls]
    · simp only [chartSubFetch, hres]
    · have hc2 : (fetchWithRetryFrom (upstream symbol) defaultRetries defaultRetries 0).calls =
          defaultRetries := hcalls
      rw [hc2] at hw
      simpa [fetchWithRetry, defaultRetries, List.range_succ] using hw
  · intro e he
    rw [he]
    rfl

/-- Witness of C19: `AAA.NS` answered without a chart result costs one call;
`BBB.NS`, not found at every attempt, costs three. -/
theorem not_found_retry_policy_witness :
    chartSubFetch (fun _ _ => (.responded 200 "OK" (.ok none) : Attempt (Option Nat)))
      (fun s _ => Except.ok (sampleQuote s)) "Invalid data structure" "AAA.NS" =
      (.error "Invalid data structure", 1) ∧
    (chartSubFetch onlyAAA (fun s _ => Except.ok (sampleQuote s)) "Invalid data structure"
      "BBB.NS").2 = defaultRetries := by
  constructor
  · exact (not_found_retry_policy
      (fun _ _ => (.responded 200 "OK" (.ok none) : Attempt (Option Nat)))
      (fun s _ => Except.ok (sampleQuote s)) "Invalid data structure" "AAA.NS").1 rfl
  · exact ((not_found_retry_policy onlyAAA (fun s _ => Except.ok (sampleQuote s))
      "Invalid data structure" "BBB.NS").2.1
      (fun _ => ⟨"Not Found", .error "unread", rfl⟩)).1

end Market

namespace Market

/-- The `/nse/stocks` handler when the cache holds a value for its key. -/
theorem nseStocksFor_hit {ρ : Type} (stocks : List String)
    (upstream : String → Nat → Attempt (Option ρ))
    (quoteOf : String → ρ → Except String Stock) (cache : Cache) (now fetchMs : Nat)
    (cached : Payload) (after : Cache) (h : cache.get "nse-stocks" now = (some cached, after)) :
    nseStocksFor stocks upstream quoteOf cache now fetchMs =
      { response := { status := 200, body := .json cached }, cache := after, calls := 0 } := by
  simp only [nseStocksFor, h]

/-- The `/indices` handler when the cache holds a value for its key. -/
theorem indicesFor_hit {ρ : Type} (indices : List (String × String))
    (upstream : String → Nat → Attempt (Option ρ))
    (quoteOf : String → ρ → Except String IndexValue) (cache : Cache) (now fetchMs : Nat)
    (cached : Payload) (after : Cache)
    (h : cache.get "market-indices" now = (some cached, after)) :
    indicesFor indices upstream quoteOf cache now fetchMs =
      { response := { status := 200, body := .json cached }, cache := after, calls := 0 } := by
  simp only [indicesFor, h]

/-- The `/mutual-funds` handler when the cache holds a value for its key. -/
theorem mutualFunds_hit {ν : Type} (schemeList : Nat → Attempt (List Scheme))
    (navUpstream : String → Nat → Attempt ν) (fundOf : Scheme → ν → Except String Fund)
    (cache : Cache) (now fetchMs : Nat) (cached : Payload) (after : Cache)
    (h : cache.get "mutual-funds" now = (some cached, after)) :
    mutualFunds schemeList navUpstream fundOf cache now fetchMs =
      { response := { status := 200, body := .json cached }, cache := after, calls := 0 } := by
  simp only [mutualFunds, h]

/-- The `/nse/stocks` handler on a cache miss requests every symbol at least
once. -/
theorem nseStocksFor_miss_calls {ρ : Type} (stocks : List String)
    (upstream : String → Nat → Attempt (Option ρ))
    (quoteOf : String → ρ → Except String Stock) (cache : Cache) (now fetchMs : Nat)
    (hmiss : (cache.get "nse-stocks" now).1 = none) :
    stocks.length ≤ (nseStocksFor stocks upstream quoteOf cache now fetchMs).calls := by
  have hsum : stocks.length ≤ ((stocks.map
      (chartSubFetch upstream quoteOf "Invalid data structure")).map Prod.snd).sum := by
    have := length_le_sum ((stocks.map
      (chartSubFetch upstream quoteOf "Invalid data structure")).map Prod.snd) (by
        intro n hn
        rw [List.map_map] at hn
        obtain ⟨s, _, rfl⟩ := List.mem_map.1 hn
        exact (chartSubFetch_calls upstream quoteOf _ s).1)
    simpa using this
  cases hget : cache.get "nse-stocks" now with
  | mk v c =>
    rw [hget] at hmiss
    simp only at hmiss
    subst hmiss
    simp only [nseStocksFor, hget]
    split <;> exact hsum

/-- The `/nse/stocks` handler on a cache miss with a fulfilled promise answers
200 and writes its payload at the time the fetch ends. -/
theorem nseStocksFor_write {ρ : Type} (stocks : List String)
    (upstream : String → Nat → Attempt (Option ρ))
    (quoteOf : String → ρ → Except String Stock) (cache : Cache) (now fetchMs : Nat)
    (hmiss : (cache.get "nse-stocks" now).1 = none)
    (hsome : ∃ s ∈ stocks, ∃ q,
      (chartSubFetch upstream quoteOf "Invalid data structure" s).1 = .ok q) :
    ∃ payload : Payload,
      (nseStocksFor stocks upstream quoteOf cache now fetchMs).response =
        { status := 200, body := .json payload } ∧
      (nseStocksFor stocks upstream quoteOf cache now fetchMs).cache =
        (cache.get "nse-stocks" now).2.set "nse-stocks" payload (now + fetchMs) := by
  obtain ⟨s, hs, q, hq⟩ := hsome
  have hne : (fulfilled ((stocks.map
      (chartSubFetch upstream quoteOf "Invalid data structure")).map Prod.fst)).length ≠ 0 := by
    intro h0
    have hmem : q ∈ fulfilled ((stocks.map
        (chartSubFetch upstream quoteOf "Invalid data structure")).map Prod.fst) := by
      rw [mem_fulfilled, List.map_map]
      exact List.mem_map.2 ⟨s, hs, hq⟩
    rw [List.length_eq_zero.1 h0] at hmem
    simp at hmem
  cases hget : cache.get "nse-stocks" now with
  | mk v c =>
    rw [hget] at hmiss
    simp only at hmiss
    subst hmiss
    refine ⟨.stocks (fulfilled ((stocks.map
      (chartSubFetch upstream quoteOf "Invalid data structure")).map Prod.fst)), ?_, ?_⟩
    · simp only [nseStocksFor, hget, hne, if_false]
    · simp only [nseStocksFor, hget, hne, if_false]

/-- C20: with the TTL of 300 s, after a `/nse/stocks` run that missed the cache
and wrote its payload at time `t = now + fetchMs`, every request up to
`t + 300 s` (so at `t + 299 s`) gets the same response from the cache with no
upstream call and leaves the cache unchanged, and a request after `t + 300 s`
(so at `t + 301 s`) requests every symbol upstream again. -/
theorem cache_serves_within_ttl {ρ : Type} (stocks : List String)
    (upstream : String → Nat → Attempt (Option ρ))
    (quoteOf : String → ρ → Except String Stock) (cache : Cache) (now fetchMs : Nat)
    (hmiss : (cache.get "nse-stocks" now).1 = none)
    (hsome : ∃ s ∈ stocks, ∃ q,
      (chartSubFetch upstream quoteOf "Invalid data structure" s).1 = .ok q) :
    (∀ (upstream2 : String → Nat → Attempt (Option ρ))
      (quoteOf2 : String → ρ → Except String Stock) (later fetchMs2 : Nat),
      (later ≤ now + fetchMs + 300 * 1000 →
        nseStocksFor stocks upstream2 quoteOf2
            (nseStocksFor stocks upstream quoteOf cache now fetchMs).cache later fetchMs2 =
          { response := (nseStocksFor stocks upstream quoteOf cache now fetchMs).response,
            cache := (nseStocksFor stocks upstream quoteOf cache now fetchMs).cache,
            calls := 0 }) ∧
      (now + fetchMs + 300 * 1000 < later →
        stocks.length ≤
          (nseStocksFor stocks upstream2 quoteOf2
            (nseStocksFor stocks upstream quoteOf cache now fetchMs).cache later
            fetchMs2).calls ∧
        1 ≤ (nseStocksFor stocks upstream2 quoteOf2
            (nseStocksFor stocks upstream quoteOf cache now fetchMs).cache later
            fetchMs2).calls)) ∧
    (∀ (ρ2 : Type) (indices : List (String × String))
      (upstream2 : String → Nat → Attempt (Option ρ2))
      (quoteOf2 : String → ρ2 → Except String IndexValue) (stored : Cache)
      (payload : Payload) (t later fetchMs2 : Nat), later ≤ t + 300 * 1000 →
      indicesFor indices upstream2 quoteOf2 (stored.set "market-indices" payload t) later
          fetchMs2 =
        { response := { status := 200, body := .json payload },
          cache := stored.set "market-indices" payload t, calls := 0 }) ∧
    (∀ (ν : Type) (schemeList : Nat → Attempt (List Scheme))
      (navUpstream : String → Nat → Attempt ν) (fundOf : Scheme → ν → Except String Fund)
      (stored : Cache) (payload : Payload) (t later fetchMs2 : Nat),
      later ≤ t + 300 * 1000 →
      mutualFunds schemeList navUpstream fundOf (stored.set "mutual-funds" payload t) later
          fetchMs2 =
        { response := { status := 200, body := .json payload },
          cache := stored.set "mutual-funds" payload t, calls := 0 }) ∧
    stdTTL = 300 ∧
    now + fetchMs + 299 * 1000 ≤ now + fetchMs + 300 * 1000 ∧
    now + fetchMs + 300 * 1000 < now + fetchMs + 301 * 1000 := by
  obtain ⟨payload, hresp, hcache⟩ :=
    nseStocksFor_write stocks upstream quoteOf cache now fetchMs hmiss hsome
  refine ⟨?_, ?_, ?_, rfl, by omega, by omega⟩
  rotate_left
  · intro ρ2 indices upstream2 quoteOf2 stored payload2 t later fetchMs2 hle
    exact indicesFor_hit indices upstream2 quoteOf2 _ later fetchMs2 payload2 _
      (get_set_fresh _ _ _ _ _ (by simpa [stdTTL] using hle))
  · intro ν schemeList navUpstream fundOf stored payload2 t later fetchMs2 hle
    exact mutualFunds_hit schemeList navUpstream fundOf _ later fetchMs2 payload2 _
      (get_set_fresh _ _ _ _ _ (by simpa [stdTTL] using hle))
  intro upstream2 quoteOf2 later fetchMs2
  constructor
  · intro hle
    rw [hresp, hcache]
    exact nseStocksFor_hit stocks upstream2 quoteOf2 _ later fetchMs2 payload _
      (get_set_fresh _ _ _ _ _ (by simpa [stdTTL] using hle))
  · intro hlt
    have hm : (((cache.get "nse-stocks" now).2.set "nse-stocks" payload (now + fetchMs)).get
        "nse-stocks" later).1 = none :=
      get_set_expired _ _ _ _ _ (by simpa [stdTTL] using hlt)
    have hcalls := nseStocksFor_miss_calls stocks upstream2 quoteOf2
      ((cache.get "nse-stocks" now).2.set "nse-stocks" payload (now + fetchMs)) later fetchMs2 hm
    rw [hcache]
    refine ⟨hcalls, ?_⟩
    obtain ⟨s, hs, _⟩ := hsome
    have hpos : 0 < stocks.length := List.length_pos_of_mem hs
    omega

/-- Witness of C20: the quote of `AAA.NS` written at time 50 is served at
50 + 299 s without any upstream call, and at 50 + 301 s the two symbols are
requested again. -/
theorem cache_serves_within_ttl_witness :
    nseStocksFor ["AAA.NS", "BBB.NS"] onlyAAA (fun s _ => .ok (sampleQuote s))
        (nseStocksFor ["AAA.NS", "BBB.NS"] onlyAAA (fun s _ => .ok (sampleQuote s)) [] 0
          50).cache (0 + 50 + 299 * 1000) 50 =
      { response := (nseStocksFor ["AAA.NS", "BBB.NS"] onlyAAA
          (fun s _ => .ok (sampleQuote s)) [] 0 50).response,
        cache := (nseStocksFor ["AAA.NS", "BBB.NS"] onlyAAA
          (fun s _ => .ok (sampleQuote s)) [] 0 50).cache,
        calls := 0 } ∧
    ["AAA.NS", "BBB.NS"].length ≤
      (nseStocksFor ["AAA.NS", "BBB.NS"] onlyAAA (fun s _ => .ok (sampleQuote s))
        (nseStocksFor ["AAA.NS", "BBB.NS"] onlyAAA (fun s _ => .ok (sampleQuote s)) [] 0
          50).cache (0 + 50 + 301 * 1000) 50).calls := by
  have h := (cache_serves_within_ttl ["AAA.NS", "BBB.NS"] onlyAAA
    (fun s _ => .ok (sampleQuote s)) [] 0 50 rfl
    ⟨"AAA.NS", by simp, sampleQuote "AAA.NS", rfl⟩).1 onlyAAA
    (fun s _ => .ok (sampleQuote s))
  exact ⟨(h (0 + 50 + 299 * 1000) 50).1 (by omega),
    ((h (0 + 50 + 301 * 1000) 50).2 (by omega)).1⟩

end Market

/-! ## Shape and determinism of the recommendation list -/

/-- The recommendations from an index depend on the clock only through the
readings of the iterations that run. -/
theorem recommendationsFrom_congr (clock1 clock2 : Nat → Int) (l : List Investment) (i : Nat)
    (h : ∀ j, j < l.length → clock1 (i + j) = clock2 (i + j)) :
    recommendationsFrom clock1 i l = recommendationsFrom clock2 i l := by
  induction l generalizing i with
  | nil => rfl
  | cons x xs ih =>
    have h0 := h 0 (by simp)
    simp only [Nat.add_zero] at h0
    have hrest := ih (i + 1) (fun j hj => by
      have := h (j + 1) (by simpa using hj)
      simpa [Nat.add_assoc, Nat.add_comm 1 j] using this)
    simp only [recommendationsFrom, h0, hrest]

/-- With a clock frozen at `now`, the recommendations from any index are the
concatenation of what each investment pushes at `now`. -/
theorem recommendationsFrom_const (now : Int) (l : List Investment) (i : Nat) :
    recommendationsFrom (fun _ => now) i l = l.flatMap (fun inv => recommendationsFor inv now) := by
  induction l generalizing i with
  | nil => rfl
  | cons x xs ih => simp [recommendationsFrom, ih]

/-- What an investment pushes depends on the time only through whether its
whole days invested exceed 365. -/
theorem recommendationsFor_congr (inv : Investment) (now1 now2 : Int)
    (h : gt (daysInvestedOf inv now1) (fin 365) = gt (daysInvestedOf inv now2) (fin 365)) :
    recommendationsFor inv now1 = recommendationsFor inv now2 := by
  simp only [recommendationsFor, h]

/-- Two runs in which every iteration reaches the same verdict on `more than
365 whole days invested` push the same recommendations. -/
theorem recommendationsFrom_verdict (clock1 clock2 : Nat → Int) (l : List Investment) (i : Nat)
    (h : ∀ (j : Nat) (hj : j < l.length),
      gt (daysInvestedOf (l.get ⟨j, hj⟩) (clock1 (i + j))) (fin 365) =
        gt (daysInvestedOf (l.get ⟨j, hj⟩) (clock2 (i + j))) (fin 365)) :
    recommendationsFrom clock1 i l = recommendationsFrom clock2 i l := by
  induction l generalizing i with
  | nil => rfl
  | cons x xs ih =>
    have h0 := h 0 (by simp)
    simp only [Nat.add_zero, List.get_eq_getElem, List.getElem_cons_zero] at h0
    have hrest := ih (i + 1) (fun j hj => by
      have := h (j + 1) (by simpa using hj)
      simpa [Nat.add_assoc, Nat.add_comm 1 j] using this)
    simp only [recommendationsFrom, recommendationsFor_congr x _ _ h0, hrest]

/-- C23: the handler reads the clock once per investment, inside the loop; a
run is the list of investments with the readings `clock j` of its iterations.
Two runs on the same investments whose readings are one fixed evaluation time
produce lists equal in length, order and content, the list of
`getRecommendations` at that time.  More generally two runs produce the same
list as soon as each iteration reaches the same verdict on `more than 365
whole days invested` in both, whatever the readings: nothing else of the time
is used.  The verdict itself matters: one millisecond across the boundary
changes the list. -/
theorem recommendations_deterministic (investments : List Investment)
    (clock1 clock2 : Nat → Int) :
    (∀ now : Int, (∀ j, j < investments.length → clock1 j = now) →
      (∀ j, j < investments.length → clock2 j = now) →
      getRecommendationsAt investments clock1 = getRecommendationsAt investments clock2 ∧
      (getRecommendationsAt investments clock1).length =
        (getRecommendationsAt investments clock2).length ∧
      getRecommendationsAt investments clock1 = getRecommendations investments now) ∧
    ((∀ (j : Nat) (hj : j < investments.length),
        gt (daysInvestedOf (investments.get ⟨j, hj⟩) (clock1 j)) (fin 365) =
          gt (daysInvestedOf (investments.get ⟨j, hj⟩) (clock2 j)) (fin 365)) →
      getRecommendationsAt investments clock1 = getRecommendationsAt investments clock2 ∧
      (getRecommendationsAt investments clock1).length =
        (getRecommendationsAt investments clock2).length) ∧
    (getRecommendationsAt [holding "S" 10000 15500 0 none] (fun _ => daysMs 366 - 1) = [] ∧
      getRecommendationsAt [holding "S" 10000 15500 0 none] (fun _ => daysMs 366) =
        [profitTakingFor (holding "S" 10000 15500 0 none)]) := by
  refine ⟨?_, ?_, by decide!, by decide!⟩
  · intro now h1 h2
    have e1 : getRecommendationsAt investments clock1 =
        getRecommendationsAt investments (fun _ => now) :=
      recommendationsFrom_congr clock1 (fun _ => now) investments 0
        (fun j hj => by rw [Nat.zero_add]; exact h1 j hj)
    have e2 : getRecommendationsAt investments clock2 =
        getRecommendationsAt investments (fun _ => now) :=
      recommendationsFrom_congr clock2 (fun _ => now) investments 0
        (fun j hj => by rw [Nat.zero_add]; exact h2 j hj)
    have e3 : getRecommendationsAt investments (fun _ => now) =
        getRecommendations investments now := by
      rw [getRecommendations_eq_flatMap]
      exact recommendationsFrom_const now investments 0
    exact ⟨e1.trans e2.symm, by rw [e1, e2], e1.trans e3⟩
  · intro h
    have e : getRecommendationsAt investments clock1 =
        getRecommendationsAt investments clock2 :=
      recommendationsFrom_verdict clock1 clock2 investments 0
        (fun j hj => by rw [Nat.zero_add]; exact h j hj)
    exact ⟨e, by rw [e]⟩

/-- Witness of C23: a holding with a gain of 55 % bought 400 days ago and a
holding with a loss of 30 %.  In the first run the clock advances by one
millisecond per iteration, in the second it reads five seconds later: every
reading differs between the runs, the verdicts do not, and both runs produce
the profit-taking recommendation for the first holding followed by the alert
for the second.  With every reading at the same time the two runs agree with
`getRecommendations`. -/
theorem recommendations_deterministic_witness :
    (∀ j : Nat, j < 2 → (fun j : Nat => daysMs 400 + (j : Int)) j ≠ daysMs 400 + 5000) ∧
    getRecommendationsAt [holding "S" 10000 15500 0 none, holding "L" 1000 700 0 none]
        (fun j => daysMs 400 + (j : Int)) =
      getRecommendationsAt [holding "S" 10000 15500 0 none, holding "L" 1000 700 0 none]
        (fun _ => daysMs 400 + 5000) ∧
    getRecommendationsAt [holding "S" 10000 15500 0 none, holding "L" 1000 700 0 none]
        (fun j => daysMs 400 + (j : Int)) =
      [profitTakingFor (holding "S" 10000 15500 0 none),
        alertFor (holding "L" 1000 700 0 none)] ∧
    getRecommendationsAt [holding "S" 10000 15500 0 none, holding "L" 1000 700 0 none]
        (fun j => if j < 2 then daysMs 400 else 0) =
      getRecommendations [holding "S" 10000 15500 0 none, holding "L" 1000 700 0 none]
        (daysMs 400) := by
  refine ⟨?_, ?_, by decide!, ?_⟩
  · intro j hj
    simp only [daysMs]
    omega
  · exact ((recommendations_deterministic
      [holding "S" 10000 15500 0 none, holding "L" 1000 700 0 none]
      (fun j => daysMs 400 + (j : Int)) (fun _ => daysMs 400 + 5000)).2.1 (by
        intro j hj
        match j, hj with
        | 0, _ =>
          show gt (daysInvestedOf (holding "S" 10000 15500 0 none) (daysMs 400 + ((0 : Nat) : Int)))
            (fin 365) = gt (daysInvestedOf (holding "S" 10000 15500 0 none) (daysMs 400 + 5000))
            (fin 365)
          decide!
        | 1, _ =>
          show gt (daysInvestedOf (holding "L" 1000 700 0 none) (daysMs 400 + ((1 : Nat) : Int)))
            (fin 365) = gt (daysInvestedOf (holding "L" 1000 700 0 none) (daysMs 400 + 5000))
            (fin 365)
          decide!)).1
  · exact ((recommendations_deterministic
      [holding "S" 10000 15500 0 none, holding "L" 1000 700 0 none]
      (fun j => if j < 2 then daysMs 400 else 0) (fun _ => daysMs 400)).1 (daysMs 400)
      (by intro j hj; simp only [List.length_cons, List.length_nil] at hj; simp [hj])
      (fun _ _ => rfl)).2.2

/-- What one investment pushes is a sublist of its three recommendations taken
in the order alert, profit taking, goal achieved. -/
theorem recommendationsFor_sublist (inv : Investment) (now : Int) :
    List.Sublist (recommendationsFor inv now)
      [alertFor inv, profitTakingFor inv, goalAchievedFor inv] := by
  unfold recommendationsFor
  cases lt (roiOf inv) (fin (-20)) <;>
  cases (gt (roiOf inv) (fin 50) && gt (daysInvestedOf inv now) (fin 365)) <;>
  cases (inv.targetAmount.truthy && ge (currentValueOf inv) (toNumber inv.targetAmount)) <;>
  simp

/-- The loss rule and the profit rule never hold together. -/
theorem not_alert_and_profit (x : JSNum) :
    ¬ (lt x (fin (-20)) = true ∧ gt x (fin 50) = true) := by
  rintro ⟨h1, h2⟩
  cases x with
  | nan => simp at h1
  | posInf => simp [lt] at h1
  | negInf => simp [gt, lt] at h2
  | fin q =>
    simp only [lt_fin, gt_fin, decide_eq_true_eq] at h1 h2
    linarith

/-- One investment pushes at most two recommendations. -/
theorem recommendationsFor_length_le (inv : Investment) (now : Int) :
    (recommendationsFor inv now).length ≤ 2 := by
  have hno := not_alert_and_profit (roiOf inv)
  unfold recommendationsFor
  cases h1 : lt (roiOf inv) (fin (-20)) <;>
  cases h2 : gt (roiOf inv) (fin 50) <;>
  cases h3 : gt (daysInvestedOf inv now) (fin 365) <;>
  cases h4 : (inv.targetAmount.truthy && ge (currentValueOf inv) (toNumber inv.targetAmount)) <;>
  simp_all

/-- C24: every rule is evaluated for every investment, on its own condition
whatever the other rules did; each contributes zero or one recommendation; the
list is the concatenation over the investments in input order of what each
pushes, itself in the order alert, profit taking, goal achieved; and the
reported count is the length of the list. -/
theorem recommendations_shape (investments : List Investment) (now : Int) :
    getRecommendations investments now =
      investments.flatMap (fun inv =>
        (if lt (roiOf inv) (fin (-20)) then [alertFor inv] else []) ++
        (if gt (roiOf inv) (fin 50) && gt (daysInvestedOf inv now) (fin 365)
          then [profitTakingFor inv] else []) ++
        (if inv.targetAmount.truthy && ge (currentValueOf inv) (toNumber inv.targetAmount)
          then [goalAchievedFor inv] else [])) ∧
    (∀ inv : Investment,
      (alertFor inv ∈ recommendationsFor inv now ↔ lt (roiOf inv) (fin (-20)) = true) ∧
      (profitTakingFor inv ∈ recommendationsFor inv now ↔
        (gt (roiOf inv) (fin 50) = true ∧ gt (daysInvestedOf inv now) (fin 365) = true)) ∧
      (goalAchievedFor inv ∈ recommendationsFor inv now ↔
        (inv.targetAmount.truthy = true ∧
          ge (currentValueOf inv) (toNumber inv.targetAmount) = true)) ∧
      List.Sublist (recommendationsFor inv now)
        [alertFor inv, profitTakingFor inv, goalAchievedFor inv]) ∧
    (getRecommendationsData investments now).recommendations =
      getRecommendations investments now ∧
    (getRecommendationsData investments now).count =
      (getRecommendations investments now).length ∧
    getRecommendations
        [holding "L" 1000 700 0 (some (fin 500)), holding "S" 10000 15500 0 (some (fin 12000))]
        (daysMs 400) =
      [alertFor (holding "L" 1000 700 0 (some (fin 500))),
       goalAchievedFor (holding "L" 1000 700 0 (some (fin 500))),
       profitTakingFor (holding "S" 10000 15500 0 (some (fin 12000))),
       goalAchievedFor (holding "S" 10000 15500 0 (some (fin 12000)))] := by
  refine ⟨?_, ?_, rfl, rfl, ?_⟩
  · rw [getRecommendations_eq_flatMap]
    rfl
  · intro inv
    refine ⟨?_, ?_, ?_, recommendationsFor_sublist inv now⟩
    · rw [mem_recommendationsFor]
      constructor
      · rintro (⟨h, _⟩ | ⟨_, _, h⟩ | ⟨_, _, h⟩)
        · exact h
        · simp [alertFor, profitTakingFor] at h
        · simp [alertFor, goalAchievedFor] at h
      · intro h
        exact Or.inl ⟨h, rfl⟩
    · rw [mem_recommendationsFor]
      constructor
      · rintro (⟨_, h⟩ | ⟨h1, h2, _⟩ | ⟨_, _, h⟩)
        · simp [alertFor, profitTakingFor] at h
        · exact ⟨h1, h2⟩
        · simp [profitTakingFor, goalAchievedFor] at h
      · rintro ⟨h1, h2⟩
        exact Or.inr (Or.inl ⟨h1, h2, rfl⟩)
    · rw [mem_recommendationsFor]
      constructor
      · rintro (⟨_, h⟩ | ⟨_, _, h⟩ | ⟨h1, h2, _⟩)
        · simp [alertFor, goalAchievedFor] at h
        · simp [profitTakingFor, goalAchievedFor] at h
        · exact ⟨h1, h2⟩
      · rintro ⟨h1, h2⟩
        exact Or.inr (Or.inr ⟨h1, h2, rfl⟩)
  · have hL := locals_fin (holding "L" 1000 700 0 (some (fin 500))) 1000 700 rfl rfl
    have hS := locals_fin (holding "S" 10000 15500 0 (some (fin 12000))) 10000 15500 rfl rfl
    have hrL : roiOf (holding "L" 1000 700 0 (some (fin 500))) = fin (-30) := by
      rw [roiOf_fin _ 1000 700 rfl rfl]; norm_num
    have hrS : roiOf (holding "S" 10000 15500 0 (some (fin 12000))) = fin 55 := by
      rw [roiOf_fin _ 10000 15500 rfl rfl]; norm_num
    have hd : ∀ (name : String) (p c : ℚ) (t : JSVal),
        daysInvestedOf (holding name p c 0 t) (daysMs 400) = fin 400 := by
      intro name p c t
      simp [daysInvestedOf, holding, msSince, daysMs, msPerDay, div_fin, floor]
      rw [show (34560000000 : ℚ) / (1000 * 60 * 60 * 24) = ((400 : ℤ) : ℚ) by norm_num,
        Int.floor_intCast]
      norm_num
    simp only [getRecommendations, List.foldl_cons, List.foldl_nil, recommendationsFor, hrL,
      hrS, hd, hL.2, hS.2]
    norm_num [holding, JSVal.truthy, JSNum.truthy, toNumber]

/-- C27: an investment gets at most two recommendations, since the loss rule
(`roi < -20`) and the profit rule (`roi > 50`) never fire together, so the
list is at most twice as long as the list of investments. -/
theorem recommendations_at_most_two (investments : List Investment) (now : Int) :
    (∀ inv : Investment, (recommendationsFor inv now).length ≤ 2) ∧
    (∀ inv : Investment,
      ¬ (lt (roiOf inv) (fin (-20)) = true ∧ gt (roiOf inv) (fin 50) = true)) ∧
    (∀ inv : Investment,
      ¬ (alertFor inv ∈ recommendationsFor inv now ∧
        profitTakingFor inv ∈ recommendationsFor inv now)) ∧
    (getRecommendations investments now).length ≤ 2 * investments.length := by
  refine ⟨fun inv => recommendationsFor_length_le inv now,
    fun inv => not_alert_and_profit (roiOf inv), ?_, ?_⟩
  · rintro inv ⟨h1, h2⟩
    rw [mem_recommendationsFor] at h1 h2
    have ha : lt (roiOf inv) (fin (-20)) = true := by
      rcases h1 with ⟨h, _⟩ | ⟨_, _, h⟩ | ⟨_, _, h⟩
      · exact h
      · simp [alertFor, profitTakingFor] at h
      · simp [alertFor, goalAchievedFor] at h
    have hp : gt (roiOf inv) (fin 50) = true := by
      rcases h2 with ⟨_, h⟩ | ⟨h, _, _⟩ | ⟨_, _, h⟩
      · simp [alertFor, profitTakingFor] at h
      · exact h
      · simp [profitTakingFor, goalAchievedFor] at h
    exact not_alert_and_profit (roiOf inv) ⟨ha, hp⟩
  · rw [getRecommendations_eq_flatMap]
    induction investments with
    | nil => simp
    | cons x xs ih =>
      have hx := recommendationsFor_length_le x now
      simp only [List.flatMap_cons, List.length_append, List.length_cons]
      omega

/-- C28, as stated, fails: for the holding of principal 1000 and current value
0 (a number), the `roi` computed inline by the handlers is 0 and the model's
`currentROI` is -100. -/
theorem inline_roi_differs_on_zero_value :
    (holding "X" 1000 0 0 none).principalAmount = some (fin 1000) ∧
    (holding "X" 1000 0 0 none).currentValue = some (fin 0) ∧
    roiOf (holding "X" 1000 0 0 none) = fin 0 ∧
    currentROI (holding "X" 1000 0 0 none) = fin (-100) ∧
    fin 0 ≠ fin (-100) := by
  refine ⟨rfl, rfl, ?_, ?_, by norm_num⟩
  · rw [roiOf_fin _ 1000 0 rfl rfl]; norm_num
  · rw [currentROI_fin _ 1000 0 rfl rfl (by norm_num)]; norm_num

/-- C28, amended: for every investment with a finite `principalAmount` that is
not negative and a `currentValue` that is a number other than 0 and `NaN`,
the `roi` computed inline by `getPerformanceAnalytics` and by
`getRecommendations` is the value of the model's `currentROI`. -/
theorem inline_roi_eq_currentROI (inv : Investment) (p : ℚ) (c : JSNum)
    (hp : inv.principalAmount = some (fin p)) (h0 : 0 ≤ p)
    (hc : inv.currentValue = some c) (hct : c.truthy = true) :
    roiOf inv = currentROI inv := by
  have hcv : currentValueOf inv = c := by
    simp [currentValueOf, jsOr, JSVal.truthy, hc, hct, toNumber]
  rcases eq_or_lt_of_le h0 with h | h
  · subst h
    simp [roiOf, currentROI, principalOf, jsOr, JSVal.truthy, JSNum.truthy, toNumber, hp,
      strictEq]
  · have hne : p ≠ 0 := ne_of_gt h
    have hpo : principalOf inv = fin p := by
      simp [principalOf, jsOr, JSVal.truthy, JSNum.truthy, toNumber, hp, hne]
    simp [roiOf, currentROI, hcv, hpo, hp, hc, toNumber, strictEq, hne, h]

/-- Witness of C28: principal 1000 and value 700, both computations give -30. -/
theorem inline_roi_eq_currentROI_witness :
    roiOf (holding "Y" 1000 700 0 none) = currentROI (holding "Y" 1000 700 0 none) :=
  inline_roi_eq_currentROI (holding "Y" 1000 700 0 none) 1000 (fin 700) rfl (by norm_num) rfl
    (by simp [JSNum.truthy])

/-! ## The grouping is a partition -/

/-- An `upsert` whose update adds one to a counter adds one to the sum of the
counters. -/
theorem sum_count_upsert {γ : Type} (key : γ → String) (count : γ → Nat) (k : String)
    (init : γ) (f : γ → γ) (hf : ∀ g, count (f g) = count g + 1) (hinit : count init = 0)
    (gs : List γ) :
    ((upsert key k init f gs).map count).sum = (gs.map count).sum + 1 := by
  induction gs with
  | nil => simp [upsert, hf, hinit]
  | cons g gs ih =>
    by_cases hg : key g = k
    · simp only [upsert, hg, if_true, List.map_cons, List.sum_cons, hf]
      omega
    · simp only [upsert, hg, if_false, List.map_cons, List.sum_cons, ih]
      omega

/-- After the grouping loop the counters sum to the former sum plus the number
of elements grouped. -/
theorem sum_count_foldl_upsert {α γ : Type} (key : γ → String) (count : γ → Nat)
    (kOf : α → String) (mk : String → γ) (upd : α → γ → γ)
    (hupd : ∀ x g, count (upd x g) = count g + 1) (hmk : ∀ k, count (mk k) = 0)
    (l : List α) (gs : List γ) :
    ((l.foldl (fun gs x => upsert key (kOf x) (mk (kOf x)) (upd x) gs) gs).map count).sum =
      (gs.map count).sum + l.length := by
  induction l generalizing gs with
  | nil => simp
  | cons x xs ih =>
    rw [List.foldl_cons, ih, sum_count_upsert key count _ _ _ (hupd x) (hmk _)]
    simp only [List.length_cons]
    omega

/-- A property of groups kept by the update, and true of a group just created
and updated, holds throughout after an `upsert`. -/
theorem forall_upsert {γ : Type} (P : γ → Prop) (key : γ → String) (k : String) (init : γ)
    (f : γ → γ) (hf : ∀ g, P g → P (f g)) (hinit : P (f init)) (gs : List γ)
    (hgs : ∀ g ∈ gs, P g) : ∀ g ∈ upsert key k init f gs, P g := by
  induction gs with
  | nil =>
    intro g hg
    simp only [upsert, List.mem_singleton] at hg
    rw [hg]; exact hinit
  | cons a gs ih =>
    intro g hg
    by_cases ha : key a = k
    · simp only [upsert, ha, if_true, List.mem_cons] at hg
      rcases hg with rfl | hg
      · exact hf a (hgs a (List.mem_cons_self _ _))
      · exact hgs g (List.mem_cons_of_mem _ hg)
    · simp only [upsert, ha, if_false, List.mem_cons] at hg
      rcases hg with rfl | hg
      · exact hgs _ (List.mem_cons_self _ _)
      · exact ih (fun g hg => hgs g (List.mem_cons_of_mem _ hg)) g hg

/-- The same through the grouping loop. -/
theorem forall_foldl_upsert {α γ : Type} (P : γ → Prop) (key : γ → String)
    (kOf : α → String) (mk : String → γ) (upd : α → γ → γ) (l : List α)
    (hupd : ∀ x ∈ l, ∀ g, P g → P (upd x g)) (hnew : ∀ x ∈ l, P (upd x (mk (kOf x))))
    (gs : List γ) (hgs : ∀ g ∈ gs, P g) :
    ∀ g ∈ l.foldl (fun gs x => upsert key (kOf x) (mk (kOf x)) (upd x) gs) gs, P g := by
  induction l generalizing gs with
  | nil => exact hgs
  | cons x xs ih =>
    rw [List.foldl_cons]
    apply ih (fun y hy => hupd y (List.mem_cons_of_mem _ hy))
      (fun y hy => hnew y (List.mem_cons_of_mem _ hy))
    exact forall_upsert P key _ _ _ (hupd x (List.mem_cons_self _ _))
      (hnew x (List.mem_cons_self _ _)) gs hgs

/-- The groups of `riskDistribution` have pairwise distinct `_id`. -/
theorem riskDistribution_nodup (investments : List Investment) :
    ((getPerformanceAnalytics investments).riskDistribution.map (fun g => g._id)).Nodup := by
  unfold getPerformanceAnalytics
  cases investments with
  | nil => simp
  | cons x xs =>
    simp only [List.length_cons, Nat.add_one_ne_zero, if_false, List.map_map]
    exact nodup_keys_foldl_upsert RiskGroup._id riskOf newRiskGroup addToRiskGroup
      (fun _ _ => rfl) (fun _ => rfl) (x :: xs) [] List.nodup_nil

/-- The lists reported by `getPerformanceAnalytics` are the images of the two
group objects, also for an empty list of investments. -/
theorem analytics_eq (investments : List Investment) :
    (getPerformanceAnalytics investments).performanceByType =
      (typeGroups investments).map toTypePerformance ∧
    (getPerformanceAnalytics investments).riskDistribution =
      (riskGroups investments).map toRiskDistribution := by
  unfold getPerformanceAnalytics
  cases investments with
  | nil => simp [typeGroups, riskGroups]
  | cons x xs => simp

/-! ## Rounding to binary64: integers are exact -/

namespace JSNum

/-- With enough fuel, `log2Fuel` brackets a positive number between two
consecutive powers of 2. -/
theorem log2Fuel_spec (fuel n : Nat) (hle : n ≤ fuel) (h0 : n ≠ 0) :
    2 ^ log2Fuel fuel n ≤ n ∧ n < 2 ^ (log2Fuel fuel n + 1) := by
  induction fuel generalizing n with
  | zero => omega
  | succ fuel ih =>
    unfold log2Fuel
    by_cases h2 : n < 2
    · rw [if_pos h2]
      simp only [pow_zero, zero_add, pow_one]
      omega
    · rw [if_neg h2]
      obtain ⟨h3, h4⟩ := ih (n / 2) (by omega) (by omega)
      constructor
      · rw [pow_succ]
        omega
      · rw [pow_succ]
        omega

/-- A positive `n` lies between `2 ^ natLog2 n` and the next power of 2. -/
theorem natLog2_spec (n : Nat) (h0 : n ≠ 0) :
    2 ^ natLog2 n ≤ n ∧ n < 2 ^ (natLog2 n + 1) :=
  log2Fuel_spec n n (le_refl n) h0

/-- A positive number below `2 ^ k` has logarithm below `k`. -/
theorem natLog2_lt (n k : Nat) (h0 : n ≠ 0) (h : n < 2 ^ k) : natLog2 n < k := by
  have h1 := (natLog2_spec n h0).1
  have h2 : 2 ^ natLog2 n < 2 ^ k := lt_of_le_of_lt h1 h
  exact (Nat.pow_lt_pow_iff_right (by decide)).1 h2

/-- On a positive integer `floorLog2` is `natLog2`. -/
theorem floorLog2_one (a : Nat) (h0 : a ≠ 0) : floorLog2 a 1 = (natLog2 a : Int) := by
  unfold floorLog2
  have hle : 2 ^ natLog2 a ≤ a := (natLog2_spec a h0).1
  have h1 : natLog2 1 = 0 := rfl
  simp only [h1, Nat.cast_zero, sub_zero, Int.toNat_ofNat, one_mul]
  have hz : (-(natLog2 a : Int)).toNat = 0 := by omega
  rw [hz, pow_zero, mul_one, if_pos hle]

/-- An integer of magnitude below `2 ^ 53` is a multiple of the spacing at its
size: rounding leaves it unchanged. -/
theorem nearest64_intCast (n : ℤ) (h : n.natAbs < 2 ^ 53) : nearest64 (n : ℚ) = n := by
  unfold nearest64
  simp only [Rat.intCast_num, Rat.intCast_den]
  by_cases h0 : n.natAbs = 0
  · have hn : n = 0 := Int.natAbs_eq_zero.1 h0
    simp [hn]
  · rw [if_neg h0, floorLog2_one _ h0]
    have hlog : natLog2 n.natAbs < 53 := natLog2_lt _ 53 h0 h
    have he : Max.max ((natLog2 n.natAbs : Int) - 52) (-1074) = (natLog2 n.natAbs : Int) - 52 :=
      max_eq_left (by omega)
    have hs : (-((natLog2 n.natAbs : Int) - 52)).toNat = 52 - natLog2 n.natAbs := by omega
    have ht : ((natLog2 n.natAbs : Int) - 52).toNat = 0 := by omega
    simp only [he, hs, ht, pow_zero, mul_one, Nat.div_one, Nat.mod_one, Nat.mul_zero,
      Nat.zero_lt_one, if_true]
    have hpos : ((2 ^ (52 - natLog2 n.natAbs) : ℕ) : ℚ) ≠ 0 := by positivity
    rw [div_eq_iff hpos]
    have hsign : n.sign * (n.natAbs : ℤ) = n := Int.sign_mul_natAbs n
    push_cast
    rw [← mul_assoc]
    congr 1
    exact_mod_cast hsign

/-- An integer of magnitude below `2 ^ 53` is a binary64 value. -/
theorem round64_intCast (n : ℤ) (h : n.natAbs < 2 ^ 53) : round64 (n : ℚ) = fin n := by
  unfold round64
  rw [nearest64_intCast n h]
  have hlt : |(n : ℚ)| < 2 ^ 1024 := by
    have h1 : (n.natAbs : ℚ) < 2 ^ 53 := by exact_mod_cast h
    have h2 : |(n : ℚ)| = (n.natAbs : ℚ) := by
      rw [Nat.cast_natAbs, Int.cast_abs]
    rw [h2]
    calc (n.natAbs : ℚ) < 2 ^ 53 := h1
      _ ≤ 2 ^ 1024 := by norm_num
  rw [if_neg (not_le.2 hlt)]

/-- The sum of two integers is exact when its magnitude is below `2 ^ 53`. -/
theorem add64_int (a b : ℤ) (h : (a + b).natAbs < 2 ^ 53) :
    add64 (fin a) (fin b) = fin ((a + b : ℤ) : ℚ) := by
  have := round64_intCast (a + b) h
  simp only [add64, add_fin]
  rw [← this]
  push_cast
  rfl

/-- The difference of two integers is exact when its magnitude is below
`2 ^ 53`. -/
theorem sub64_int (a b : ℤ) (h : (a - b).natAbs < 2 ^ 53) :
    sub64 (fin a) (fin b) = fin ((a - b : ℤ) : ℚ) := by
  have := round64_intCast (a - b) h
  simp only [sub64, sub_fin]
  rw [← this]
  push_cast
  rfl

end JSNum

/-- On investments whose principal and current value are integers, with
magnitudes small enough, the money totals of a group in binary64 stay
integers, each sum and difference being exact, and the profit is the current
value minus the principal. -/
theorem foldl_addToTotals64_int (l : List Investment) (pcs : List (ℤ × ℤ))
    (hmap : l.map (fun inv => (inv.principalAmount, inv.currentValue)) =
      pcs.map (fun pc => (some (fin (pc.1 : ℚ)), some (fin (pc.2 : ℚ)))))
    (P C : ℤ)
    (hb : P.natAbs + C.natAbs +
      2 * (pcs.map (fun pc => pc.1.natAbs + pc.2.natAbs)).sum < 2 ^ 53) :
    ∃ P' C' : ℤ, P'.natAbs + C'.natAbs < 2 ^ 53 ∧
      l.foldl (fun g inv => addToTotals64 inv g)
        { totalPrincipal := fin P, totalCurrentValue := fin C,
          totalProfitLoss := fin ((C - P : ℤ) : ℚ) } =
        { totalPrincipal := fin P', totalCurrentValue := fin C',
          totalProfitLoss := fin ((C' - P' : ℤ) : ℚ) } := by
  induction l generalizing pcs P C with
  | nil =>
    refine ⟨P, C, ?_, rfl⟩
    omega
  | cons x xs ih =>
    cases pcs with
    | nil => simp at hmap
    | cons pc pcs =>
      simp only [List.map_cons, List.cons.injEq, Prod.mk.injEq] at hmap
      obtain ⟨⟨hp, hc⟩, hrest⟩ := hmap
      obtain ⟨l1, l2⟩ := locals_fin x pc.1 pc.2 hp hc
      simp only [List.map_cons, List.sum_cons] at hb
      have hc' : (if (pc.2 : ℚ) = 0 then (pc.1 : ℚ) else (pc.2 : ℚ)) =
          (((if pc.2 = 0 then pc.1 else pc.2 : ℤ)) : ℚ) := by
        by_cases h0 : pc.2 = 0
        · simp [h0]
        · have : (pc.2 : ℚ) ≠ 0 := by exact_mod_cast h0
          simp [h0, this]
      rw [hc'] at l2
      have hcb : (if pc.2 = 0 then pc.1 else pc.2 : ℤ).natAbs ≤ pc.1.natAbs + pc.2.natAbs := by
        by_cases h0 : pc.2 = 0
        · simp [h0]
        · simp [h0]
      generalize (if pc.2 = 0 then pc.1 else pc.2 : ℤ) = c at l2 hcb
      have e1 : add64 (fin P) (principalOf x) = fin ((P + pc.1 : ℤ) : ℚ) := by
        rw [l1]; exact add64_int P pc.1 (by omega)
      have e2 : add64 (fin C) (currentValueOf x) = fin ((C + c : ℤ) : ℚ) := by
        rw [l2]; exact add64_int C c (by omega)
      have e3 : sub64 (currentValueOf x) (principalOf x) = fin ((c - pc.1 : ℤ) : ℚ) := by
        rw [l1, l2]; exact sub64_int c pc.1 (by omega)
      have e4 : add64 (fin ((C - P : ℤ) : ℚ)) (sub64 (currentValueOf x) (principalOf x)) =
          fin (((C + c) - (P + pc.1) : ℤ) : ℚ) := by
        rw [e3, add64_int (C - P) (c - pc.1) (by omega)]
        congr 2
        ring
      have hstep : addToTotals64 x
          { totalPrincipal := fin P, totalCurrentValue := fin C,
            totalProfitLoss := fin ((C - P : ℤ) : ℚ) } =
          { totalPrincipal := fin ((P + pc.1 : ℤ) : ℚ),
            totalCurrentValue := fin ((C + c : ℤ) : ℚ),
            totalProfitLoss := fin (((C + c) - (P + pc.1) : ℤ) : ℚ) } := by
        simp only [addToTotals64, e1, e2, e4]
      rw [List.foldl_cons, hstep]
      exact ih pcs hrest (P + pc.1) (C + c) (by omega)

/-- C29, as stated, fails on its last equation: for two stock holdings with
the amounts 100.1 grown to 200.2 and 300.3 fallen to 250.7, the group of
`stocks` accumulates `totalProfitLoss` 50.49999999999997 (the binary64 value
`1776810790486015 / 2 ^ 45`), while its `totalCurrentValue - totalPrincipal`
is 50.5: each `+=` and each subtraction is rounded, and the sum of the rounded
differences is not the difference of the rounded sums. -/
theorem type_group_profit_loss_rounds :
    (typeTotals64 [withAmounts64 (holding "A" 0 0 0 none) (1001 / 10) (2002 / 10),
      withAmounts64 (holding "B" 0 0 0 none) (3003 / 10) (2507 / 10)]
      "stocks").totalProfitLoss = fin (1776810790486015 / 2 ^ 45) ∧
    sub64
      (typeTotals64 [withAmounts64 (holding "A" 0 0 0 none) (1001 / 10) (2002 / 10),
        withAmounts64 (holding "B" 0 0 0 none) (3003 / 10) (2507 / 10)]
        "stocks").totalCurrentValue
      (typeTotals64 [withAmounts64 (holding "A" 0 0 0 none) (1001 / 10) (2002 / 10),
        withAmounts64 (holding "B" 0 0 0 none) (3003 / 10) (2507 / 10)]
        "stocks").totalPrincipal = fin (101 / 2) ∧
    fin (1776810790486015 / 2 ^ 45) ≠ fin (101 / 2) := by
  refine ⟨by decide!, by decide!, by decide!⟩

/-- C29, amended: the grouping of `getPerformanceAnalytics` is a partition:
the counts of the type groups sum to the number of investments, and so do the
counts of the risk groups; each investment has its type group and its risk
group, the groups have pairwise distinct `_id`, every reported group has
`count ≥ 1`.  In every type group `totalProfitLoss` is the sum, in input
order, of `currentValue - principal` over its investments.  With the
operators of the program, when the amounts of the group are integers whose
magnitudes sum to less than `2 ^ 52`, every sum and difference is exact and
`totalProfitLoss = totalCurrentValue - totalPrincipal`. -/
theorem grouping_is_partition (investments : List Investment) :
    (((getPerformanceAnalytics investments).performanceByType.map
      (fun g => g.count)).sum = investments.length) ∧
    (((getPerformanceAnalytics investments).riskDistribution.map
      (fun g => g.count)).sum = investments.length) ∧
    (∀ g ∈ (getPerformanceAnalytics investments).performanceByType, 1 ≤ g.count) ∧
    (∀ g ∈ (getPerformanceAnalytics investments).riskDistribution, 1 ≤ g.count) ∧
    ((getPerformanceAnalytics investments).performanceByType.map (fun g => g._id)).Nodup ∧
    ((getPerformanceAnalytics investments).riskDistribution.map (fun g => g._id)).Nodup ∧
    (∀ inv ∈ investments,
      (∃ g ∈ (getPerformanceAnalytics investments).performanceByType, g._id = typeOf inv) ∧
      (∃ g ∈ (getPerformanceAnalytics investments).riskDistribution, g._id = riskOf inv)) ∧
    (∀ (type : String) (g : TypePerformance), typePerformanceOf investments type = some g →
      g.totalProfitLoss =
        (investments.filter (fun inv => decide (typeOf inv = type))).foldl
          (fun s inv => add s (sub (currentValueOf inv) (principalOf inv))) (fin 0)) ∧
    (∀ (type : String) (pcs : List (ℤ × ℤ)),
      (investments.filter (fun inv => decide (typeOf inv = type))).map
        (fun inv => (inv.principalAmount, inv.currentValue)) =
        pcs.map (fun pc => (some (fin (pc.1 : ℚ)), some (fin (pc.2 : ℚ)))) →
      (pcs.map (fun pc => pc.1.natAbs + pc.2.natAbs)).sum < 2 ^ 52 →
      (typeTotals64 investments type).totalProfitLoss =
        sub64 (typeTotals64 investments type).totalCurrentValue
          (typeTotals64 investments type).totalPrincipal) := by
  obtain ⟨hT, hR⟩ := analytics_eq investments
  refine ⟨?_, ?_, ?_, ?_, performanceByType_nodup investments,
    riskDistribution_nodup investments, ?_, ?_, ?_⟩
  · rw [hT, List.map_map]
    have := sum_count_foldl_upsert TypeGroup._id TypeGroup.count typeOf newTypeGroup
      addToTypeGroup (fun _ _ => rfl) (fun _ => rfl) investments []
    simpa [typeGroups, Function.comp, toTypePerformance] using this
  · rw [hR, List.map_map]
    have := sum_count_foldl_upsert RiskGroup._id RiskGroup.count riskOf newRiskGroup
      addToRiskGroup (fun _ _ => rfl) (fun _ => rfl) investments []
    simpa [riskGroups, Function.comp, toRiskDistribution] using this
  · intro g hg
    rw [hT] at hg
    obtain ⟨g0, hg0, rfl⟩ := List.mem_map.1 hg
    have := forall_foldl_upsert (fun g : TypeGroup => 1 ≤ g.count) TypeGroup._id typeOf
      newTypeGroup addToTypeGroup investments
      (fun x _ g _ => by simp [addToTypeGroup])
      (fun x _ => by simp [addToTypeGroup]) [] (by simp) g0 hg0
    exact this
  · intro g hg
    rw [hR] at hg
    obtain ⟨g0, hg0, rfl⟩ := List.mem_map.1 hg
    have := forall_foldl_upsert (fun g : RiskGroup => 1 ≤ g.count) RiskGroup._id riskOf
      newRiskGroup addToRiskGroup investments
      (fun x _ g _ => by simp [addToRiskGroup])
      (fun x _ => by simp [addToRiskGroup]) [] (by simp) g0 hg0
    exact this
  · intro inv hinv
    constructor
    · have hne : investments.filter (fun x => decide (typeOf x = typeOf inv)) ≠ [] :=
        List.ne_nil_of_mem (List.mem_filter.2 ⟨hinv, by simp⟩)
      have hfind := typePerformanceOf_eq investments (typeOf inv)
      rw [if_neg hne] at hfind
      unfold typePerformanceOf at hfind
      exact ⟨_, List.mem_of_find?_eq_some hfind, by
        have := List.find?_some hfind
        simpa using this⟩
    · have hne : investments.filter (fun x => decide (riskOf x = riskOf inv)) ≠ [] :=
        List.ne_nil_of_mem (List.mem_filter.2 ⟨hinv, by simp⟩)
      have hfind := riskDistributionOf_eq investments (riskOf inv)
      rw [if_neg hne] at hfind
      unfold riskDistributionOf at hfind
      exact ⟨_, List.mem_of_find?_eq_some hfind, by
        have := List.find?_some hfind
        simpa using this⟩
  · intro type g hg
    rw [typePerformanceOf_eq] at hg
    split at hg
    · simp at hg
    · obtain ⟨_, _, _, _, h5, _⟩ := foldl_addToTypeGroup
        (investments.filter (fun inv => decide (typeOf inv = type))) (newTypeGroup type)
      have hg' := (Option.some.inj hg).symm
      rw [hg']
      exact h5
  · intro type pcs hmap hb
    obtain ⟨P, C, hPC, hfold⟩ := foldl_addToTotals64_int
      (investments.filter (fun inv => decide (typeOf inv = type))) pcs hmap 0 0
      (by simp only [Int.natAbs_zero]; omega)
    have hfold' : typeTotals64 investments type =
        { totalPrincipal := fin P, totalCurrentValue := fin C,
          totalProfitLoss := fin ((C - P : ℤ) : ℚ) } := by
      unfold typeTotals64
      simpa using hfold
    rw [hfold']
    exact (sub64_int C P (by omega)).symm

/-- Witness of C29: two stock holdings of medium risk form one type group and
one risk group of count 2; the group's `totalProfitLoss` is the sum of the two
differences, 100 and -50; and with the operators of the program, the amounts
being integers, the profit 50 is the current value 450 minus the principal
400. -/
theorem grouping_is_partition_witness :
    (((getPerformanceAnalytics
        [holding "A" 100 200 0 none, holding "B" 300 250 0 none]).performanceByType.map
      (fun g => g.count)).sum = 2) ∧
    (typeTotals64 [holding "A" 100 200 0 none, holding "B" 300 250 0 none]
      "stocks").totalProfitLoss =
      sub64 (typeTotals64 [holding "A" 100 200 0 none, holding "B" 300 250 0 none]
          "stocks").totalCurrentValue
        (typeTotals64 [holding "A" 100 200 0 none, holding "B" 300 250 0 none]
          "stocks").totalPrincipal ∧
    typeTotals64 [holding "A" 100 200 0 none, holding "B" 300 250 0 none] "stocks" =
      { totalPrincipal := fin 400, totalCurrentValue := fin 450, totalProfitLoss := fin 50 } := by
  have h := grouping_is_partition [holding "A" 100 200 0 none, holding "B" 300 250 0 none]
  refine ⟨h.1, h.2.2.2.2.2.2.2.2 "stocks" [(100, 200), (300, 250)] ?_ (by decide), by decide!⟩
  simp [holding, typeOf]

/-! ## Transactions: the category check of `updateTransaction` -/

namespace Transact

/-- The controller's check and the schema's validator give the same verdict on
every pair of a type and a category. -/
theorem isValidCategory_eq_validator (type category : String) :
    isValidCategory type category = categoryValidator (some type) category := by
  unfold isValidCategory categoryValidator EARNINGS_CATEGORIES EXPENSE_CATEGORIES
  by_cases h1 : type = "credit"
  · subst h1
    simp
  · by_cases h2 : type = "debit"
    · subst h2
      simp
    · simp [h1, h2]

/-- C26: `updateTransaction` answers 400 without calling the storage exactly
when `type` and `category` are both supplied (present and not empty) and the
schema's validator rejects the category for that type, that is when the
category is not in the earnings list for `credit`, not in the expense list for
`debit` (no category is valid for another type); on every pair the
controller's verdict is the validator's. -/
theorem updateTransaction_rejects (body : UpdateBody) (storage : Storage) :
    (((updateTransaction body storage).status = 400 ∧
        (updateTransaction body storage).storageCalls = 0) ↔
      ∃ t c, body.type = some t ∧ t ≠ "" ∧ body.category = some c ∧ c ≠ "" ∧
        categoryValidator (some t) c = false) ∧
    (∀ t c : String, isValidCategory t c = categoryValidator (some t) c) ∧
    (∀ t c : String, categoryValidator (some t) c = true ↔
      (t = "credit" ∧ c ∈ EARNINGS_CATEGORIES) ∨ (t = "debit" ∧ c ∈ EXPENSE_CATEGORIES)) := by
  refine ⟨?_, isValidCategory_eq_validator, ?_⟩
  · cases body with
    | mk type category =>
      cases type with
      | none => cases storage <;> simp [updateTransaction, truthyString]
      | some t =>
        cases category with
        | none => cases storage <;> simp [updateTransaction, truthyString]
        | some c =>
          by_cases ht : t = ""
          · cases storage <;> simp [updateTransaction, truthyString, ht]
          · by_cases hc : c = ""
            · cases storage <;> simp [updateTransaction, truthyString, hc]
            · cases hv : categoryValidator (some t) c <;>
                cases storage <;>
                simp [updateTransaction, truthyString, ht, hc, isValidCategory_eq_validator, hv]
  · intro t c
    unfold categoryValidator
    by_cases h1 : t = "credit"
    · subst h1
      simp
    · by_cases h2 : t = "debit"
      · subst h2
        simp
      · simp [h1, h2]

/-- Witness of C26: `food` is rejected for a `credit` before the storage is
called, and accepted for a `debit`. -/
theorem updateTransaction_rejects_witness :
    updateTransaction { type := some "credit", category := some "food" } .updated =
      { status := 400, storageCalls := 0 } ∧
    updateTransaction { type := some "debit", category := some "food" } .updated =
      { status := 200, storageCalls := 1 } ∧
    categoryValidator (some "credit") "food" = false := by
  have h := (updateTransaction_rejects { type := some "credit", category := some "food" }
    .updated).1.2 ⟨"credit", "food", rfl, by decide, rfl, by decide, by decide⟩
  refine ⟨?_, by decide, by decide⟩
  cases hr : updateTransaction { type := some "credit", category := some "food" } .updated with
  | mk status calls =>
    rw [hr] at h
    simp only at h
    rw [h.1, h.2]

end Transact

/-! ## The portfolio context of the advice route -/

namespace Market

/-- Inserting into a sorted list keeps it sorted, for a relation that is total
and transitive on the elements at hand. -/
theorem pairwise_orderedInsert_on {α : Type} (r : α → α → Prop) [DecidableRel r]
    (S : α → Prop) (htot : ∀ a b, S a → S b → r a b ∨ r b a)
    (htrans : ∀ a b c, S a → S b → S c → r a b → r b c → r a c)
    (a : α) (l : List α) (ha : S a) (hl : ∀ x ∈ l, S x) (hs : l.Pairwise r) :
    (l.orderedInsert r a).Pairwise r := by
  induction l with
  | nil => simp
  | cons b l ih =>
    have hb : S b := hl b (List.mem_cons_self _ _)
    have hl' : ∀ x ∈ l, S x := fun x hx => hl x (List.mem_cons_of_mem _ hx)
    obtain ⟨hbl, hsl⟩ := List.pairwise_cons.1 hs
    simp only [List.orderedInsert]
    split_ifs with h
    · refine List.pairwise_cons.2 ⟨?_, hs⟩
      intro x hx
      rcases List.mem_cons.1 hx with rfl | hx
      · exact h
      · exact htrans a b x ha hb (hl' x hx) h (hbl x hx)
    · refine List.pairwise_cons.2 ⟨?_, ih hl' hsl⟩
      intro x hx
      rcases (List.mem_orderedInsert r).1 hx with rfl | hx
      · rcases htot x b ha hb with h' | h'
        · exact absurd h' h
        · exact h'
      · exact hbl x hx

/-- The insertion sort yields a sorted list, for a relation that is total and
transitive on the elements of the list. -/
theorem pairwise_insertionSort_on {α : Type} (r : α → α → Prop) [DecidableRel r]
    (S : α → Prop) (htot : ∀ a b, S a → S b → r a b ∨ r b a)
    (htrans : ∀ a b c, S a → S b → S c → r a b → r b c → r a c)
    (l : List α) (hl : ∀ x ∈ l, S x) : (l.insertionSort r).Pairwise r := by
  induction l with
  | nil => simp
  | cons a l ih =>
    have hl' : ∀ x ∈ l, S x := fun x hx => hl x (List.mem_cons_of_mem _ hx)
    simp only [List.insertionSort]
    exact pairwise_orderedInsert_on r S htot htrans a _ (hl a (List.mem_cons_self _ _))
      (fun x hx => hl' x ((List.mem_insertionSort r).1 hx)) (ih hl')

/-- On holdings of finite value, the sort puts the values in non-increasing
order. -/
theorem sortByValueDesc_sorted (portfolio : List PortfolioHolding)
    (hfin : ∀ h ∈ portfolio, ∃ v : ℚ, holdingValue h = fin v) :
    (sortByValueDesc portfolio).Pairwise
      (fun a b => ge (holdingValue a) (holdingValue b) = true) := by
  have hrel : ∀ a b : PortfolioHolding, ∀ va vb : ℚ, holdingValue a = fin va →
      holdingValue b = fin vb → (gt (byValueDesc a b) (fin 0) = false ↔ vb ≤ va) := by
    intro a b va vb ha hb
    simp only [byValueDesc, ha, hb, sub_fin, gt_fin, decide_eq_false_iff_not, not_lt]
    constructor <;> intro h <;> linarith
  have hsorted := pairwise_insertionSort_on
    (fun a b : PortfolioHolding => gt (byValueDesc a b) (fin 0) = false)
    (fun h => ∃ v : ℚ, holdingValue h = fin v)
    (by
      rintro a b ⟨va, ha⟩ ⟨vb, hb⟩
      rcases le_total vb va with h | h
      · exact Or.inl ((hrel a b va vb ha hb).2 h)
      · exact Or.inr ((hrel b a vb va hb ha).2 h))
    (by
      rintro a b c ⟨va, ha⟩ ⟨vb, hb⟩ ⟨vc, hc⟩ hab hbc
      exact (hrel a c va vc ha hc).2
        (le_trans ((hrel b c vb vc hb hc).1 hbc) ((hrel a b va vb ha hb).1 hab)))
    portfolio hfin
  refine List.Pairwise.imp_of_mem ?_ hsorted
  intro a b ha hb hab
  have ha' := (List.mem_insertionSort _).1 ha
  have hb' := (List.mem_insertionSort _).1 hb
  obtain ⟨va, hva⟩ := hfin a ha'
  obtain ⟨vb, hvb⟩ := hfin b hb'
  have := (hrel a b va vb hva hvb).1 hab
  simp only [hva, hvb, ge_fin, decide_eq_true_eq]
  exact this

/-- C25: for a non-empty portfolio of finite quantities and prices,
`analyzePortfolio` reports as `totalValue` the sum of `quantity *
currentPrice` over the holdings, and as `topHoldings` the symbols, joined by
`", "`, of the first `min(3, n)` holdings of the portfolio arranged in
non-increasing order of that value, none of the holdings left out having a
larger value; for an empty or missing portfolio it reports `totalValue` 0 and
`topHoldings` `'None'`. -/
theorem analyzePortfolio_context (portfolio : List PortfolioHolding) (hne : portfolio ≠ [])
    (hfin : ∀ h ∈ portfolio, ∃ q p : ℚ,
      h.quantity = some (fin q) ∧ h.currentPrice = some (fin p)) :
    (∀ vs : List ℚ, portfolio.map holdingValue = vs.map fin →
      (analyzePortfolio (some portfolio)).totalValue = fin vs.sum) ∧
    (∃ sorted : List PortfolioHolding,
      sorted.Perm portfolio ∧
      sorted.Pairwise (fun a b => ge (holdingValue a) (holdingValue b) = true) ∧
      (analyzePortfolio (some portfolio)).topHoldings =
        ", ".intercalate ((sorted.take 3).map (fun h => h.symbol)) ∧
      (sorted.take 3).length = min 3 portfolio.length ∧
      (∀ a ∈ sorted.take 3, ∀ b ∈ sorted.drop 3,
        ge (holdingValue a) (holdingValue b) = true)) ∧
    ((analyzePortfolio none).totalValue = fin 0 ∧
      (analyzePortfolio none).topHoldings = "None" ∧
      (analyzePortfolio (some [])).totalValue = fin 0 ∧
      (analyzePortfolio (some [])).topHoldings = "None") := by
  have hval : ∀ h ∈ portfolio, ∃ v : ℚ, holdingValue h = fin v := by
    intro h hh
    obtain ⟨q, p, hq, hp⟩ := hfin h hh
    exact ⟨q * p, by simp [holdingValue, hq, hp, toNumber]⟩
  have hsorted := sortByValueDesc_sorted portfolio hval
  cases portfolio with
  | nil => exact absurd rfl hne
  | cons h hs =>
    refine ⟨?_, ⟨sortByValueDesc (h :: hs), List.perm_insertionSort _ _, hsorted, rfl, ?_, ?_⟩,
      ⟨rfl, rfl, rfl, rfl⟩⟩
    · intro vs hvs
      have := foldl_add_fin holdingValue (h :: hs) vs 0 hvs
      simpa [analyzePortfolio] using this
    · have hlen : (sortByValueDesc (h :: hs)).length = (h :: hs).length :=
        (List.perm_insertionSort _ (h :: hs)).length_eq
      rw [List.length_take, hlen]
    · have happ := List.take_append_drop 3 (sortByValueDesc (h :: hs))
      rw [← happ] at hsorted
      exact (List.pairwise_append.1 hsorted).2.2

/-- Witness of C25: four positions worth 10, 50, 20 and 30: total 110, top
holdings `B, D, C`. -/
theorem analyzePortfolio_context_witness :
    (analyzePortfolio (some [position "A" 1 10, position "B" 5 10, position "C" 2 10,
      position "D" 3 10])).totalValue = fin ([10, 50, 20, 30] : List ℚ).sum ∧
    (analyzePortfolio (some [position "A" 1 10, position "B" 5 10, position "C" 2 10,
      position "D" 3 10])).topHoldings = "B, D, C" := by
  have h := analyzePortfolio_context
    [position "A" 1 10, position "B" 5 10, position "C" 2 10, position "D" 3 10]
    (by simp)
    (by
      intro h hh
      simp only [List.mem_cons, List.mem_singleton, List.not_mem_nil, or_false] at hh
      rcases hh with rfl | rfl | rfl | rfl
      · exact ⟨1, 10, rfl, rfl⟩
      · exact ⟨5, 10, rfl, rfl⟩
      · exact ⟨2, 10, rfl, rfl⟩
      · exact ⟨3, 10, rfl, rfl⟩)
  refine ⟨h.1 [10, 50, 20, 30] ?_, ?_⟩
  · norm_num [holdingValue, position, toNumber]
  · have hs : sortByValueDesc [position "A" 1 10, position "B" 5 10, position "C" 2 10,
        position "D" 3 10] =
        [position "B" 5 10, position "D" 3 10, position "C" 2 10, position "A" 1 10] := by
      norm_num [sortByValueDesc, List.insertionSort, List.orderedInsert, byValueDesc,
        holdingValue, position, toNumber]
    simp only [analyzePortfolio, hs]
    decide

end Market

/-! ## Expired entries and failed refetches -/

namespace Market

/-- A read after `t + stdTTL * 1000` of a value written at `t` finds nothing
and deletes the entry. -/
theorem get_set_expired_eq (cache : Cache) (key : String) (value : Payload) (t later : Nat)
    (h : t + stdTTL * 1000 < later) :
    (cache.set key value t).get key later = (none, cache.filter (fun e => e.1 ≠ key)) := by
  have h0 : t + stdTTL * 1000 ≠ 0 := by
    simp [stdTTL]
  simp [Cache.get, Cache.set, List.find?, h, h0, List.filter_cons, List.filter_filter]

/-- When each of the three passes fails, `fetchWithRetry` throws. -/
theorem fetchWithRetry_fails {α : Type} (attempt : Nat → Attempt α)
    (h : ∀ j, j < defaultRetries → ∃ e, (attempt j).outcome = .error e) :
    ∃ e, (fetchWithRetry attempt defaultRetries).result = some (.error e) := by
  obtain ⟨e, he⟩ := h 2 (by decide)
  exact ⟨e, (fetchWithRetryFrom_all_fail attempt 3 3 0 rfl (by decide)
    (fun j _ hj => h j hj) e he).1⟩

/-- When the metal price request fails, the fallback of `/gold-prices` fails. -/
theorem goldFallback_fails (metal exchange : Nat → Attempt (Option JSVal))
    (h : ∀ j, j < defaultRetries → ∃ e, (metal j).outcome = .error e) :
    ∃ e, (goldFallback metal exchange).1 = .error e := by
  obtain ⟨e, he⟩ := fetchWithRetry_fails metal h
  exact ⟨"All gold price sources failed", by simp [goldFallback, he]⟩

/-- The `/gold-prices` handler on a cache miss when the gold API (if a key is
set) and the fallback fail: status 500, nothing written. -/
theorem goldPrices_no_data (goldApiKey : Bool) (primary : Nat → Attempt GoldData)
    (metal exchange : Nat → Attempt (Option JSVal)) (cache after : Cache) (now fetchMs : Nat)
    (hmiss : cache.get "gold-prices" now = (none, after))
    (hprimary : goldApiKey = true →
      ∀ j, j < defaultRetries → ∃ e, (primary j).outcome = .error e)
    (hmetal : ∀ j, j < defaultRetries → ∃ e, (metal j).outcome = .error e) :
    (goldPrices goldApiKey primary metal exchange cache now fetchMs).response =
      { status := 500, body := .error "Failed to fetch gold prices" } ∧
    (goldPrices goldApiKey primary metal exchange cache now fetchMs).cache = after := by
  obtain ⟨e, he⟩ := goldFallback_fails metal exchange hmetal
  cases hfb : goldFallback metal exchange with
  | mk r n =>
    rw [hfb] at he
    simp only at he
    subst he
    cases goldApiKey with
    | false => simp [goldPrices, hmiss, hfb]
    | true =>
      obtain ⟨e', he'⟩ := fetchWithRetry_fails primary (hprimary rfl)
      simp [goldPrices, hmiss, hfb, he']

/-- The `/gold-prices` handler when the cache holds a value for its key. -/
theorem goldPrices_hit (goldApiKey : Bool) (primary : Nat → Attempt GoldData)
    (metal exchange : Nat → Attempt (Option JSVal)) (cache : Cache) (now fetchMs : Nat)
    (cached : Payload) (after : Cache) (h : cache.get "gold-prices" now = (some cached, after)) :
    goldPrices goldApiKey primary metal exchange cache now fetchMs =
      { response := { status := 200, body := .json cached }, cache := after, calls := 0 } := by
  simp only [goldPrices, h]

/-- The `/nse/stocks` handler is its first part followed, when the request was
suspended, by its second part on the cache the first part left. -/
theorem nseStocksFor_eq_start_finish {ρ : Type} (stocks : List String)
    (upstream : String → Nat → Attempt (Option ρ))
    (quoteOf : String → ρ → Except String Stock) (cache : Cache) (now fetchMs : Nat) :
    nseStocksFor stocks upstream quoteOf cache now fetchMs =
      match nseStocksStart stocks upstream quoteOf cache now with
      | (.served response, cache) => { response := response, cache := cache, calls := 0 }
      | (.fetching validStocks calls, cache) =>
        { response := (nseStocksFinish validStocks cache (now + fetchMs)).1,
          cache := (nseStocksFinish validStocks cache (now + fetchMs)).2, calls := calls } := by
  cases hget : cache.get "nse-stocks" now with
  | mk v c =>
    cases v with
    | some cached => simp only [nseStocksFor, nseStocksStart, hget]
    | none =>
      simp only [nseStocksFor, nseStocksStart, nseStocksFinish, hget]
      split <;> rfl

/-- A read that found nothing leaves a cache where a later read finds nothing
either and changes nothing. -/
theorem get_after_miss (cache : Cache) (key : String) (now later : Nat)
    (h : (cache.get key now).1 = none) :
    (cache.get key now).2.get key later = (none, (cache.get key now).2) := by
  have hf := find?_after_miss cache key now h
  generalize (cache.get key now).2 = c at hf ⊢
  simp only [Cache.get, hf]

/-- On a miss the first part of the `/nse/stocks` handler suspends the request
with at least one upstream call per symbol. -/
theorem nseStocksStart_miss {ρ : Type} (stocks : List String)
    (upstream : String → Nat → Attempt (Option ρ))
    (quoteOf : String → ρ → Except String Stock) (cache after : Cache) (now : Nat)
    (hmiss : cache.get "nse-stocks" now = (none, after)) :
    ∃ validStocks calls,
      nseStocksStart stocks upstream quoteOf cache now = (.fetching validStocks calls, after) ∧
      stocks.length ≤ calls := by
  refine ⟨fulfilled ((stocks.map
      (chartSubFetch upstream quoteOf "Invalid data structure")).map Prod.fst),
    ((stocks.map (chartSubFetch upstream quoteOf "Invalid data structure")).map Prod.snd).sum,
    by simp only [nseStocksStart, hmiss], ?_⟩
  have := length_le_sum ((stocks.map
    (chartSubFetch upstream quoteOf "Invalid data structure")).map Prod.snd) (by
      intro n hn
      rw [List.map_map] at hn
      obtain ⟨s, _, rfl⟩ := List.mem_map.1 hn
      exact (chartSubFetch_calls upstream quoteOf _ s).1)
  simpa using this

end Market

namespace Market

/-- C21, as stated, fails: a first request of `/nse/stocks` fills the cache;
a request after the entry has expired, with every sub-fetch rejected, is
answered 503 and the expired payload is gone from the cache.  The same holds
for `/gold-prices`, answered 500. -/
theorem expired_payload_not_served :
    (nseStocksFor ["AAA.NS"] onlyAAA (fun s _ => .ok (sampleQuote s)) [] 0 50).response =
      { status := 200, body := .json (.stocks [sampleQuote "AAA.NS"]) } ∧
    nseStocksFor ["AAA.NS"] (fun _ _ => Attempt.rejected "offline")
      (fun s (_ : Nat) => .ok (sampleQuote s))
      (nseStocksFor ["AAA.NS"] onlyAAA (fun s _ => .ok (sampleQuote s)) [] 0 50).cache
      300051 50 =
      { response := { status := 503, body := .error "No stock data available" },
        cache := [], calls := 3 } ∧
    (goldPrices false (fun _ => .rejected "offline") (fun _ => .rejected "offline")
      (fun _ => .rejected "offline")
      (Cache.set [] "gold-prices" (.gold (processGold sampleGold 0)) 0)
      300001 50).response =
      { status := 500, body := .error "Failed to fetch gold prices" } := by
  refine ⟨rfl, rfl, rfl⟩

/-- C21, amended: a payload written at `t` is served, without any upstream
call, up to `t + stdTTL * 1000` only.  A request after that time whose
sub-fetches all fail is answered with the failure response (503 for
`/nse/stocks`, 500 for `/gold-prices`), although a payload was cached for the
key, and the expired entry is deleted. -/
theorem expired_payload_is_dropped {ρ : Type} (stocks : List String)
    (upstream : String → Nat → Attempt (Option ρ))
    (quoteOf : String → ρ → Except String Stock) (goldApiKey : Bool)
    (primary : Nat → Attempt GoldData) (metal exchange : Nat → Attempt (Option JSVal))
    (cache : Cache) (stale : Payload) (t later fetchMs : Nat)
    (hexp : t + stdTTL * 1000 < later)
    (hstocks : ∀ s ∈ stocks,
      ∃ e, (chartSubFetch upstream quoteOf "Invalid data structure" s).1 = .error e)
    (hprimary : goldApiKey = true →
      ∀ j, j < defaultRetries → ∃ e, (primary j).outcome = .error e)
    (hmetal : ∀ j, j < defaultRetries → ∃ e, (metal j).outcome = .error e) :
    (nseStocksFor stocks upstream quoteOf (cache.set "nse-stocks" stale t) later
      fetchMs).response = { status := 503, body := .error "No stock data available" } ∧
    (nseStocksFor stocks upstream quoteOf (cache.set "nse-stocks" stale t) later
      fetchMs).cache = cache.filter (fun e => e.1 ≠ "nse-stocks") ∧
    (goldPrices goldApiKey primary metal exchange (cache.set "gold-prices" stale t) later
      fetchMs).response = { status := 500, body := .error "Failed to fetch gold prices" } ∧
    (goldPrices goldApiKey primary metal exchange (cache.set "gold-prices" stale t) later
      fetchMs).cache = cache.filter (fun e => e.1 ≠ "gold-prices") ∧
    (∀ now, now ≤ t + stdTTL * 1000 →
      nseStocksFor stocks upstream quoteOf (cache.set "nse-stocks" stale t) now fetchMs =
        { response := { status := 200, body := .json stale },
          cache := cache.set "nse-stocks" stale t, calls := 0 } ∧
      goldPrices goldApiKey primary metal exchange (cache.set "gold-prices" stale t) now
        fetchMs =
        { response := { status := 200, body := .json stale },
          cache := cache.set "gold-prices" stale t, calls := 0 }) := by
  have hn := get_set_expired_eq cache "nse-stocks" stale t later hexp
  have hg := get_set_expired_eq cache "gold-prices" stale t later hexp
  have h1 := nseStocksFor_no_data stocks upstream quoteOf (cache.set "nse-stocks" stale t)
    later fetchMs (by rw [hn]) hstocks
  have h2 := goldPrices_no_data goldApiKey primary metal exchange
    (cache.set "gold-prices" stale t) _ later fetchMs hg hprimary hmetal
  refine ⟨h1.1, ?_, h2.1, h2.2, ?_⟩
  · rw [h1.2, hn]
  · intro now hnow
    exact ⟨nseStocksFor_hit stocks upstream quoteOf _ now fetchMs stale _
        (get_set_fresh cache "nse-stocks" stale t now hnow),
      goldPrices_hit goldApiKey primary metal exchange _ now fetchMs stale _
        (get_set_fresh cache "gold-prices" stale t now hnow)⟩

/-- C21, amended, on a request made 300001 ms after the write, every source
being offline. -/
theorem expired_payload_is_dropped_witness :
    0 + stdTTL * 1000 < 300001 ∧
    (nseStocksFor ["AAA.NS", "BBB.NS"] (fun _ _ => Attempt.rejected "offline")
      (fun s (_ : Nat) => .ok (sampleQuote s))
      (Cache.set [] "nse-stocks" (.stocks [sampleQuote "AAA.NS"]) 0) 300001 50).response =
      { status := 503, body := .error "No stock data available" } := by
  have hexp : 0 + stdTTL * 1000 < 300001 := by decide
  exact ⟨hexp, (expired_payload_is_dropped ["AAA.NS", "BBB.NS"]
    (fun _ _ => Attempt.rejected "offline") (fun s (_ : Nat) => .ok (sampleQuote s)) false
    (fun _ => .rejected "offline") (fun _ => .rejected "offline")
    (fun _ => .rejected "offline") [] (.stocks [sampleQuote "AAA.NS"]) 0 300001 50 hexp
    (fun _ _ => ⟨"offline", rfl⟩) (fun h => absurd h (by decide))
    (fun _ _ => ⟨"offline", rfl⟩)).1⟩

/-- C22, as stated, fails: of two requests of `/nse/stocks` in flight together
on an empty cache, each one misses the cache and makes its own upstream call
for the symbol, two calls in all, and each one writes the cache. -/
theorem concurrent_requests_fetch_twice :
    nseStocksStart ["AAA.NS"] onlyAAA (fun s _ => .ok (sampleQuote s)) [] 0 =
      (.fetching [sampleQuote "AAA.NS"] 1, []) ∧
    nseStocksStart ["AAA.NS"] onlyAAA (fun s _ => .ok (sampleQuote s)) [] 10 =
      (.fetching [sampleQuote "AAA.NS"] 1, []) ∧
    (nseStocksConcurrent ["AAA.NS"] onlyAAA onlyAAA (fun s _ => .ok (sampleQuote s)) []
      0 10 50 60).calls = 2 ∧
    (nseStocksConcurrent ["AAA.NS"] onlyAAA onlyAAA (fun s _ => .ok (sampleQuote s)) []
      0 10 50 60).cache =
      Cache.set [] "nse-stocks" (.stocks [sampleQuote "AAA.NS"]) 60 := by
  refine ⟨rfl, rfl, rfl, rfl⟩

/-- C22, amended: the handler of `/nse/stocks` is its part before the `await`
followed by its part after it, and nothing is shared between requests but the
cache.  When a request misses the cache, a second request that arrives while
the first awaits its promises misses it too and starts its own sub-fetches:
together they make at least two upstream calls per symbol.  Only a request
that arrives after the first one has written its payload, and within
`stdTTL` seconds of the write, is served from the cache without upstream
call. -/
theorem concurrent_requests_both_fetch {ρ : Type} (stocks : List String)
    (upstreamA upstreamB : String → Nat → Attempt (Option ρ))
    (quoteOf : String → ρ → Except String Stock) (cache : Cache)
    (nowA nowB doneA doneB : Nat)
    (hmiss : (cache.get "nse-stocks" nowA).1 = none) :
    (∀ fetchMs, nseStocksFor stocks upstreamA quoteOf cache nowA fetchMs =
      resume (nseStocksStart stocks upstreamA quoteOf cache nowA).1
        (nseStocksStart stocks upstreamA quoteOf cache nowA).2 (nowA + fetchMs)) ∧
    (∃ validA callsA validB callsB,
      nseStocksStart stocks upstreamA quoteOf cache nowA =
        (.fetching validA callsA, (cache.get "nse-stocks" nowA).2) ∧
      nseStocksStart stocks upstreamB quoteOf (cache.get "nse-stocks" nowA).2 nowB =
        (.fetching validB callsB, (cache.get "nse-stocks" nowA).2) ∧
      stocks.length ≤ callsA ∧ stocks.length ≤ callsB ∧
      (nseStocksConcurrent stocks upstreamA upstreamB quoteOf cache nowA nowB doneA
        doneB).calls = callsA + callsB) ∧
    2 * stocks.length ≤
      (nseStocksConcurrent stocks upstreamA upstreamB quoteOf cache nowA nowB doneA
        doneB).calls ∧
    (∀ (validA : List Stock) (before : Cache) (later : Nat), validA.length ≠ 0 →
      later ≤ doneA + stdTTL * 1000 →
      nseStocksStart stocks upstreamB quoteOf (nseStocksFinish validA before doneA).2 later =
        (.served { status := 200, body := .json (.stocks validA) },
          (nseStocksFinish validA before doneA).2)) := by
  have hget : cache.get "nse-stocks" nowA = (none, (cache.get "nse-stocks" nowA).2) :=
    Prod.ext hmiss rfl
  obtain ⟨validA, callsA, hA, hlenA⟩ :=
    nseStocksStart_miss stocks upstreamA quoteOf cache _ nowA hget
  obtain ⟨validB, callsB, hB, hlenB⟩ :=
    nseStocksStart_miss stocks upstreamB quoteOf _ _ nowB
      (get_after_miss cache "nse-stocks" nowA nowB hmiss)
  have hcalls : (nseStocksConcurrent stocks upstreamA upstreamB quoteOf cache nowA nowB
      doneA doneB).calls = callsA + callsB := by
    simp only [nseStocksConcurrent, hA, hB, resume]
  refine ⟨?_, ⟨validA, callsA, validB, callsB, hA, hB, hlenA, hlenB, hcalls⟩, ?_, ?_⟩
  · intro fetchMs
    rw [nseStocksFor_eq_start_finish, hA]
    rfl
  · rw [hcalls]
    omega
  · intro validA before later hne hlater
    have hfin : (nseStocksFinish validA before doneA).2 =
        before.set "nse-stocks" (.stocks validA) doneA := by
      simp only [nseStocksFinish, hne, if_false]
    rw [hfin]
    simp only [nseStocksStart, get_set_fresh before "nse-stocks" _ doneA later hlater]

/-- C22, amended, on two requests for the ten symbols of `topStocks` on an
empty cache: at least twenty upstream calls. -/
theorem concurrent_requests_both_fetch_witness :
    (Cache.get [] "nse-stocks" 0).1 = none ∧
    2 * topStocks.length ≤
      (nseStocksConcurrent topStocks onlyAAA onlyAAA (fun s _ => .ok (sampleQuote s)) []
        0 10 50 60).calls :=
  ⟨rfl, (concurrent_requests_both_fetch topStocks onlyAAA onlyAAA
    (fun s _ => .ok (sampleQuote s)) [] 0 10 50 60 rfl).2.2.1⟩

end Market

namespace Service

/-- C30: when the `try` block of `fetchPreciousMetalsDataIBJA` fails,
`fetchPreciousMetalsData` returns the list of the alternative adapter: that of
its first invocation (inside the IBJA method) when it succeeds, else the
outcome of the second invocation (in the outer `catch`).  The call fails
exactly when both invocations fail, with the error of the second; every list
returned is one an invocation of the alternative adapter returned; the
adapter is invoked once when its first invocation succeeds, twice otherwise. -/
theorem preciousMetals_fallback (feeds : MetalFeeds) (hfail : ∃ e, ibjaOwn feeds = .error e) :
    (fetchPreciousMetalsData feeds).result =
      (match fetchPreciousMetalsDataAlternative feeds 0 with
       | .ok priceUpdates => .ok priceUpdates
       | .error _ => fetchPreciousMetalsDataAlternative feeds 1) ∧
    ((∃ e, (fetchPreciousMetalsData feeds).result = .error e) ↔
      (∃ e, fetchPreciousMetalsDataAlternative feeds 0 = .error e) ∧
      (∃ e, fetchPreciousMetalsDataAlternative feeds 1 = .error e)) ∧
    (∀ e, (fetchPreciousMetalsData feeds).result = .error e →
      fetchPreciousMetalsDataAlternative feeds 1 = .error e) ∧
    (∀ priceUpdates, (fetchPreciousMetalsData feeds).result = .ok priceUpdates →
      fetchPreciousMetalsDataAlternative feeds 0 = .ok priceUpdates ∨
      fetchPreciousMetalsDataAlternative feeds 1 = .ok priceUpdates) ∧
    (fetchPreciousMetalsData feeds).alternativeCalls =
      (match fetchPreciousMetalsDataAlternative feeds 0 with
       | .ok _ => 1
       | .error _ => 2) := by
  obtain ⟨e, he⟩ := hfail
  cases h0 : feeds.alternative 0 with
  | ok l0 =>
    simp [fetchPreciousMetalsData, fetchPreciousMetalsDataIBJA,
      fetchPreciousMetalsDataAlternative, he, h0]
  | error e0 =>
    cases h1 : feeds.alternative 1 with
    | ok l1 =>
      simp [fetchPreciousMetalsData, fetchPreciousMetalsDataIBJA,
        fetchPreciousMetalsDataAlternative, he, h0, h1]
    | error e1 =>
      simp [fetchPreciousMetalsData, fetchPreciousMetalsDataIBJA,
        fetchPreciousMetalsDataAlternative, he, h0, h1]

/-- C30 on a world where the IBJA request fails and the alternative adapter
fails once, then answers. -/
theorem preciousMetals_fallback_witness :
    (∃ e, ibjaOwn ibjaDown = .error e) ∧
    (fetchPreciousMetalsData ibjaDown).result =
      .ok [{ symbol := "GOLD_24K", price := fin 7000 }] ∧
    (fetchPreciousMetalsData ibjaDown).alternativeCalls = 2 :=
  ⟨⟨_, rfl⟩, (preciousMetals_fallback ibjaDown ⟨_, rfl⟩).1.trans rfl,
    (preciousMetals_fallback ibjaDown ⟨_, rfl⟩).2.2.2.2.trans rfl⟩

end Service

end Expem
